import Mathlib

/-!
Verification of the CiteMigrate conversion engine (src/citemigrate.py)
against its specification. The XML markup trees, the Citavi payload
decoder, the Zotero matcher, the field-code synthesizer and the archive
accessor are shallowly embedded below; Python strings are modelled as
`List Char`, Python bytes as `List Nat`, JSON values as an inductive
type `J`, and fallible operations return `Option` or `Except`.
-/

set_option maxRecDepth 4000
set_option linter.unusedVariables false
set_option autoImplicit false

/-- Strings from the Python source are modelled as lists of characters. -/
abbrev Str := List Char

/-! ## Basic Python string primitives used throughout the source -/

/-- Python whitespace (`str.split()` / `str.strip()` default set). -/
def pyIsSpace (c : Char) : Bool :=
  c == ' ' || c == '\t' || c == '\n' || c == '\r' || c == '\x0b' || c == '\x0c'

/-- Strip characters satisfying `p` from both ends of a string. -/
def stripWhile (p : Char → Bool) (s : Str) : Str :=
  ((s.dropWhile p).reverse.dropWhile p).reverse

/-- Python `str.strip()` (no argument): strips whitespace at both ends. -/
def pyStrip (s : Str) : Str := stripWhile pyIsSpace s

/-- Python `str.strip(chars)`: strips any of the given characters at both
ends. -/
def pyStripSet (cs : Str) (s : Str) : Str := stripWhile (cs.contains ·) s

/-- Python `str.rstrip(chars)`: strips the given characters on the right. -/
def pyRStripSet (cs : Str) (s : Str) : Str :=
  (s.reverse.dropWhile (cs.contains ·)).reverse

/-- Python `str.lower()` (the source only lowercases ASCII data). -/
def pyLower (s : Str) : Str := s.map Char.toLower

/-- Python `tok.split()` (split on whitespace runs, no empty fields);
accumulator-based so that it reduces by `rfl` / `decide`. -/
def pySplitWsAux : Str → Str → List Str
  | [], acc => if acc.isEmpty then [] else [acc.reverse]
  | c :: cs, acc =>
    if pyIsSpace c then
      if acc.isEmpty then pySplitWsAux cs [] else acc.reverse :: pySplitWsAux cs []
    else pySplitWsAux cs (c :: acc)

def pySplitWs (s : Str) : List Str := pySplitWsAux s []

/-- Decimal digit characters of a natural number (fuel-indexed so that it
reduces in the kernel; `natToStr` supplies sufficient fuel). -/
def natToStrAux : Nat → Nat → Str
  | 0, _ => []
  | fuel + 1, n =>
    if n < 10 then [Char.ofNat (48 + n)]
    else natToStrAux fuel (n / 10) ++ [Char.ofNat (48 + n % 10)]

/-- Python `str(n)` for a natural number. -/
def natToStr (n : Nat) : Str := natToStrAux (n + 1) n

/-- Python `str(n)` for an integer. -/
def intToStr (n : Int) : Str :=
  if n < 0 then '-' :: natToStr n.natAbs else natToStr n.natAbs

/-! ## Credential sanitizer (run_conversion / ConversionWorker.run)

The source redacts the Zotero API key from error text before logging:
```
err_msg = str(e)
if api_key and len(api_key) > 4:
    err_msg = err_msg.replace(api_key, api_key[:4] + "****")
```
-/

/-- `api_key[:4] + "****"`: the redacted stand-in for the credential. -/
def maskKey (key : Str) : Str := key.take 4 ++ "****".toList

/-- Left-to-right non-overlapping replacement, the semantics of Python
`str.replace` for a non-empty pattern. Fuel-indexed (callers pass
`s.length + 1`, which is sufficient because every step consumes at least
one character of `s`). -/
def pyReplaceAux (key rep : Str) : Nat → Str → Str
  | 0, s => s
  | fuel + 1, s =>
    if key.isPrefixOf s then rep ++ pyReplaceAux key rep fuel (s.drop key.length)
    else
      match s with
      | [] => []
      | c :: cs => c :: pyReplaceAux key rep fuel cs

/-- Python `s.replace(key, rep)` (for an empty pattern Python interleaves
the replacement between all characters). -/
def pyReplace (key rep s : Str) : Str :=
  if key.isEmpty then rep ++ s.flatMap (fun c => c :: rep)
  else pyReplaceAux key rep (s.length + 1) s

/-- The error-sanitization step applied to every failure message before it
is surfaced (run_conversion lines 854-859, ConversionWorker.run lines
1128-1138): the key is replaced by a 4-character prefix plus `****`, but
only when the key is non-empty and longer than 4 characters. -/
def sanitizeError (apiKey msg : Str) : Str :=
  if apiKey ≠ [] ∧ 4 < apiKey.length then pyReplace apiKey (maskKey apiKey) msg
  else msg

/-! ## Archive accessor: extraction-side zip-slip check (run_conversion)

```
for member in z.namelist():
    member_path = os.path.realpath(os.path.join(extract_dir, member))
    if not member_path.startswith(os.path.realpath(extract_dir)):
        raise ValueError(f"Unsafe path in .docx archive: ...")
z.extractall(extract_dir)
```
Paths are modelled as lists of components; the extraction root is an
absolute, already-normalized component list (it is a freshly created
temporary directory, so `os.path.realpath` leaves it unchanged and no
symlinks are involved). -/

/-- `os.path.realpath`-style normalization of the component list of an
absolute path: `..` pops a component, `.` and empty components vanish. -/
def normComponents (comps : List Str) : List Str :=
  comps.foldl
    (fun acc comp =>
      if comp = "..".toList then acc.dropLast
      else if comp = ".".toList ∨ comp = [] then acc
      else acc ++ [comp])
    []

/-- Split a zip member name into its `/`-separated components. -/
def splitSlash (s : Str) : List Str := s.splitOn '/'

/-- `os.path.join(root, member)`: an absolute member name discards the
root. -/
def joinPath (root : List Str) (member : Str) : List Str :=
  if member.head? = some '/' then splitSlash member
  else root ++ splitSlash member

/-- Render a component list as the absolute path string it denotes. -/
def pathStr (comps : List Str) : Str :=
  '/' :: List.intercalate "/".toList comps

/-- `os.path.realpath(os.path.join(extract_dir, member))` as components. -/
def memberResolved (root : List Str) (member : Str) : List Str :=
  normComponents (joinPath root member)

/-- The source's safety test for one member:
`member_path.startswith(os.path.realpath(extract_dir))` — a *string*
prefix test on the rendered paths. -/
def zipSlipOk (root : List Str) (member : Str) : Bool :=
  (pathStr root).isPrefixOf (pathStr (memberResolved root member))

/-- What the test is meant to establish: the resolved member path lies
inside the extraction root (the root's components are a componentwise
prefix of the member's resolved components). -/
def insideRoot (root : List Str) (member : Str) : Bool :=
  root.isPrefixOf (memberResolved root member)

/-- First member failing the safety test, in archive order. -/
def firstUnsafeMember (root : List Str) : List Str → Option Str
  | [] => none
  | m :: ms => if zipSlipOk root m then firstUnsafeMember root ms else some m

/-- The extraction step of `run_conversion`: validate every member path,
raising `ValueError` (modelled as `Except.error`) at the first unsafe
member before anything is extracted; only if all members pass are the
members extracted. -/
def extractArchive (root : List Str) (members : List Str) : Except Str (List Str) :=
  match firstUnsafeMember root members with
  | some m =>
    .error ("Unsafe path in .docx archive: ".toList ++ m
      ++ ". The file may be malicious.".toList)
  | none => .ok members

/-! ## Archive accessor: repacking (run_conversion)

```
with zipfile.ZipFile(output_path, "w", zipfile.ZIP_DEFLATED) as zout:
    if os.path.exists(content_types_path):
        zout.write(content_types_path, "[Content_Types].xml",
                  compress_type=zipfile.ZIP_STORED)
    for root_dir, dirs, files in os.walk(extract_dir):
        for file in files:
            if file == "[Content_Types].xml" and root_dir == extract_dir:
                continue
            ...
            zout.write(file_path, arcname)
```
The walk is modelled by the list of archive names (paths relative to the
extraction directory) of all extracted files, in walk order. -/

def CONTENT_TYPES : Str := "[Content_Types].xml".toList

inductive Compression where
  | stored
  | deflated
deriving DecidableEq, Repr

/-- The repack step: the member list of the output archive in write
order, with the compression method used for each member. `ZIP_DEFLATED`
is the archive-level default, so every plain `write` call compresses;
the content-types part alone is written with `ZIP_STORED`. The skip
condition `file == "[Content_Types].xml" and root_dir == extract_dir`
is equivalent to the arcname being `[Content_Types].xml`. -/
def repackArchive (files : List Str) : List (Str × Compression) :=
  (if CONTENT_TYPES ∈ files then [(CONTENT_TYPES, Compression.stored)] else [])
    ++ (files.filter (fun f => !(f == CONTENT_TYPES))).map
        (fun f => (f, Compression.deflated))

/-! ## XML markup trees -/

/-- An XML element as handled by lxml in the source: a tag, an attribute
list, optional element text, and child elements. All elements and
attributes the engine manipulates live in the single `w:` namespace (or
the fixed `xml:` namespace for `xml:space`), so qualified names are
modelled by their local names. -/
inductive XNode where
  | elem (tag : Str) (attrs : List (Str × Str)) (txt : Option Str)
      (children : List XNode)

namespace XNode

def tag : XNode → Str
  | .elem t _ _ _ => t

def attrs : XNode → List (Str × Str)
  | .elem _ a _ _ => a

def txt : XNode → Option Str
  | .elem _ _ tx _ => tx

def children : XNode → List XNode
  | .elem _ _ _ cs => cs

/-- `elem.get(attr, "")` from the source: attribute lookup with default
empty string. -/
def getAttr (n : XNode) (key : Str) : Str :=
  match n.attrs.lookup key with
  | some v => v
  | none => []

mutual

/-- Document-order (preorder) traversal: `elem.iter()` in lxml yields the
element itself followed by all of its descendants in document order. -/
def iterAll : XNode → List XNode
  | .elem t a tx cs => .elem t a tx cs :: iterAllList cs

def iterAllList : List XNode → List XNode
  | [] => []
  | c :: cs => iterAll c ++ iterAllList cs

end

/-- `elem.iter(w:someTag)`: document-order traversal filtered by tag. -/
def iterTag (n : XNode) (t : Str) : List XNode :=
  n.iterAll.filter (fun m => m.tag == t)

/-- `elem.find(w:someTag)`: first *direct child* with the given tag. -/
def findChild (n : XNode) (t : Str) : Option XNode :=
  n.children.find? (fun m => m.tag == t)

end XNode

/-- Python `pat in s` (substring containment test). -/
def pyIn (pat : Str) : Str → Bool
  | [] => pat.isEmpty
  | c :: rest => pat.isPrefixOf (c :: rest) || pyIn pat rest

/-! ## Placeholder scanner (find_citavi_sdts) -/

/-- One node of `find_citavi_sdts`: a `w:sdt` whose `sdtPr/tag` has a
`val` attribute starting with the `CitaviPlaceholder#` sentinel. -/
def isCitaviSdt (n : XNode) : Bool :=
  n.tag == "sdt".toList &&
    match n.findChild "sdtPr".toList with
    | none => false
    | some pr =>
      match pr.findChild "tag".toList with
      | none => false
      | some tagElem =>
        "CitaviPlaceholder#".toList.isPrefixOf (tagElem.getAttr "val".toList)

/-- `find_citavi_sdts`: all Citavi placeholder nodes in document order. -/
def find_citavi_sdts (root : XNode) : List XNode :=
  root.iterAll.filter isCitaviSdt

/-! ## Display-text extraction (extract_citavi_display_text)

Walks all descendants of the `sdtContent` region in document order,
toggling an `in_display` flag at `fldChar` markers (`separate` turns it
on, `end` turns it off) and collecting the text of `w:t` runs seen while
the flag is on. -/

def displayTextScan : List XNode → Bool → Str
  | [], _ => []
  | e :: es, inDisplay =>
    let inDisplay' :=
      if e.tag == "fldChar".toList then
        if e.getAttr "fldCharType".toList == "separate".toList then true
        else if e.getAttr "fldCharType".toList == "end".toList then false
        else inDisplay
      else inDisplay
    (if inDisplay' && e.tag == "t".toList then
      match e.txt with
      | some t => t
      | none => []
    else []) ++ displayTextScan es inDisplay'

def extract_citavi_display_text (sdt : XNode) : Str :=
  match sdt.findChild "sdtContent".toList with
  | none => []
  | some content => pyStrip (displayTextScan content.iterAll false)

/-! ## Integrity verifier (verify_document_integrity) -/

/-- The `fldCharType` attributes of all `w:fldChar` markers of a tree,
in document order. -/
def fldTypes (es : List XNode) : List Str :=
  es.filterMap (fun e =>
    if e.tag == "fldChar".toList then some (e.getAttr "fldCharType".toList)
    else none)

def fldCharTypesOf (root : XNode) : List Str := fldTypes root.iterAll

def fldCharTypesOfList (ns : List XNode) : List Str :=
  fldTypes (XNode.iterAllList ns)

/-- The texts of all `w:instrText` runs of a forest, in document order. -/
def instrTextsOfList (ns : List XNode) : List Str :=
  (XNode.iterAllList ns).filterMap (fun e =>
    if e.tag == "instrText".toList then e.txt else none)

def UNMATCHED_END_MSG : Str :=
  "Unmatched field \x27end\x27 without \x27begin\x27".toList

def unclosedMsg (n : Int) : Str :=
  intToStr n ++ " unclosed field(s) detected (begin without end)".toList

def BODY_MSG : Str := "Document body element not found".toList

def SDT_MSG : Str := "SDT element without sdtContent found".toList

/-- Check 1 of the verifier: running open-field counter over all
`fldChar` markers; a negative transition stops the walk (unmatched
`end`), otherwise the final count is returned. -/
def fldBalanceWalk : List Str → Int → Option Int
  | [], st => some st
  | t :: ts, st =>
    let st' :=
      if t = "begin".toList then st + 1
      else if t = "end".toList then st - 1
      else st
    if st' < 0 then none else fldBalanceWalk ts st'

def verify_check1 (root : XNode) : List Str :=
  match fldBalanceWalk (fldCharTypesOf root) 0 with
  | none => [UNMATCHED_END_MSG]
  | some st => if 0 < st then [unclosedMsg st] else []

/-- `verify_document_integrity` on a parsed tree: paired-marker check,
body-present check, and orphaned-`sdtContent` check, in source order.
Issues are returned (advisory), never raised. -/
def verify_document_integrity (root : XNode) : List Str :=
  verify_check1 root
    ++ (if (root.findChild "body".toList).isNone then [BODY_MSG] else [])
    ++ (root.iterTag "sdt".toList).filterMap (fun sdt =>
        if (sdt.findChild "sdtContent".toList).isNone then some SDT_MSG else none)

/-! ## Field code synthesizer (create_zotero_field_xml and the
bibliography variant) -/

/-- A `w:r` run holding a single `w:fldChar` marker of the given type. -/
def mkFldCharRun (t : Str) : XNode :=
  XNode.elem "r".toList [] none
    [XNode.elem "fldChar".toList [("fldCharType".toList, t)] none []]

/-- A `w:r` run holding one `w:instrText` chunk (with `xml:space`
preserved). -/
def mkInstrRun (chunk : Str) : XNode :=
  XNode.elem "r".toList [] none
    [XNode.elem "instrText".toList [("xml:space".toList, "preserve".toList)]
      (some chunk) []]

/-- The display run of a citation field: `w:rPr/w:noProof` plus the
`w:t` text. -/
def mkDisplayRun (display : Str) : XNode :=
  XNode.elem "r".toList [] none
    [XNode.elem "rPr".toList [] none [XNode.elem "noProof".toList [] none []],
     XNode.elem "t".toList [("xml:space".toList, "preserve".toList)]
       (some display) []]

/-- The full instruction text of a citation field:
`" ADDIN ZOTERO_ITEM CSL_CITATION {json} "`. -/
def zoteroItemInstr (citation_json_str : Str) : Str :=
  " ADDIN ZOTERO_ITEM CSL_CITATION ".toList ++ citation_json_str ++ " ".toList

/-- `instr_text[i:i+chunk_size] for i in range(0, len(instr_text),
chunk_size)`: contiguous chunks of size `n` (callers use `n = 250 > 0`;
the fuel is sufficient since every step consumes at least one
character). -/
def chunkListAux (n : Nat) : Nat → Str → List Str
  | 0, _ => []
  | fuel + 1, s => if s.isEmpty then [] else s.take n :: chunkListAux n fuel (s.drop n)

def chunkList (n : Nat) (s : Str) : List Str := chunkListAux n (s.length + 1) s

/-- `create_zotero_field_xml`: begin marker, instruction chunks, separate
marker, display run, end marker. -/
def create_zotero_field_xml (citation_json_str display_text : Str) : List XNode :=
  mkFldCharRun "begin".toList
    :: (chunkList 250 (zoteroItemInstr citation_json_str)).map mkInstrRun
    ++ [mkFldCharRun "separate".toList, mkDisplayRun display_text,
        mkFldCharRun "end".toList]

/-- `json.dumps({"uncited": [], "omitted": [], "custom": []},
ensure_ascii=False)` as the source computes it. -/
def BIBL_JSON : Str :=
  "\x7b\"uncited\": [], \"omitted\": [], \"custom\": []\x7d".toList

def zoteroBiblInstr : Str :=
  " ADDIN ZOTERO_BIBL ".toList ++ BIBL_JSON ++ " CSL_BIBLIOGRAPHY ".toList

/-- The bibliography display run (no `noProof` here, matching the
source). -/
def mkBiblDisplayRun : XNode :=
  XNode.elem "r".toList [] none
    [XNode.elem "t".toList [("xml:space".toList, "preserve".toList)]
      (some "\x7bBibliography will be generated by Zotero\x7d".toList) []]

/-- `create_zotero_bibl_field_xml` (its `style_uri` parameter is unused
in the source as well). -/
def create_zotero_bibl_field_xml (style_uri : Str) : List XNode :=
  [mkFldCharRun "begin".toList, mkInstrRun zoteroBiblInstr,
   mkFldCharRun "separate".toList, mkBiblDisplayRun,
   mkFldCharRun "end".toList]

/-! ## Document rewriter: bibliography handling -/

/-- A `w:sdt` whose `sdtPr/tag` `val` *contains* one of the Citavi
bibliography markers. -/
def isCitaviBiblSdt (n : XNode) : Bool :=
  n.tag == "sdt".toList &&
    match n.findChild "sdtPr".toList with
    | none => false
    | some pr =>
      match pr.findChild "tag".toList with
      | none => false
      | some tagElem =>
        pyIn "CitaviBibliography".toList (tagElem.getAttr "val".toList)
          || pyIn "CitaviFilteredBibliography".toList
              (tagElem.getAttr "val".toList)

mutual

/-- `remove_citavi_bibliography`: remove every Citavi bibliography SDT,
returning the new tree and the number removed. (Python collects the
nodes first and also counts matching SDTs nested inside an already
removed one; removing the outer node yields the same tree either way,
so only the count — used by the caller solely as a `> 0` test — can
differ on such nestings.) -/
def remove_citavi_bibliography : XNode → XNode × Nat
  | .elem t a tx cs =>
    let r := removeBiblList cs
    (.elem t a tx r.1, r.2)

def removeBiblList : List XNode → List XNode × Nat
  | [] => ([], 0)
  | c :: cs =>
    let rest := removeBiblList cs
    if isCitaviBiblSdt c then (rest.1, rest.2 + 1)
    else
      let r := remove_citavi_bibliography c
      (r.1 :: rest.1, r.2 + rest.2)

end

/-- `instr.text and "ZOTERO_BIBL" in instr.text` over all `w:instrText`
elements: does a Zotero bibliography field already exist? -/
def treeHasZoteroBibl (root : XNode) : Bool :=
  (root.iterTag "instrText".toList).any (fun e =>
    match e.txt with
    | some t => pyIn "ZOTERO_BIBL".toList t
    | none => false)

/-- Insert `p` immediately before the first child with the given tag, or
at the end if there is none (`body.insert(index(sect_pr), p)` /
`body.append(p)`). -/
def insertBeforeFirst (tagT : Str) (p : XNode) : List XNode → List XNode
  | [] => [p]
  | c :: cs => if c.tag == tagT then p :: c :: cs else c :: insertBeforeFirst tagT p cs

/-- Replace the first child with the given tag (the one `find`
returned). -/
def replaceFirstByTag (tagT : Str) (newN : XNode) : List XNode → List XNode
  | [] => []
  | c :: cs => if c.tag == tagT then newN :: cs else c :: replaceFirstByTag tagT newN cs

/-- `add_zotero_bibl_at_end`: no-op (returning `False`) when the root has
no direct `body` child or when a `ZOTERO_BIBL` field already exists
anywhere; otherwise wraps the bibliography field in a new paragraph and
inserts it before a trailing `sectPr` (or appends it to the body),
returning `True`. -/
def add_zotero_bibl_at_end (root : XNode) (style_uri : Str) : Bool × XNode :=
  match root with
  | .elem t a tx cs =>
    match cs.find? (fun m => m.tag == "body".toList) with
    | none => (false, .elem t a tx cs)
    | some body =>
      if treeHasZoteroBibl (.elem t a tx cs) then (false, .elem t a tx cs)
      else
        let p := XNode.elem "p".toList [] none (create_zotero_bibl_field_xml style_uri)
        let body2 := XNode.elem body.tag body.attrs body.txt
          (insertBeforeFirst "sectPr".toList p body.children)
        (true, .elem t a tx (replaceFirstByTag "body".toList body2 cs))

/-! ## Library matcher (ZoteroMatcher)

Zotero items are modelled by the fields the engine reads through
`data.get(field, "")`; an absent field and an empty string are
indistinguishable to the source, so fields are plain strings with `[]`
for "absent". Citation records are modelled with `Option` fields because
the source distinguishes key presence (`"doi" in citation_info`) and the
memoization key is the record itself. Python float scores are modelled
by exact rationals: the weights 2, 3 and 5, the threshold 3 and the
ratio bound 0.6 = 3/5 are exactly representable, and for realistic token
counts the float comparisons of the source agree with the rational
ones. -/

structure Creator where
  creatorType : Str
  lastName : Str
  firstName : Str
  name : Str
deriving DecidableEq, Repr

structure ZotItemData where
  itemType : Str
  title : Str
  date : Str
  DOI : Str
  ISBN : Str
  ISSN : Str
  url : Str
  edition : Str
  volume : Str
  issue : Str
  pages : Str
  publisher : Str
  place : Str
  publicationTitle : Str
  bookTitle : Str
  proceedingsTitle : Str
  creators : List Creator
deriving DecidableEq, Repr

structure ZotItem where
  key : Str
  data : ZotItemData
deriving DecidableEq, Repr

structure Author where
  family : Str
  given : Str
deriving DecidableEq, Repr

structure CitationInfo where
  title : Option Str
  authors : Option (List Author)
  year : Option Str
  doi : Option Str
  isbn : Option Str
deriving DecidableEq, Repr

/-- Exact-DOI stage of `find_match` (case-insensitive, trimmed; empty
item DOIs never match). -/
def doiStage (items : List ZotItem) (info : CitationInfo) : Option ZotItem :=
  match info.doi with
  | none => none
  | some d =>
    let doi := pyStrip (pyLower d)
    items.find? (fun item =>
      let item_doi := pyStrip (pyLower item.data.DOI)
      !item_doi.isEmpty && item_doi == doi)

/-- `re.sub(r'[\s-]', '', s)`. -/
def stripIsbnChars (s : Str) : Str :=
  s.filter (fun c => !(pyIsSpace c || c == '-'))

/-- Exact-ISBN stage of `find_match` (hyphens and whitespace stripped on
both sides; empty item ISBNs never match). -/
def isbnStage (items : List ZotItem) (info : CitationInfo) : Option ZotItem :=
  match info.isbn with
  | none => none
  | some i0 =>
    let isbn := stripIsbnChars i0
    items.find? (fun item =>
      let item_isbn := stripIsbnChars item.data.ISBN
      !item_isbn.isEmpty && item_isbn == isbn)

/-- The fuzzy score of one library entry against a citation record:
+2 for the year substring in the date field, +3 for a primary-author
family-name hit among the creators, plus `5 * ratio` for a token-overlap
ratio above 3/5 between the titles. -/
def scoreItem (info : CitationInfo) (item : ZotItem) : ℚ :=
  let target_title := pyLower ((info.title).getD [])
  let target_year := (info.year).getD []
  let target_authors := (info.authors).getD []
  let target_family :=
    match target_authors with
    | [] => []
    | a :: _ => pyLower a.family
  let yearScore : ℚ :=
    if !target_year.isEmpty && pyIn target_year item.data.date then 2 else 0
  let authorScore : ℚ :=
    if !target_family.isEmpty && !item.data.creators.isEmpty
        && item.data.creators.any (fun creator =>
          let creator_last := pyLower creator.lastName
          let creator_name := pyLower creator.name
          (!creator_last.isEmpty && creator_last == target_family)
            || (!creator_name.isEmpty && (creator_name == target_family
                || pyIn target_family creator_name)))
    then 3 else 0
  let item_title := pyLower item.data.title
  let titleScore : ℚ :=
    if !target_title.isEmpty && !item_title.isEmpty then
      let target_words := (pySplitWs target_title).dedup
      let item_words := (pySplitWs item_title).dedup
      if !target_words.isEmpty && !item_words.isEmpty then
        let overlap : ℚ :=
          ((target_words.filter (fun w => item_words.contains w)).length : ℚ)
        let ratio : ℚ := overlap / (max target_words.length item_words.length : ℚ)
        if 3 / 5 < ratio then 5 * ratio else 0
      else 0
    else 0
  yearScore + authorScore + titleScore

/-- One step of the fuzzy scan:
`if score > best_score and score >= 3: update`. -/
def fuzzyStep (info : CitationInfo) (acc : Option ZotItem × ℚ) (item : ZotItem) :
    Option ZotItem × ℚ :=
  let score := scoreItem info item
  if acc.2 < score ∧ 3 ≤ score then (some item, score) else acc

/-- The fuzzy stage of `find_match`: scan all entries in index order,
keeping the first entry that strictly improves on the best score so far
(threshold 3); start from `(None, 0)`. -/
def fuzzyStage (items : List ZotItem) (info : CitationInfo) : Option ZotItem :=
  (items.foldl (fuzzyStep info) ((none : Option ZotItem), (0 : ℚ))).1

/-- `find_match` without the memoization cache: exact DOI, then exact
ISBN, then the fuzzy scan. -/
def find_match_pure (items : List ZotItem) (info : CitationInfo) : Option ZotItem :=
  match doiStage items info with
  | some item => some item
  | none =>
    match isbnStage items info with
    | some item => some item
    | none => fuzzyStage items info

/-- The memoization cache (`self._cache`, keyed by the canonicalized
record; `json.dumps(..., sort_keys=True)` is injective on records, so
the record itself serves as the key). Negative results are cached
too. -/
abbrev MatchCache := List (CitationInfo × Option ZotItem)

/-- `ZoteroMatcher.find_match`: cache lookup, else compute and cache. -/
def find_match (items : List ZotItem) (cache : MatchCache) (info : CitationInfo) :
    Option ZotItem × MatchCache :=
  match cache.lookup info with
  | some r => (r, cache)
  | none =>
    let r := find_match_pure items info
    (r, (info, r) :: cache)

/-! ## Display-text matching (ZoteroMatcher.find_match_by_display_text)

The regular expressions of the source are translated into explicit
scanning functions; each is named after the step it implements. -/

/-- Case-insensitive literal prefix test (the source's patterns are
applied with `re.IGNORECASE`; the data is ASCII). -/
def startsWithCI (lit s : Str) : Bool :=
  pyLower (s.take lit.length) == lit

/-- First index `i` (as a character count) such that the suffix starting
at `i` satisfies `p` — the leftmost regex match position. -/
def firstMatchIdx (p : Str → Bool) : Str → Option Nat
  | [] => if p [] then some 0 else none
  | c :: cs => if p (c :: cs) then some 0 else (firstMatchIdx p cs).map (· + 1)

/-- Is there a run of four decimal digits starting here?  (`\d{4}`) -/
def fourDigitsAt : Str → Bool
  | a :: b :: c :: d :: _ => a.isDigit && b.isDigit && c.isDigit && d.isDigit
  | _ => false

/-- `re.search(r'(\d{4})', part)`: the text before the first four-digit
run, and the run itself. -/
def findYearSplit : Str → Option (Str × Str)
  | [] => none
  | c :: cs =>
    if fourDigitsAt (c :: cs) then some ([], (c :: cs).take 4)
    else
      match findYearSplit cs with
      | none => none
      | some (pre, y) => some (c :: pre, y)

/-- Does this suffix match `\s*et\s+al\.?\s*$` (IGNORECASE)? -/
def matchesEtAlSuffix (t : Str) : Bool :=
  match t.dropWhile pyIsSpace with
  | e :: t2 :: rest =>
    e.toLower == 'e' && t2.toLower == 't' &&
    (match rest with
     | c :: _ => pyIsSpace c
     | [] => false) &&
    (match rest.dropWhile pyIsSpace with
     | a :: l :: r3 =>
       a.toLower == 'a' && l.toLower == 'l' &&
       (let r4 := match r3 with
         | '.' :: rr => rr
         | rr => rr
        (r4.dropWhile pyIsSpace).isEmpty)
     | _ => false)
  | _ => false

/-- `re.sub(r'\s*et\s+al\.?\s*$', '', s)`. -/
def stripEtAl (s : Str) : Str :=
  match firstMatchIdx matchesEtAlSuffix s with
  | some i => s.take i
  | none => s

/-- Is the head (if any) a regex word character? (for `\b`) -/
def isWordCharOpt : Option Char → Bool
  | none => false
  | some c => c.isAlphanum || c == '_'

/-- `(?:\s+also)?` after a matched `see` (greedy): extra characters
consumed, 0 if absent. -/
def alsoExt (alsoLit : Str) (rest : Str) : Nat :=
  match rest with
  | c :: _ =>
    if pyIsSpace c then
      let ws := rest.takeWhile pyIsSpace
      if startsWithCI alsoLit (rest.dropWhile pyIsSpace) then
        ws.length + alsoLit.length
      else 0
    else 0
  | [] => 0

/-- Length consumed at position 0 by the cross-reference-prefix
alternation
`vgl\.|cf\.|cfr\.|see(?:\s+also)?|voir(?:\s+aussi)?|s\.(?:a\.)?|véase|vedi|ver\b|veja|zie`
(alternatives tried in source order), or `none`. -/
def crossRefAltLen (s : Str) : Option Nat :=
  if startsWithCI "vgl.".toList s then some 4
  else if startsWithCI "cf.".toList s then some 3
  else if startsWithCI "cfr.".toList s then some 4
  else if startsWithCI "see".toList s then some (3 + alsoExt "also".toList (s.drop 3))
  else if startsWithCI "voir".toList s then some (4 + alsoExt "aussi".toList (s.drop 4))
  else if startsWithCI "s.".toList s then
    some (2 + (if startsWithCI "a.".toList (s.drop 2) then 2 else 0))
  else if startsWithCI "véase".toList s then some 5
  else if startsWithCI "vedi".toList s then some 4
  else if startsWithCI "ver".toList s && !isWordCharOpt (s.drop 3).head? then some 3
  else if startsWithCI "veja".toList s then some 4
  else if startsWithCI "zie".toList s then some 3
  else none

/-- `re.sub(r'^(?:...)\s*', '', s)`: strip one cross-reference prefix
and the whitespace after it. -/
def stripCrossRefPrefix (s : Str) : Str :=
  match crossRefAltLen s with
  | some n => (s.drop n).dropWhile pyIsSpace
  | none => s

/-- Does a primary-author delimiter
(`\s*&\s*|\s+and\s+|\s*,\s*`, IGNORECASE) match at this position? -/
def delimMatchAt (t : Str) : Bool :=
  ((t.dropWhile pyIsSpace).head? == some '&')
    || (match t with
        | c :: _ =>
          pyIsSpace c &&
          (let r := t.dropWhile pyIsSpace
           startsWithCI "and".toList r &&
           (match (r.drop 3).head? with
            | some c2 => pyIsSpace c2
            | none => false))
        | [] => false)
    || ((t.dropWhile pyIsSpace).head? == some ',')

/-- `re.split(r'\s*&\s*|\s+and\s+|\s*,\s*', s, IGNORECASE)[0].strip()`. -/
def primarySegment (s : Str) : Str :=
  pyStrip
    (match firstMatchIdx delimMatchAt s with
     | some i => s.take i
     | none => s)

/-- Does the connector pattern `\s+conn\s+` (IGNORECASE) match at this
position? -/
def connMatchAt (conn : Str) (t : Str) : Bool :=
  match t with
  | c :: _ =>
    pyIsSpace c &&
    (let r := t.dropWhile pyIsSpace
     startsWithCI conn r &&
     (match (r.drop conn.length).head? with
      | some c2 => pyIsSpace c2
      | none => false))
  | [] => false

/-- The connector loop: split on the first of
`und`, `et`, `y`, `e`, `en` that occurs, but only keep the left part
when it has at most two words (protecting multi-word organization
names); `break` on the first connector applied. -/
def connectorLoop : List Str → Str → Str
  | [], primary => primary
  | conn :: rest, primary =>
    match firstMatchIdx (connMatchAt conn) primary with
    | some i =>
      if (pySplitWs (primary.take i)).length ≤ 2 then pyStrip (primary.take i)
      else connectorLoop rest primary
    | none => connectorLoop rest primary

def CONNECTORS : List Str :=
  ["und".toList, "et".toList, "y".toList, "e".toList, "en".toList]

/-- Does this suffix match `\s+[A-Z]\.?\s*$` (a trailing single
initial)? -/
def matchesInitialSuffix (t : Str) : Bool :=
  match t with
  | c :: _ =>
    pyIsSpace c &&
    (match t.dropWhile pyIsSpace with
     | u :: r2 =>
       ('A' ≤ u && u ≤ 'Z') &&
       (let r3 := match r2 with
         | '.' :: rr => rr
         | rr => rr
        (r3.dropWhile pyIsSpace).isEmpty)
     | [] => false)
  | [] => false

/-- `re.sub(r'\s+[A-Z]\.?\s*$', '', s)`. -/
def stripInitial (s : Str) : Str :=
  match firstMatchIdx matchesInitialSuffix s with
  | some i => s.take i
  | none => s

/-- The year extracted for one display-text citation group (`None`
means the group is skipped). -/
def displayPartYear (part0 : Str) : Option Str :=
  let part := pyStrip part0
  if part.isEmpty then none
  else (findYearSplit part).map (fun pr => pr.2)

/-- The author portion of one display-text citation group: text before
the year, trimmed, trailing comma removed, `et al.` removed, then the
cross-reference prefix removed (`None` when the group is skipped). -/
def displayPartAuthorPortion (part0 : Str) : Option Str :=
  let part := pyStrip part0
  if part.isEmpty then none
  else
    match findYearSplit part with
    | none => none
    | some (before, _) =>
      let ap0 := pyStrip (pyRStripSet ",".toList (pyStrip before))
      let author_portion0 := pyStrip (stripEtAl ap0)
      if author_portion0.isEmpty then none
      else some (pyStrip (stripCrossRefPrefix author_portion0))

/-- The primary-author candidate of one display-text citation group:
first delimiter segment, connector loop, trailing initial stripped
(`None` when the group is skipped). -/
def displayPartPrimaryAuthor (part0 : Str) : Option Str :=
  match displayPartAuthorPortion part0 with
  | none => none
  | some author_portion =>
    let primary0 := primarySegment author_portion
    let primary1 := connectorLoop CONNECTORS primary0
    if primary1.isEmpty then none
    else some (pyStrip (stripInitial primary1))

/-- `{"authors": [{"family": family, "given": ""}], "year": year}`. -/
def mkAuthorYearInfo (family year : Str) : CitationInfo :=
  { title := none, authors := some [⟨family, []⟩], year := some year,
    doi := none, isbn := none }

/-- Try `find_match` on each candidate family name in turn, stopping at
the first hit, threading the cache. -/
def tryCandidates (items : List ZotItem) (year : Str) :
    MatchCache → List Str → Option ZotItem × MatchCache
  | cache, [] => (none, cache)
  | cache, cand :: rest =>
    let r := find_match items cache (mkAuthorYearInfo cand year)
    match r.1 with
    | some it => (some it, r.2)
    | none => tryCandidates items year r.2 rest

/-- Resolution of one display-text citation group: candidates (full
primary author, and its last word when multi-word), then — for phrases
of more than two words — the untruncated author phrase as an
organization name, then a title-like record. -/
def processDisplayPart (items : List ZotItem) (cache : MatchCache) (part0 : Str) :
    Option ZotItem × MatchCache :=
  match displayPartYear part0, displayPartAuthorPortion part0,
      displayPartPrimaryAuthor part0 with
  | some year, some author_portion, some primary =>
    let words := pySplitWs primary
    let candidates := primary :: (if 1 < words.length then [words.getLastD []] else [])
    let r1 := tryCandidates items year cache candidates
    let r2 :=
      match r1.1 with
      | some it => (some it, r1.2)
      | none =>
        if 2 < words.length then
          let full_author := pyStrip (stripInitial author_portion)
          if full_author ≠ primary then
            find_match items r1.2 (mkAuthorYearInfo full_author year)
          else (none, r1.2)
        else (none, r1.2)
    match r2.1 with
    | some it => (some it, r2.2)
    | none =>
      if 2 < words.length then
        find_match items r2.2
          { title := some author_portion, authors := some [],
            year := some year, doi := none, isbn := none }
      else (none, r2.2)
  | _, _, _ => (none, cache)

/-- The per-group loop of `find_match_by_display_text`: resolutions in
group order, failed groups silently omitted. -/
def displayPartsLoop (items : List ZotItem) :
    MatchCache → List Str → List ZotItem × MatchCache
  | cache, [] => ([], cache)
  | cache, p :: ps =>
    let r := processDisplayPart items cache p
    let rest := displayPartsLoop items r.2 ps
    match r.1 with
    | some it => (it :: rest.1, rest.2)
    | none => (rest.1, rest.2)

/-- `ZoteroMatcher.find_match_by_display_text`: strip surrounding
bracketing, split on semicolons, resolve each group. -/
def find_match_by_display_text (items : List ZotItem) (cache : MatchCache)
    (display_text : Str) : List ZotItem × MatchCache :=
  if display_text.isEmpty then ([], cache)
  else
    let text := pyStripSet "()[] ".toList display_text
    displayPartsLoop items cache ((text.splitOn ';').map pyStrip)

/-- A concrete library entry used by witnesses: a 2019 book with the
creator last name `Smith`. -/
def sampleItem : ZotItem :=
  { key := "KEY1".toList,
    data :=
      { itemType := "book".toList,
        title := "Public Health Report".toList,
        date := "2019".toList,
        DOI := [], ISBN := [], ISSN := [], url := [], edition := [],
        volume := [], issue := [], pages := [], publisher := [], place := [],
        publicationTitle := [], bookTitle := [], proceedingsTitle := [],
        creators := [{ creatorType := "author".toList,
                       lastName := "Smith".toList,
                       firstName := "John".toList, name := [] }] } }

/-- Invariant of the fuzzy scan: either nothing has reached the
threshold yet, or the state holds the first entry attaining the running
maximum among the entries seen so far. -/
def FuzzyInv (info : CitationInfo) (p : List ZotItem)
    (st : Option ZotItem × ℚ) : Prop :=
  (st = (none, 0) ∧ ∀ x ∈ p, scoreItem info x < 3) ∨
  (∃ r pre post, st = (some r, scoreItem info r) ∧ p = pre ++ r :: post ∧
     3 ≤ scoreItem info r ∧
     (∀ x ∈ pre, scoreItem info x < scoreItem info r) ∧
     (∀ x ∈ post, scoreItem info x ≤ scoreItem info r))

/-! ## JSON values (the payloads handled by the decoder)

`J` models the values `json.loads` produces for the payloads the engine
handles: `dict`s are association lists in insertion order, numbers are
restricted to integers (the payloads carry no floats; a fractional or
exponent part makes the embedded parser fail, which models a value
outside the domain). -/

inductive J where
  | null
  | bool (b : Bool)
  | num (n : Int)
  | str (s : Str)
  | arr (xs : List J)
  | obj (kvs : List (Str × J))

/-- Lower-case hexadecimal digit (as in CPython's `\uXXXX` escapes). -/
def hexDigit (n : Nat) : Char :=
  if n < 10 then Char.ofNat (48 + n) else Char.ofNat (87 + n)

/-- `\uXXXX` escape for a code unit below `0x10000`. -/
def escU (n : Nat) : Str :=
  '\\' :: 'u' :: [hexDigit (n / 4096 % 16), hexDigit (n / 256 % 16),
    hexDigit (n / 16 % 16), hexDigit (n % 16)]

/-- The `": "` key-value separator, preceded by the key's closing
quote. -/
def juxtKeyVal : Str := ['"', ':', ' ']

/-- Character escaping of `json.dumps` with the default
`ensure_ascii=True`: printable ASCII other than `"` and `\` is emitted
verbatim, everything else escaped (astral characters as surrogate
pairs). -/
def escapeChar (c : Char) : Str :=
  if c = '"' then ['\\', '"']
  else if c = '\\' then ['\\', '\\']
  else if c = '\n' then ['\\', 'n']
  else if c = '\r' then ['\\', 'r']
  else if c = '\t' then ['\\', 't']
  else if c = '\x08' then ['\\', 'b']
  else if c = '\x0c' then ['\\', 'f']
  else if c.toNat < 0x20 then escU c.toNat
  else if c.toNat < 0x7f then [c]
  else if c.toNat < 0x10000 then escU c.toNat
  else
    escU (0xd800 + (c.toNat - 0x10000) / 1024)
      ++ escU (0xdc00 + (c.toNat - 0x10000) % 1024)

mutual

/-- `json.dumps` with CPython's default separators `", "` and `": "`
and `ensure_ascii=True`. -/
def dumps : J → Str
  | .null => "null".toList
  | .bool true => "true".toList
  | .bool false => "false".toList
  | .num n => intToStr n
  | .str s => '"' :: s.flatMap escapeChar ++ ['"']
  | .arr xs => '[' :: dumpsList xs ++ [']']
  | .obj kvs => '\x7b' :: dumpsObj kvs ++ ['\x7d']

def dumpsList : List J → Str
  | [] => []
  | [x] => dumps x
  | x :: y :: rest => dumps x ++ ", ".toList ++ dumpsList (y :: rest)

def dumpsObj : List (Str × J) → Str
  | [] => []
  | [kv] => ('"' :: kv.1.flatMap escapeChar ++ juxtKeyVal) ++ dumps kv.2
  | kv :: kv2 :: rest =>
    (('"' :: kv.1.flatMap escapeChar ++ juxtKeyVal) ++ dumps kv.2)
      ++ ", ".toList ++ dumpsObj (kv2 :: rest)

end

/-! ## JSON parser (the behaviour of `json.loads` on the inputs the
decoder feeds it)

Fuel-indexed recursive descent so that every function reduces in the
kernel; `json_loads` supplies `length + 1` fuel, which suffices (the
measure `szJ` of a parsed value is bounded by the length of its
serialization). Divergences from CPython confined to corners the claims
never exercise: leading zeros in numbers are accepted, lone `\uD800`
escapes and raw control characters inside strings are rejected. -/

/-- JSON whitespace (space, tab, newline, carriage return). -/
def jsonWsChar (c : Char) : Bool :=
  c == ' ' || c == '\t' || c == '\n' || c == '\r'

def skipWsJson (s : Str) : Str := s.dropWhile jsonWsChar

def hexVal (c : Char) : Option Nat :=
  if '0' ≤ c ∧ c ≤ '9' then some (c.toNat - 48)
  else if 'a' ≤ c ∧ c ≤ 'f' then some (c.toNat - 87)
  else if 'A' ≤ c ∧ c ≤ 'F' then some (c.toNat - 55)
  else none

def parseHex4 : Str → Option (Nat × Str)
  | a :: b :: c :: d :: rest =>
    match hexVal a, hexVal b, hexVal c, hexVal d with
    | some x, some y, some z, some w => some (x * 4096 + y * 256 + z * 16 + w, rest)
    | _, _, _, _ => none
  | _ => none

/-- Translation of a single-character escape. -/
def escCharOf (e : Char) : Option Char :=
  if e = '"' then some '"'
  else if e = '\\' then some '\\'
  else if e = '/' then some '/'
  else if e = 'b' then some '\x08'
  else if e = 'f' then some '\x0c'
  else if e = 'n' then some '\n'
  else if e = 'r' then some '\r'
  else if e = 't' then some '\t'
  else none

/-- Prepend a character to a successful string-body parse. -/
def consStr (c : Char) : Option (Str × Str) → Option (Str × Str)
  | some pr => some (c :: pr.1, pr.2)
  | none => none

/-- Decode one escape sequence after a backslash: the character it
denotes and the input after it (surrogate pairs combined as
`json.loads` does). -/
def parseEscape1 (rest : Str) : Option (Char × Str) :=
  match rest with
  | [] => none
  | e :: rest2 =>
    if e = 'u' then
      match parseHex4 rest2 with
      | none => none
      | some (n, rest3) =>
        if 0xd800 ≤ n ∧ n ≤ 0xdbff then
          match rest3 with
          | '\\' :: 'u' :: rest4 =>
            match parseHex4 rest4 with
            | some (m, rest5) =>
              if 0xdc00 ≤ m ∧ m ≤ 0xdfff then
                some (Char.ofNat (0x10000 + (n - 0xd800) * 1024 + (m - 0xdc00)),
                  rest5)
              else none
            | none => none
          | _ => none
        else some (Char.ofNat n, rest3)
    else (escCharOf e).map (fun ch => (ch, rest2))

/-- Parse a JSON string body up to the closing quote, handling
escapes. -/
def parseStringBody : Nat → Str → Option (Str × Str)
  | 0, _ => none
  | _, [] => none
  | fuel + 1, c :: rest =>
    if c = '"' then some ([], rest)
    else if c = '\\' then
      match parseEscape1 rest with
      | some pr => consStr pr.1 (parseStringBody fuel pr.2)
      | none => none
    else consStr c (parseStringBody fuel rest)

/-- Digit run after an optional sign; a fractional or exponent part
means a float, which is outside the modelled value domain. -/
def parseNumAfterSign (neg : Bool) (s : Str) : Option (J × Str) :=
  let digits := s.takeWhile Char.isDigit
  let rest := s.dropWhile Char.isDigit
  if digits.isEmpty then none
  else if rest.head? = some '.' ∨ rest.head? = some 'e' ∨ rest.head? = some 'E'
  then none
  else
    let n : Nat := digits.foldl (fun acc c => acc * 10 + (c.toNat - 48)) 0
    some (.num (if neg then -(n : Int) else (n : Int)), rest)

/-- Parse an integer literal. -/
def parseNumber (s : Str) : Option (J × Str) :=
  if s.head? = some '-' then parseNumAfterSign true (s.drop 1)
  else parseNumAfterSign false s

mutual

/-- Parse one JSON value (leading whitespace allowed). -/
def parseVal : Nat → Str → Option (J × Str)
  | 0, _ => none
  | fuel + 1, s0 =>
    match skipWsJson s0 with
    | [] => none
    | c :: r =>
      if c = '[' then
        let r1 := skipWsJson r
        if r1.head? = some ']' then some (.arr [], r1.drop 1)
        else
          match parseElems fuel r1 with
          | some pr => some (.arr pr.1, pr.2)
          | none => none
      else if c = '\x7b' then
        let r1 := skipWsJson r
        if r1.head? = some '\x7d' then some (.obj [], r1.drop 1)
        else
          match parseMembers fuel r1 with
          | some pr => some (.obj pr.1, pr.2)
          | none => none
      else if c = '"' then
        match parseStringBody (r.length + 1) r with
        | some pr => some (.str pr.1, pr.2)
        | none => none
      else if c = 't' then
        if "rue".toList.isPrefixOf r then some (.bool true, r.drop 3) else none
      else if c = 'f' then
        if "alse".toList.isPrefixOf r then some (.bool false, r.drop 4) else none
      else if c = 'n' then
        if "ull".toList.isPrefixOf r then some (.null, r.drop 3) else none
      else parseNumber (c :: r)

/-- Parse the elements of a non-empty array, consuming the closing
bracket. -/
def parseElems : Nat → Str → Option (List J × Str)
  | 0, _ => none
  | fuel + 1, s =>
    match parseVal fuel s with
    | none => none
    | some (v, r) =>
      let r1 := skipWsJson r
      if r1.head? = some ',' then
        match parseElems fuel (skipWsJson (r1.drop 1)) with
        | some pr => some (v :: pr.1, pr.2)
        | none => none
      else if r1.head? = some ']' then some ([v], r1.drop 1)
      else none

/-- Parse the members of a non-empty object, consuming the closing
brace. -/
def parseMembers : Nat → Str → Option (List (Str × J) × Str)
  | 0, _ => none
  | fuel + 1, s =>
    match s with
    | '"' :: r =>
      match parseStringBody (r.length + 1) r with
      | none => none
      | some (k, r1) =>
        let r2 := skipWsJson r1
        if r2.head? = some ':' then
          match parseVal fuel (skipWsJson (r2.drop 1)) with
          | none => none
          | some (v, r3) =>
            let r4 := skipWsJson r3
            if r4.head? = some ',' then
              match parseMembers fuel (skipWsJson (r4.drop 1)) with
              | some pr => some ((k, v) :: pr.1, pr.2)
              | none => none
            else if r4.head? = some '\x7d' then some ([(k, v)], r4.drop 1)
            else none
        else none
    | _ => none

end

/-- `json.loads`: one value, optionally surrounded by whitespace,
nothing else. -/
def json_loads (s : Str) : Option J :=
  match parseVal (s.length + 1) s with
  | some pr => if (skipWsJson pr.2).isEmpty then some pr.1 else none
  | none => none

mutual

/-- Fuel measure of a value for the parser: the length of the longest
fuel-decrementing call chain its parse makes. -/
def szJ : J → Nat
  | .null => 0
  | .bool _ => 0
  | .num _ => 0
  | .str _ => 0
  | .arr xs => szList xs + 1
  | .obj kvs => szObj kvs + 1

def szList : List J → Nat
  | [] => 0
  | x :: xs => szJ x + szList xs + 1

def szObj : List (Str × J) → Nat
  | [] => 0
  | kv :: kvs => szJ kv.2 + szObj kvs + 1

end

/-- The characters that can follow a serialized value inside a larger
serialization (or the end of input): a separator or closing bracket.
A number literal is only self-delimiting against these. -/
def headDelim (rest : Str) : Bool :=
  match rest with
  | [] => true
  | c :: _ => c == ',' || c == ']' || c == '\x7d'

/-- A character that `json.dumps` emits verbatim inside a string
literal: printable ASCII other than the quote and the backslash. -/
def safeChar (c : Char) : Bool :=
  (32 ≤ c.toNat && c.toNat ≤ 126) && !(c == '"') && !(c == '\\')

def safeStr (s : Str) : Bool := s.all safeChar

/-- Distinct keys, as in a Python `dict`. -/
def nodupKeys : List (Str × J) → Bool
  | [] => true
  | kv :: kvs => !(kvs.any (fun kv2 => kv2.1 == kv.1)) && nodupKeys kvs

mutual

/-- Values whose serialization needs no escaping: all strings (keys
included) consist of escape-free printable ASCII, and object keys are
distinct. These are exactly the payload values the round-trip claim
quantifies over. -/
def safeJ : J → Bool
  | .null => true
  | .bool _ => true
  | .num _ => true
  | .str s => safeStr s
  | .arr xs => safeList xs
  | .obj kvs => nodupKeys kvs && safeObj kvs

def safeList : List J → Bool
  | [] => true
  | x :: xs => safeJ x && safeList xs

def safeObj : List (Str × J) → Bool
  | [] => true
  | kv :: kvs => safeStr kv.1 && safeJ kv.2 && safeObj kvs

end

/-! ## UTF-8 (bytes.decode("utf-8", errors="replace") and the encoding
side of the round-trip claim)

Bytes are `Nat`s below 256. The engine only ever decodes base64 output;
the round-trip claim only exercises the single-byte (ASCII) forms.
Multi-byte sequences are decoded with continuation-byte checks; on a
malformed sequence a replacement character is emitted and one byte
consumed (an approximation of CPython's resynchronization that the
claims never exercise). -/

def utf8Encode (s : Str) : List Nat :=
  s.flatMap (fun c =>
    let n := c.toNat
    if n < 0x80 then [n]
    else if n < 0x800 then [0xc0 + n / 64, 0x80 + n % 64]
    else if n < 0x10000 then [0xe0 + n / 4096, 0x80 + n / 64 % 64, 0x80 + n % 64]
    else [0xf0 + n / 262144, 0x80 + n / 4096 % 64, 0x80 + n / 64 % 64,
      0x80 + n % 64])

def utf8Cont (b : Nat) : Bool := 0x80 ≤ b && b ≤ 0xbf

def utf8DecodeAux : Nat → List Nat → Str
  | 0, _ => []
  | _, [] => []
  | fuel + 1, b :: bs =>
    if b < 0x80 then Char.ofNat b :: utf8DecodeAux fuel bs
    else if 0xc2 ≤ b ∧ b ≤ 0xdf then
      match bs with
      | b2 :: bs2 =>
        if utf8Cont b2 then
          Char.ofNat ((b - 0xc0) * 64 + (b2 - 0x80)) :: utf8DecodeAux fuel bs2
        else '�' :: utf8DecodeAux fuel bs
      | [] => ['�']
    else if 0xe0 ≤ b ∧ b ≤ 0xef then
      match bs with
      | b2 :: b3 :: bs3 =>
        if utf8Cont b2 && utf8Cont b3 then
          Char.ofNat ((b - 0xe0) * 4096 + (b2 - 0x80) * 64 + (b3 - 0x80))
            :: utf8DecodeAux fuel bs3
        else '�' :: utf8DecodeAux fuel bs
      | _ => '�' :: utf8DecodeAux fuel bs
    else if 0xf0 ≤ b ∧ b ≤ 0xf4 then
      match bs with
      | b2 :: b3 :: b4 :: bs4 =>
        if utf8Cont b2 && utf8Cont b3 && utf8Cont b4 then
          Char.ofNat ((b - 0xf0) * 262144 + (b2 - 0x80) * 4096
              + (b3 - 0x80) * 64 + (b4 - 0x80))
            :: utf8DecodeAux fuel bs4
        else '�' :: utf8DecodeAux fuel bs
      | _ => '�' :: utf8DecodeAux fuel bs
    else '�' :: utf8DecodeAux fuel bs

def utf8DecodeReplace (bs : List Nat) : Str := utf8DecodeAux (bs.length + 1) bs

/-! ## Base64 (base64.b64decode with validate=False, and the standard
encoding for the round-trip claim) -/

def charOfSextet (n : Nat) : Char :=
  if n < 26 then Char.ofNat (65 + n)
  else if n < 52 then Char.ofNat (97 + (n - 26))
  else if n < 62 then Char.ofNat (48 + (n - 52))
  else if n = 62 then '+'
  else '/'

def sextetOf (c : Char) : Option Nat :=
  if 'A' ≤ c ∧ c ≤ 'Z' then some (c.toNat - 65)
  else if 'a' ≤ c ∧ c ≤ 'z' then some (c.toNat - 97 + 26)
  else if '0' ≤ c ∧ c ≤ '9' then some (c.toNat - 48 + 52)
  else if c = '+' then some 62
  else if c = '/' then some 63
  else none

def isB64Char (c : Char) : Bool := (sextetOf c).isSome

/-- Standard base64 encoding of a byte string (`base64.b64encode`). -/
def b64encode : List Nat → Str
  | [] => []
  | [a] => [charOfSextet (a / 4), charOfSextet (a % 4 * 16), '=', '=']
  | [a, b] => [charOfSextet (a / 4), charOfSextet (a % 4 * 16 + b / 16),
      charOfSextet (b % 16 * 4), '=']
  | a :: b :: c :: rest =>
    charOfSextet (a / 4) :: charOfSextet (a % 4 * 16 + b / 16)
      :: charOfSextet (b % 16 * 4 + c / 64) :: charOfSextet (c % 64)
      :: b64encode rest

/-- `b64decode` discards characters outside the alphabet (and keeps
padding) before decoding, since `validate=False`. -/
def b64kept (s : Str) : Str := s.filter (fun c => isB64Char c || c == '=')

/-- Decode the kept characters in groups of four; bad padding or a
length not a multiple of four raises `binascii.Error` (modelled as
`none`). -/
def b64decodeGroups : Str → Option (List Nat)
  | [] => some []
  | c1 :: c2 :: c3 :: c4 :: rest =>
    match sextetOf c1, sextetOf c2 with
    | some s1, some s2 =>
      if c3 = '=' then
        if c4 = '=' ∧ rest = [] then some [s1 * 4 + s2 / 16] else none
      else
        match sextetOf c3 with
        | some s3 =>
          if c4 = '=' then
            if rest = [] then some [s1 * 4 + s2 / 16, s2 % 16 * 16 + s3 / 4]
            else none
          else
            match sextetOf c4 with
            | some s4 =>
              match b64decodeGroups rest with
              | some bs =>
                some ((s1 * 4 + s2 / 16) :: (s2 % 16 * 16 + s3 / 4)
                  :: (s3 % 4 * 64 + s4) :: bs)
              | none => none
            | none => none
        | none => none
    | _, _ => none
  | _ => none

def b64decode (s : Str) : Option (List Nat) := b64decodeGroups (b64kept s)

/-! ## Payload decoder (decode_citavi_payload) -/

/-- One candidate of the decoder's base64+JSON strategy: strip, skip if
empty, base64-decode (failure falls through), decode UTF-8 with
replacement (never fails), parse JSON (failure falls through). -/
def tryB64Json (candidate0 : Str) : Option J :=
  let candidate := pyStrip candidate0
  if candidate.isEmpty then none
  else
    match b64decode candidate with
    | none => none
    | some bytes => json_loads (utf8DecodeReplace bytes)

/-- `raw.split(None, 1)[-1]`: drop the first whitespace-separated token
(the observed format tag) and the whitespace after it; when there is no
second part, the single token itself. (On all-whitespace input Python
would raise, but callers only reach this under `" " in raw` with `raw`
a concatenation of individually stripped chunks, which always has a
non-whitespace character.) -/
def splitNone1Last (raw : Str) : Str :=
  let afterLead := raw.dropWhile pyIsSpace
  let tok := afterLead.takeWhile (fun c => !pyIsSpace c)
  let rest := (afterLead.dropWhile (fun c => !pyIsSpace c)).dropWhile pyIsSpace
  if rest.isEmpty then tok else rest

/-- `re.search(r'\{.*\}', raw, re.DOTALL)`: from the first opening brace
to the last closing brace after it (leftmost match start, greedy
extent). -/
def braceExtract (raw : Str) : Option Str :=
  match firstMatchIdx (fun t => t.head? == some '\x7b') raw with
  | none => none
  | some i =>
    let tail := raw.drop i
    match firstMatchIdx (fun t => t.head? == some '\x7d') tail.reverse with
    | none => none
    | some k =>
      let j := tail.length - 1 - k
      if 1 ≤ j then some (tail.take (j + 1)) else none

/-- The decoder on the joined instruction text: strategy (a) the whole
text as base64+JSON, strategy (b) the text with a leading
format-tag token stripped, strategy (c) the first brace-delimited
substring parsed directly; first success wins, exhaustion yields
`none`, and every strategy is a total function (no exceptions). -/
def decode_citavi_payload_text (raw : Str) : Option J :=
  match tryB64Json raw with
  | some v => some v
  | none =>
    match tryB64Json (if raw.contains ' ' then splitNone1Last raw else raw) with
    | some v => some v
    | none =>
      match braceExtract raw with
      | none => none
      | some sub => json_loads sub

/-- `decode_citavi_payload`: gather the stripped texts of all
`instrText` runs inside the `sdtContent` region; no instruction runs
means a null payload; otherwise decode their concatenation. -/
def decode_citavi_payload (sdt : XNode) : Option J :=
  match sdt.findChild "sdtContent".toList with
  | none => none
  | some content =>
    let instr_parts := (content.iterTag "instrText".toList).filterMap (fun e =>
      match e.txt with
      | some t => if t.isEmpty then none else some (pyStrip t)
      | none => none)
    if instr_parts.isEmpty then none
    else decode_citavi_payload_text instr_parts.flatten

/-! ## Citation-record extraction (extract_citation_info_from_citavi)

Dictionary keys are looked up with Python truthiness. Where the source
calls `str()` on a decoded value, the embedding prints the value as
Python would for the string/number/bool/None cases; container values are
printed in Python container syntax (the payloads the claims quantify
over put strings in these fields, where `str()` is the identity). The
creator-name fields are kept raw by the source; the embedding takes the
string content (a non-string name would crash the Python matcher later,
outside every claim). -/

def pyTruthy : J → Bool
  | .null => false
  | .bool b => b
  | .num n => decide (n ≠ 0)
  | .str s => !s.isEmpty
  | .arr xs => !xs.isEmpty
  | .obj kvs => !kvs.isEmpty

mutual

/-- Python `str(x)` on a decoded JSON value. -/
def pyStrOfJ : J → Str
  | .null => "None".toList
  | .bool true => "True".toList
  | .bool false => "False".toList
  | .num n => intToStr n
  | .str s => s
  | .arr xs => '[' :: pyReprListJ xs ++ [']']
  | .obj kvs => '\x7b' :: pyReprObjJ kvs ++ ['\x7d']

/-- Python `repr(x)` as it appears inside printed containers. -/
def pyReprOfJ : J → Str
  | .null => "None".toList
  | .bool true => "True".toList
  | .bool false => "False".toList
  | .num n => intToStr n
  | .str s => '\x27' :: s ++ ['\x27']
  | .arr xs => '[' :: pyReprListJ xs ++ [']']
  | .obj kvs => '\x7b' :: pyReprObjJ kvs ++ ['\x7d']

def pyReprListJ : List J → Str
  | [] => []
  | [x] => pyReprOfJ x
  | x :: y :: ys => pyReprOfJ x ++ ", ".toList ++ pyReprListJ (y :: ys)

def pyReprObjJ : List (Str × J) → Str
  | [] => []
  | [kv] => ('\x27' :: kv.1 ++ ['\x27']) ++ ": ".toList ++ pyReprOfJ kv.2
  | kv :: kv2 :: rest =>
    (('\x27' :: kv.1 ++ ['\x27']) ++ ": ".toList ++ pyReprOfJ kv.2)
      ++ ", ".toList ++ pyReprObjJ (kv2 :: rest)

end

/-- The string content of a raw field value (see the section comment). -/
def jFieldStr : J → Str
  | .str s => s
  | v => pyStrOfJ v

/-- `for key in keys: if key in entry and entry[key]: ...; break` — the
value under the first alias that is present and truthy. -/
def aliasLookup (kvs : List (Str × J)) : List Str → Option J
  | [] => none
  | k :: ks =>
    match kvs.lookup k with
    | some v => if pyTruthy v then some v else aliasLookup kvs ks
    | none => aliasLookup kvs ks

/-- `a.get(k1, a.get(k2, a.get(k3, "")))`: presence chain, no
truthiness. -/
def presenceChain (kvs : List (Str × J)) : List Str → Str
  | [] => []
  | k :: ks =>
    match kvs.lookup k with
    | some v => jFieldStr v
    | none => presenceChain kvs ks

/-- One author entry of the payload: a dict with name-key aliases, or a
`"Family, Given"` string. -/
def authorOfEntry : J → Option Author
  | .obj a =>
    some { family := presenceChain a ["LastName".toList, "Family".toList,
             "family".toList],
           given := presenceChain a ["FirstName".toList, "Given".toList,
             "given".toList] }
  | .str s =>
    let parts := s.splitOn ','
    if 2 ≤ parts.length then
      some { family := pyStrip (parts.getD 0 []), given := pyStrip (parts.getD 1 []) }
    else some { family := pyStrip s, given := [] }
  | _ => none

/-- `re.search(r'\b(1[0-9]{3}|2[0-9]{3})\b', s)`: a four-digit run
starting with 1 or 2, bounded by non-word characters. -/
def yearMatchAt (prev : Option Char) : Str → Option Str
  | c1 :: c2 :: c3 :: c4 :: rest =>
    if (c1 = '1' ∨ c1 = '2') ∧ c2.isDigit ∧ c3.isDigit ∧ c4.isDigit
        ∧ !isWordCharOpt prev ∧ !isWordCharOpt rest.head?
    then some [c1, c2, c3, c4] else none
  | _ => none

def yearSearch (prev : Option Char) : Str → Option Str
  | [] => none
  | c :: cs =>
    match yearMatchAt prev (c :: cs) with
    | some y => some y
    | none => yearSearch (some c) cs

/-- `extract_from_entry` of the source: alias lookups for title, authors,
year (with the year regex), DOI and ISBN; `None` when nothing was
extracted. -/
def extract_from_entry (kvs : List (Str × J)) : Option CitationInfo :=
  let title := (aliasLookup kvs ["Title".toList, "title".toList,
    "TitleString".toList]).map (fun v => pyStrip (pyStrOfJ v))
  let authors :=
    match aliasLookup kvs ["Authors".toList, "authors".toList,
        "AuthorsOrEditorsOrOrganizations".toList] with
    | some (.arr l) => l.filterMap authorOfEntry
    | _ => []
  let authorsOpt := if authors.isEmpty then none else some authors
  let year :=
    match aliasLookup kvs ["Year".toList, "year".toList,
        "YearResolved".toList, "Date".toList] with
    | some v => yearSearch none (pyStrOfJ v)
    | none => none
  let doi := (aliasLookup kvs ["Doi".toList, "doi".toList,
    "DOI".toList]).map (fun v => pyStrip (pyStrOfJ v))
  let isbn := (aliasLookup kvs ["Isbn".toList, "isbn".toList,
    "ISBN".toList]).map (fun v => pyStrip (pyStrOfJ v))
  if title = none ∧ authorsOpt = none ∧ year = none ∧ doi = none ∧ isbn = none
  then none
  else some ⟨title, authorsOpt, year, doi, isbn⟩

/-- First alias key whose value is a list (`isinstance(payload[key],
list)`, no truthiness). -/
def entriesAlias (kvs : List (Str × J)) : List Str → Option (List J)
  | [] => none
  | k :: ks =>
    match kvs.lookup k with
    | some (.arr l) => some l
    | some _ => entriesAlias kvs ks
    | none => entriesAlias kvs ks

def entriesExtract (l : List J) : List CitationInfo :=
  l.filterMap (fun it =>
    match it with
    | .obj e => extract_from_entry e
    | _ => none)

/-- The fallback scan over `payload.values()`: the first list value that
yields at least one record. -/
def valuesScan : List (Str × J) → List CitationInfo
  | [] => []
  | (_, .arr l) :: rest =>
    let cs := entriesExtract l
    if cs.isEmpty then valuesScan rest else cs
  | _ :: rest => valuesScan rest

/-- `extract_citation_info_from_citavi` on a decoded payload. -/
def extract_citation_info_from_citavi (payload : J) : List CitationInfo :=
  match payload with
  | .obj kvs =>
    let entries := (entriesAlias kvs ["Entries".toList, "entries".toList,
      "Citations".toList, "citations".toList, "References".toList]).getD []
    if entries.isEmpty then
      match extract_from_entry kvs with
      | some r => [r]
      | none => valuesScan kvs
    else entriesExtract entries
  | .arr l => entriesExtract l
  | _ => []

/-! ## Conversion engine (process_xml_file)

The per-placeholder loop threads the matcher cache and the stats dict.
The serialized citation JSON (`build_zotero_citation_json` +
`json.dumps`, which embeds a fresh `uuid4` citation id) enters only as
the instruction-text body of the synthesized field; it is modelled as an
oracle `toJson` so the theorems quantify over every possible serialized
string. The single-pass recursion below visits the placeholders in the
same document order as the source's pre-collected list and is faithful
whenever no placeholder is nested inside another and the root itself is
not a placeholder — hypotheses the claim theorem carries. -/

structure Stats where
  converted : Nat
  skipped : Nat
  unmatched : List Str

/-- `f"{author_str}, {ci.get('year', '?')}"` for an unmatched record. -/
def unmatchedStr (ci : CitationInfo) : Str :=
  (match ci.authors with
   | some (a :: _) => a.family
   | _ => "?".toList) ++ ", ".toList ++ ci.year.getD "?".toList

/-- The `for ci in citation_infos` loop: matches kept in order, failures
recorded. -/
def matchLoop (items : List ZotItem) :
    MatchCache → List CitationInfo → List ZotItem × MatchCache × List Str
  | cache, [] => ([], cache, [])
  | cache, ci :: cis =>
    let r := find_match items cache ci
    let rest := matchLoop items r.2 cis
    match r.1 with
    | some it => (it :: rest.1, rest.2.1, rest.2.2)
    | none => (rest.1, rest.2.1, unmatchedStr ci :: rest.2.2)

/-- The resolution of one placeholder: payload records matched first,
display-text fallback when none matched and display text exists. -/
def sdtZoteroItems (items : List ZotItem) (cache : MatchCache) (sdt : XNode) :
    List ZotItem × MatchCache × List Str :=
  let display := extract_citavi_display_text sdt
  let infos :=
    match decode_citavi_payload sdt with
    | some p => if pyTruthy p then extract_citation_info_from_citavi p else []
    | none => []
  let r := matchLoop items cache infos
  if r.1.isEmpty && !display.isEmpty then
    let r2 := find_match_by_display_text items r.2.1 display
    (r2.1, r2.2, r.2.2)
  else r

mutual

def processTree (items : List ZotItem) (toJson : List ZotItem → Str) :
    XNode → MatchCache → Stats → XNode × MatchCache × Stats
  | .elem t a tx cs, cache, st =>
    let r := processList items toJson t cs cache st
    (.elem t a tx r.1, r.2)

/-- The conversion loop over the children of a node whose tag is
`parentTag`: an unresolved placeholder is kept (`skipped`), a resolved
one is replaced by the synthesized runs — spliced in place when the
parent is a `w:p`, wrapped in a new paragraph otherwise
(`replace_sdt_with_zotero_field`) — and `converted` counts the
replacement. -/
def processList (items : List ZotItem) (toJson : List ZotItem → Str)
    (parentTag : Str) :
    List XNode → MatchCache → Stats → List XNode × MatchCache × Stats
  | [], cache, st => ([], cache, st)
  | c :: cs, cache, st =>
    if isCitaviSdt c then
      let rz := sdtZoteroItems items cache c
      if rz.1.isEmpty then
        let rest := processList items toJson parentTag cs rz.2.1
          { converted := st.converted, skipped := st.skipped + 1,
            unmatched := st.unmatched ++ rz.2.2 }
        (c :: rest.1, rest.2)
      else
        let display := extract_citavi_display_text c
        let final_display :=
          if display.isEmpty then "(Citation)".toList else display
        let runs := create_zotero_field_xml (toJson rz.1) final_display
        let rest := processList items toJson parentTag cs rz.2.1
          { converted := st.converted + 1, skipped := st.skipped,
            unmatched := st.unmatched ++ rz.2.2 }
        ((if parentTag == "p".toList then runs ++ rest.1
          else XNode.elem "p".toList [] none runs :: rest.1), rest.2)
    else
      let r := processTree items toJson c cache st
      let rest := processList items toJson parentTag cs r.2.1 r.2.2
      (r.1 :: rest.1, rest.2)

end

/-- `process_xml_file` on a parsed part: early exit with no placeholders,
the conversion loop, and — for the main document — bibliography removal
and the end-of-document bibliography field. The returned flag is
`modified`. -/
def process_xml_file (items : List ZotItem) (toJson : List ZotItem → Str)
    (isMainDoc : Bool) (style_uri : Str) (root : XNode) (cache : MatchCache)
    (st : Stats) : Bool × XNode × MatchCache × Stats :=
  if (find_citavi_sdts root).isEmpty then (false, root, cache, st)
  else
    let r := processTree items toJson root cache st
    let modified := decide (st.converted < r.2.2.converted)
    if isMainDoc then
      let rb := remove_citavi_bibliography r.1
      let modified2 := modified || decide (0 < rb.2)
      if 0 < r.2.2.converted ∨ modified2 = true then
        let ra := add_zotero_bibl_at_end rb.1 style_uri
        (modified2 || ra.1, ra.2, r.2.1, r.2.2)
      else (modified2, rb.1, r.2.1, r.2.2)
    else (modified, r.1, r.2.1, r.2.2)

/-! ## Cache-free mirrors of the matching pipeline (the cache is pure
memoization, so with a sound cache the threaded results coincide — the
claim quantifies over resolution outcomes through these). -/

def matchLoopPure (items : List ZotItem) :
    List CitationInfo → List ZotItem × List Str
  | [] => ([], [])
  | ci :: cis =>
    let rest := matchLoopPure items cis
    match find_match_pure items ci with
    | some it => (it :: rest.1, rest.2)
    | none => (rest.1, unmatchedStr ci :: rest.2)

def tryCandidatesPure (items : List ZotItem) (year : Str) :
    List Str → Option ZotItem
  | [] => none
  | cand :: rest =>
    match find_match_pure items (mkAuthorYearInfo cand year) with
    | some it => some it
    | none => tryCandidatesPure items year rest

def processDisplayPartPure (items : List ZotItem) (part0 : Str) :
    Option ZotItem :=
  match displayPartYear part0, displayPartAuthorPortion part0,
      displayPartPrimaryAuthor part0 with
  | some year, some author_portion, some primary =>
    let words := pySplitWs primary
    let candidates := primary :: (if 1 < words.length then [words.getLastD []] else [])
    let r1 := tryCandidatesPure items year candidates
    let r2 :=
      match r1 with
      | some it => some it
      | none =>
        if 2 < words.length then
          let full_author := pyStrip (stripInitial author_portion)
          if full_author ≠ primary then
            find_match_pure items (mkAuthorYearInfo full_author year)
          else none
        else none
    match r2 with
    | some it => some it
    | none =>
      if 2 < words.length then
        find_match_pure items
          { title := some author_portion, authors := some [],
            year := some year, doi := none, isbn := none }
      else none
  | _, _, _ => none

def displayPartsLoopPure (items : List ZotItem) : List Str → List ZotItem
  | [] => []
  | p :: ps =>
    let rest := displayPartsLoopPure items ps
    match processDisplayPartPure items p with
    | some it => it :: rest
    | none => rest

def find_match_by_display_text_pure (items : List ZotItem)
    (display_text : Str) : List ZotItem :=
  if display_text.isEmpty then []
  else
    let text := pyStripSet "()[] ".toList display_text
    displayPartsLoopPure items ((text.splitOn ';').map pyStrip)

/-- The cache-free resolution of one placeholder (list of matched items,
unmatched log entries). -/
def sdtResolvePure (items : List ZotItem) (sdt : XNode) :
    List ZotItem × List Str :=
  let display := extract_citavi_display_text sdt
  let infos :=
    match decode_citavi_payload sdt with
    | some p => if pyTruthy p then extract_citation_info_from_citavi p else []
    | none => []
  let r := matchLoopPure items infos
  if r.1.isEmpty && !display.isEmpty then
    (find_match_by_display_text_pure items display, r.2)
  else r

mutual

/-- The tree transform of the conversion loop, cache-free (the cache is
pure memoization, so with a sound cache the threaded loop produces this
tree — proved below). -/
def processTreePure (items : List ZotItem) (toJson : List ZotItem → Str) :
    XNode → XNode
  | .elem t a tx cs => .elem t a tx (processListPure items toJson t cs)

def processListPure (items : List ZotItem) (toJson : List ZotItem → Str)
    (parentTag : Str) : List XNode → List XNode
  | [] => []
  | c :: cs =>
    if isCitaviSdt c then
      if (sdtResolvePure items c).1.isEmpty then
        c :: processListPure items toJson parentTag cs
      else
        let display := extract_citavi_display_text c
        let final_display :=
          if display.isEmpty then "(Citation)".toList else display
        let runs := create_zotero_field_xml
          (toJson (sdtResolvePure items c).1) final_display
        (if parentTag == "p".toList then
          runs ++ processListPure items toJson parentTag cs
        else XNode.elem "p".toList [] none runs
          :: processListPure items toJson parentTag cs)
    else
      processTreePure items toJson c :: processListPure items toJson parentTag cs

end

/-- A sound memoization cache: every entry records the cache-free
result. -/
def CacheSound (items : List ZotItem) (cache : MatchCache) : Prop :=
  ∀ p ∈ cache, p.2 = find_match_pure items p.1

/-- The Citavi placeholders of a forest, in document order. -/
def forestPlaceholders (ns : List XNode) : List XNode :=
  (XNode.iterAllList ns).filter isCitaviSdt

/-- The number of Zotero citation fields of a forest, measured by
`instrText` runs containing the `ZOTERO_ITEM` marker. -/
def markerFieldCount (ns : List XNode) : Nat :=
  ((instrTextsOfList ns).filter (fun t => pyIn "ZOTERO_ITEM".toList t)).length

/-- A minimal Citavi placeholder node as the scanner hands it to the
decoder: an `sdt` whose `sdtContent` carries one `instrText` run with
the given instruction text. -/
def mkCitaviSdt (t : Str) : XNode :=
  .elem "sdt".toList [] none
    [.elem "sdtContent".toList [] none
      [.elem "instrText".toList [] (some t) []]]

/-- A concrete payload value exercising the round-trip. -/
def c4SampleJ : J :=
  J.obj [("title".toList, J.str "Sample".toList), ("year".toList, J.num 2020)]

/-- A concrete library entry used by the C3 witness: its DOI lets the
exact-DOI stage resolve the record. -/
def c3Item : ZotItem :=
  { key := "KEY3".toList,
    data :=
      { itemType := "book".toList,
        title := "Some Title".toList,
        date := "2019".toList,
        DOI := "10.1/X".toList, ISBN := [], ISSN := [], url := [], edition := [],
        volume := [], issue := [], pages := [], publisher := [], place := [],
        publicationTitle := [], bookTitle := [], proceedingsTitle := [],
        creators := [] } }

/-- A placeholder whose payload carries the matching DOI (as a brace
JSON instruction text). -/
def c3Ph1 : XNode :=
  .elem "sdt".toList [] none
    [.elem "sdtPr".toList [] none
      [.elem "tag".toList [("val".toList, "CitaviPlaceholder#1".toList)] none []],
     .elem "sdtContent".toList [] none
      [.elem "instrText".toList []
        (some "\x7b\"Doi\": \"10.1/X\"\x7d".toList) []]]

/-- A placeholder with neither payload nor display text: it resolves to
nothing and is skipped. -/
def c3Ph2 : XNode :=
  .elem "sdt".toList [] none
    [.elem "sdtPr".toList [] none
      [.elem "tag".toList [("val".toList, "CitaviPlaceholder#2".toList)] none []],
     .elem "sdtContent".toList [] none []]

/-- A two-placeholder main document for the C3 witness. -/
def c3Root : XNode :=
  .elem "document".toList [] none
    [.elem "body".toList [] none
      [.elem "p".toList [] none [c3Ph1, c3Ph2],
       .elem "sectPr".toList [] none []]]

-- ═════════════════════════ THEOREMS ═════════════════════════

/-! ### C1: zip-slip validation on open -/

/-- C1: the claim fails on the code. The safety test compares rendered
path *strings* with `startswith`, without requiring a path-separator
boundary, so a member whose normalized path escapes to a sibling
directory whose name extends the extraction root's last component as a
string (here `../docx_contentsX/evil.txt` against the root
`/tmp/t/docx_contents`) passes the test: the resolved path is outside
the root, yet extraction proceeds with no ArchiveIntegrityError. -/
theorem c1_zip_slip_check_misses_escaping_member :
    insideRoot ["tmp".toList, "t".toList, "docx_contents".toList]
      "../docx_contentsX/evil.txt".toList = false ∧
    zipSlipOk ["tmp".toList, "t".toList, "docx_contents".toList]
      "../docx_contentsX/evil.txt".toList = true ∧
    extractArchive ["tmp".toList, "t".toList, "docx_contents".toList]
      ["../docx_contentsX/evil.txt".toList]
      = Except.ok ["../docx_contentsX/evil.txt".toList] := by
  refine ⟨by decide, by decide, ?_⟩
  rfl

/-! ### C7: repack ordering and compression -/

/-- C7: when the extracted file set contains the content-types
declaration part, the repacked archive's member list starts with
`[Content_Types].xml` stored uncompressed, and every other extracted
file follows it, compressed (DEFLATE) and distinct from the
content-types name. -/
theorem c7_content_types_first_stored_rest_deflated (files : List Str)
    (h : CONTENT_TYPES ∈ files) :
    repackArchive files
      = (CONTENT_TYPES, Compression.stored)
        :: (files.filter (fun f => !(f == CONTENT_TYPES))).map
            (fun f => (f, Compression.deflated)) ∧
    ∀ p ∈ (files.filter (fun f => !(f == CONTENT_TYPES))).map
        (fun f => (f, Compression.deflated)),
      p.2 = Compression.deflated ∧ p.1 ≠ CONTENT_TYPES := by
  constructor
  · simp only [repackArchive, if_pos h, List.singleton_append]
  · intro p hp
    simp only [List.mem_map, List.mem_filter] at hp
    obtain ⟨f, ⟨_, hne⟩, rfl⟩ := hp
    refine ⟨rfl, ?_⟩
    simpa using hne

/-- C7 witness: a concrete two-file part set. -/
theorem c7_content_types_first_stored_rest_deflated_witness :
    repackArchive ["word/document.xml".toList, CONTENT_TYPES]
      = [(CONTENT_TYPES, Compression.stored),
         ("word/document.xml".toList, Compression.deflated)] := by
  have h := c7_content_types_first_stored_rest_deflated
    ["word/document.xml".toList, CONTENT_TYPES] (by decide)
  rw [h.1]
  decide

/-! ### C2: credential redaction -/

/-- C2 counterexample: the redaction step is guarded by
`len(api_key) > 4`, so a 4-character credential is not redacted at all
and the surfaced error text still contains it verbatim. -/
theorem c2_short_credential_surfaces_unredacted :
    sanitizeError "abcd".toList "Invalid key abcd rejected".toList
      = "Invalid key abcd rejected".toList ∧
    "abcd".toList <:+: sanitizeError "abcd".toList "Invalid key abcd rejected".toList := by
  constructor
  · rfl
  · exact ⟨"Invalid key ".toList, " rejected".toList, by decide⟩

/-- Occurrence decomposition for an infix of an append: it either lies
inside the right part, or it starts at some position inside the left
part. -/
theorem infix_append_split {α : Type} {l x y : List α} (h : l <:+: x ++ y) :
    l <:+: y ∨ ∃ i, i < x.length ∧ l <+: x.drop i ++ y := by
  obtain ⟨pre, post, hpp⟩ := h
  have h2 : (x ++ y).drop pre.length = l ++ post := by
    rw [← hpp, List.append_assoc, List.drop_left]
  by_cases hlt : pre.length < x.length
  · right
    refine ⟨pre.length, hlt, ⟨post, ?_⟩⟩
    rw [← List.drop_append_of_le_length (Nat.le_of_lt hlt), h2]
  · left
    have h3 : (x ++ y).drop pre.length = y.drop (pre.length - x.length) := by
      rw [List.drop_append_eq_append_drop, List.drop_eq_nil_of_le (by omega),
        List.nil_append]
    exact List.infix_iff_prefix_suffix.mpr
      ⟨y.drop (pre.length - x.length), ⟨post, by rw [← h3, h2]⟩,
        List.drop_suffix _ _⟩

/-- The length of the mask `key[:4] + "****"` for a long-enough key. -/
theorem maskKey_length {key : Str} (hlen : 4 < key.length) :
    (maskKey key).length = 8 := by
  simp [maskKey, List.length_take]
  omega

/-- Any position strictly inside the mask `key[:4] + "****"` reaches a
`*` within 5 characters, so no `*`-free string of length at least 5 is a
prefix of the mask's tail (even extended by further text). -/
theorem mask_prefix_trap {key : Str} (hlen : 4 < key.length)
    {w : Str} (hw : '*' ∉ w) (hwlen : 5 ≤ w.length) {t : Str} {i : Nat}
    (hi : i < 8) (h : w <+: (maskKey key).drop i ++ t) : False := by
  have hk4 : (key.take 4).length = 4 := by
    simp [List.length_take]
    omega
  by_cases hi4 : i ≤ 4
  · have hdrop : (maskKey key).drop i = (key.take 4).drop i ++ "****".toList := by
      rw [maskKey, List.drop_append_of_le_length (by omega)]
    have hp : (key.take 4).drop i ++ ['*'] <+: (maskKey key).drop i ++ t := by
      refine ⟨"***".toList ++ t, ?_⟩
      rw [hdrop]
      simp
    have hplen : ((key.take 4).drop i ++ ['*']).length ≤ w.length := by
      simp [List.length_drop, hk4]
      omega
    have hpw := List.prefix_of_prefix_length_le hp h hplen
    exact hw (hpw.subset (by simp))
  · have hdrop : (maskKey key).drop i = "****".toList.drop (i - 4) := by
      rw [maskKey, List.drop_append_eq_append_drop, hk4,
        List.drop_eq_nil_of_le (by omega), List.nil_append]
    have hstar1 : ['*'] <+: (maskKey key).drop i ++ t := by
      rw [hdrop]
      have : i - 4 = 1 ∨ i - 4 = 2 ∨ i - 4 = 3 := by omega
      rcases this with h1 | h1 | h1 <;> rw [h1] <;> exact ⟨_, rfl⟩
    have := List.prefix_of_prefix_length_le hstar1 h (by simp; omega)
    exact hw (this.subset (by simp))

/-- Unfolding equation of `pyReplaceAux` at positive fuel. -/
theorem pyReplaceAux_succ (key rep : Str) (fuel : Nat) (s : Str) :
    pyReplaceAux key rep (fuel + 1) s =
      if key.isPrefixOf s then
        rep ++ pyReplaceAux key rep fuel (s.drop key.length)
      else
        match s with
        | [] => []
        | c :: cs => c :: pyReplaceAux key rep fuel cs := by
  rfl

/-- If a nonempty suffix of the key is a prefix of a replacement result,
it was already a prefix of the unreplaced text: the mask can never
complete a partial occurrence of a `*`-free key. -/
theorem pyReplaceAux_suffix_transfer {key : Str} (hlen : 4 < key.length)
    (hstar : '*' ∉ key) :
    ∀ fuel s j, s.length ≤ fuel → j < key.length →
      key.drop j <+: pyReplaceAux key (maskKey key) fuel s →
      key.drop j <+: s := by
  intro fuel
  induction fuel with
  | zero =>
    intro s j hs hj h
    simpa [pyReplaceAux] using h
  | succ fuel ih =>
    intro s j hs hj h
    rw [pyReplaceAux_succ] at h
    by_cases hks : key.isPrefixOf s
    · rw [if_pos hks] at h
      by_cases hlen5 : 5 ≤ (key.drop j).length
      · exact (@mask_prefix_trap key hlen (key.drop j)
          (fun hm => hstar (List.drop_subset j key hm)) hlen5
          (pyReplaceAux key (maskKey key) fuel (s.drop key.length)) 0
          (by omega) (by simpa using h)).elim
      · have h4 : key.take 4 <+: maskKey key
            ++ pyReplaceAux key (maskKey key) fuel (s.drop key.length) :=
          (List.prefix_append (key.take 4) "****".toList).trans
            (List.prefix_append _ _)
        have hd4 : key.drop j <+: key.take 4 :=
          List.prefix_of_prefix_length_le h h4
            (by simp [List.length_drop, List.length_take] at hlen5 ⊢; omega)
        exact (hd4.trans (List.take_prefix 4 key)).trans
          (List.isPrefixOf_iff_prefix.mp hks)
    · rw [if_neg hks] at h
      cases s with
      | nil =>
        have : key.drop j = [] := List.prefix_nil.mp h
        have := List.drop_eq_nil_iff.mp this
        omega
      | cons c cs =>
        have hdj : key.drop j = key[j] :: key.drop (j + 1) :=
          List.drop_eq_getElem_cons hj
        rw [hdj, List.cons_prefix_cons] at h
        obtain ⟨hc, htail⟩ := h
        by_cases hj1 : j + 1 < key.length
        · have hcs : cs.length ≤ fuel := by
            simp at hs
            omega
          have := ih cs (j + 1) hcs hj1 htail
          rw [hdj, List.cons_prefix_cons]
          exact ⟨hc, this⟩
        · have hnil : key.drop (j + 1) = [] := List.drop_eq_nil_of_le (by omega)
          rw [hdj, hnil, List.cons_prefix_cons]
          exact ⟨hc, List.nil_prefix⟩

/-- After replacement of every occurrence of a long, `*`-free key by the
mask, the key no longer occurs anywhere in the text. -/
theorem pyReplaceAux_no_occurrence {key : Str} (hlen : 4 < key.length)
    (hstar : '*' ∉ key) :
    ∀ fuel s, s.length ≤ fuel →
      ¬ key <:+: pyReplaceAux key (maskKey key) fuel s := by
  have hne : key ≠ [] := by
    intro h
    rw [h] at hlen
    simp at hlen
  intro fuel
  induction fuel with
  | zero =>
    intro s hs h
    have : s = [] := List.length_eq_zero.mp (Nat.le_zero.mp hs)
    subst this
    rw [pyReplaceAux] at h
    exact hne (List.infix_nil.mp h)
  | succ fuel ih =>
    intro s hs h
    rw [pyReplaceAux_succ] at h
    by_cases hks : key.isPrefixOf s
    · rw [if_pos hks] at h
      rcases infix_append_split h with hiy | ⟨i, hi, hpre⟩
      · refine ih (s.drop key.length) ?_ hiy
        simp [List.length_drop]
        omega
      · rw [maskKey_length hlen] at hi
        exact mask_prefix_trap hlen hstar (by omega) hi hpre
    · rw [if_neg hks] at h
      cases s with
      | nil =>
        exact hne (List.infix_nil.mp h)
      | cons c cs =>
        rcases List.infix_cons_iff.mp h with hpre | hinf
        · cases key with
          | nil => exact hne rfl
          | cons k0 ktl =>
            rw [List.cons_prefix_cons] at hpre
            obtain ⟨hc, htl⟩ := hpre
            have htrans := pyReplaceAux_suffix_transfer hlen hstar fuel cs 1
              (by simp at hs; omega) (by simp at hlen ⊢; omega)
              (by simpa using htl)
            apply hks
            rw [List.isPrefixOf_iff_prefix, hc]
            exact List.cons_prefix_cons.mpr ⟨rfl, by simpa using htrans⟩
        · exact ih cs (by simp at hs; omega) hinf

/-- C2 (amended): for every credential longer than 4 characters that
does not contain the mask character `*`, every occurrence of the
credential is replaced by its 4-character prefix plus `****`, so the
surfaced error text never contains the raw credential as a substring.
(The source skips redaction for credentials of length at most 4 — see
the counterexample — and a credential containing `*` could be
re-created by the mask itself.) -/
theorem c2_sanitized_error_free_of_credential (key msg : Str)
    (hlen : 4 < key.length) (hstar : '*' ∉ key) :
    ¬ key <:+: sanitizeError key msg := by
  have hne : key ≠ [] := by
    intro h
    rw [h] at hlen
    simp at hlen
  rw [sanitizeError, if_pos ⟨hne, hlen⟩, pyReplace,
    if_neg (by simp [hne] : ¬ key.isEmpty = true)]
  exact pyReplaceAux_no_occurrence hlen hstar (msg.length + 1) msg
    (Nat.le_succ _)

/-- C2 witness: a concrete 12-character credential embedded in an error
message is fully removed by the sanitizer. -/
theorem c2_sanitized_error_free_of_credential_witness :
    ¬ "SECRETKEY123".toList <:+:
      sanitizeError "SECRETKEY123".toList
        "Auth failed: SECRETKEY123 was rejected".toList :=
  c2_sanitized_error_free_of_credential _ _ (by decide) (by decide)

/-! ### C10: appendBibliography with no body element -/

/-- C10: on a tree whose root has no direct `body` child,
`add_zotero_bibl_at_end` returns `False` and the unchanged tree — no
bibliography field or paragraph is inserted anywhere (and, being a total
function of the tree, it cannot raise). -/
theorem c10_no_body_append_bibliography_noop (root : XNode) (style_uri : Str)
    (h : root.findChild "body".toList = none) :
    add_zotero_bibl_at_end root style_uri = (false, root) := by
  cases root with
  | elem t a tx cs =>
    have h2 : cs.find? (fun m => m.tag == "body".toList) = none := h
    rw [add_zotero_bibl_at_end, h2]

/-- C10 witness: a concrete bodyless tree is left untouched. -/
theorem c10_no_body_append_bibliography_noop_witness :
    add_zotero_bibl_at_end
      (XNode.elem "document".toList [] none [XNode.elem "p".toList [] none []])
      "style".toList
      = (false,
         XNode.elem "document".toList [] none [XNode.elem "p".toList [] none []]) :=
  c10_no_body_append_bibliography_noop _ _ rfl

/-! ### C8: verifier on one begin, no end -/

/-- With no `end` markers the running counter never becomes negative and
ends at the initial value plus the number of `begin` markers. -/
theorem fldBalanceWalk_no_end (ts : List Str) :
    ∀ st : Int, 0 ≤ st → ts.count "end".toList = 0 →
      fldBalanceWalk ts st = some (st + ts.count "begin".toList) := by
  induction ts with
  | nil =>
    intro st _ _
    simp [fldBalanceWalk]
  | cons t ts ih =>
    intro st h0 hend
    have hne : t ≠ "end".toList := by
      intro h
      subst h
      rw [List.count_cons_self] at hend
      omega
    have hend' : ts.count "end".toList = 0 := by
      rwa [List.count_cons_of_ne (Ne.symm hne)] at hend
    by_cases hb : t = "begin".toList
    · subst hb
      have hstep : fldBalanceWalk ("begin".toList :: ts) st
          = if st + 1 < 0 then none else fldBalanceWalk ts (st + 1) := by
        rw [fldBalanceWalk]
        norm_num
      rw [hstep, if_neg (by omega : ¬ st + 1 < 0), ih (st + 1) (by omega) hend',
        List.count_cons_self]
      congr 1
      push_cast
      ring
    · have hstep : fldBalanceWalk (t :: ts) st
          = if st < 0 then none else fldBalanceWalk ts st := by
        rw [fldBalanceWalk]
        rw [if_neg hb, if_neg hne]
      rw [hstep, if_neg (by omega : ¬ st < 0), ih st h0 hend',
        List.count_cons_of_ne (Ne.symm hb)]

/-- C8: on a tree whose field-character markers include exactly one
`begin` and no `end`, the verifier reports exactly one unclosed-field
issue and no unmatched-end issue (and, being total, does not raise). -/
theorem c8_verify_one_begin_no_end (root : XNode)
    (hb : (fldCharTypesOf root).count "begin".toList = 1)
    (he : (fldCharTypesOf root).count "end".toList = 0) :
    (verify_document_integrity root).count (unclosedMsg 1) = 1 ∧
    UNMATCHED_END_MSG ∉ verify_document_integrity root := by
  have hwalk : fldBalanceWalk (fldCharTypesOf root) 0 = some 1 := by
    rw [fldBalanceWalk_no_end _ 0 le_rfl he, hb]
    norm_num
  have hch1 : verify_check1 root = [unclosedMsg 1] := by
    rw [verify_check1, hwalk]
    norm_num
  have hmem2 : ∀ x ∈ (if (root.findChild "body".toList).isNone
      then [BODY_MSG] else []), x = BODY_MSG := by
    intro x hx
    split at hx
    · simpa using hx
    · simp at hx
  have hmem3 : ∀ x ∈ (root.iterTag "sdt".toList).filterMap (fun sdt =>
      if (sdt.findChild "sdtContent".toList).isNone then some SDT_MSG else none),
      x = SDT_MSG := by
    intro x hx
    rw [List.mem_filterMap] at hx
    obtain ⟨a, _, ha⟩ := hx
    split at ha
    · simpa using ha.symm
    · simp at ha
  constructor
  · rw [verify_document_integrity, hch1, List.count_append, List.count_append]
    have h2 : (if (root.findChild "body".toList).isNone
        then [BODY_MSG] else []).count (unclosedMsg 1) = 0 := by
      rw [List.count_eq_zero]
      intro hmem
      exact absurd (hmem2 _ hmem) (by decide)
    have h3 : ((root.iterTag "sdt".toList).filterMap (fun sdt =>
        if (sdt.findChild "sdtContent".toList).isNone then some SDT_MSG
        else none)).count (unclosedMsg 1) = 0 := by
      rw [List.count_eq_zero]
      intro hmem
      exact absurd (hmem3 _ hmem) (by decide)
    rw [h2, h3]
    decide
  · rw [verify_document_integrity, hch1]
    intro hmem
    rw [List.mem_append, List.mem_append] at hmem
    rcases hmem with (h1 | h2) | h3
    · exact absurd (by simpa using h1) (by decide)
    · exact absurd (hmem2 _ h2) (by decide)
    · exact absurd (hmem3 _ h3) (by decide)

/-- C8 witness: a concrete document with a single `begin` marker. -/
theorem c8_verify_one_begin_no_end_witness :
    (verify_document_integrity
        (XNode.elem "document".toList [] none
          [XNode.elem "body".toList [] none
            [mkFldCharRun "begin".toList]])).count (unclosedMsg 1) = 1 ∧
    UNMATCHED_END_MSG ∉ verify_document_integrity
        (XNode.elem "document".toList [] none
          [XNode.elem "body".toList [] none [mkFldCharRun "begin".toList]]) :=
  c8_verify_one_begin_no_end _ (by decide) (by decide)

/-! ### C9: structure of a synthesized citation field -/

theorem iterAllList_append (a b : List XNode) :
    XNode.iterAllList (a ++ b) = XNode.iterAllList a ++ XNode.iterAllList b := by
  induction a with
  | nil => rfl
  | cons c cs ih =>
    rw [List.cons_append,
      show XNode.iterAllList (c :: (cs ++ b))
        = c.iterAll ++ XNode.iterAllList (cs ++ b) from rfl,
      show XNode.iterAllList (c :: cs)
        = c.iterAll ++ XNode.iterAllList cs from rfl,
      ih, List.append_assoc]

theorem fldCharTypesOfList_append (a b : List XNode) :
    fldCharTypesOfList (a ++ b) = fldCharTypesOfList a ++ fldCharTypesOfList b := by
  simp [fldCharTypesOfList, fldTypes, iterAllList_append]

theorem fldCharTypesOfList_cons (x : XNode) (l : List XNode) :
    fldCharTypesOfList (x :: l) = fldTypes x.iterAll ++ fldCharTypesOfList l := by
  simp [fldCharTypesOfList, fldTypes, XNode.iterAllList]

theorem instrTextsOfList_append (a b : List XNode) :
    instrTextsOfList (a ++ b) = instrTextsOfList a ++ instrTextsOfList b := by
  simp [instrTextsOfList, iterAllList_append]

theorem instrTextsOfList_cons (x : XNode) (l : List XNode) :
    instrTextsOfList (x :: l)
      = (x.iterAll.filterMap (fun e =>
          if e.tag == "instrText".toList then e.txt else none))
        ++ instrTextsOfList l := by
  simp [instrTextsOfList, XNode.iterAllList]

theorem fldCharTypesOfList_instrRuns (chunks : List Str) :
    fldCharTypesOfList (chunks.map mkInstrRun) = [] := by
  induction chunks with
  | nil => rfl
  | cons c cs ih =>
    rw [List.map_cons, fldCharTypesOfList_cons, ih]
    rfl

theorem instrTextsOfList_instrRuns (chunks : List Str) :
    instrTextsOfList (chunks.map mkInstrRun) = chunks := by
  induction chunks with
  | nil => rfl
  | cons c cs ih =>
    rw [List.map_cons, instrTextsOfList_cons, ih]
    rfl

/-- Unfolding equation of `chunkListAux` at positive fuel. -/
theorem chunkListAux_succ (n fuel : Nat) (s : Str) :
    chunkListAux n (fuel + 1) s
      = if s.isEmpty then [] else s.take n :: chunkListAux n fuel (s.drop n) := by
  rfl

/-- Concatenating the chunks restores the original string. -/
theorem chunkListAux_flatten (n : Nat) (hn : 0 < n) :
    ∀ fuel s, s.length ≤ fuel → (chunkListAux n fuel s).flatten = s := by
  intro fuel
  induction fuel with
  | zero =>
    intro s hs
    rw [List.length_eq_zero.mp (Nat.le_zero.mp hs)]
    rfl
  | succ fuel ih =>
    intro s hs
    rw [chunkListAux_succ]
    by_cases he : s.isEmpty
    · rw [if_pos he, List.isEmpty_iff.mp he]
      rfl
    · rw [if_neg he, List.flatten_cons,
        ih (s.drop n) (by simp [List.length_drop]; omega),
        List.take_append_drop]

theorem chunkList_flatten (n : Nat) (hn : 0 < n) (s : Str) :
    (chunkList n s).flatten = s :=
  chunkListAux_flatten n hn (s.length + 1) s (Nat.le_succ _)

/-- C9: a synthesized citation field consists of exactly one `begin`
marker, one `separate` marker and one `end` marker, in that order, with
the `begin` in the first run and the `end` in the last, and the
concatenation of its instruction-text chunks is the full
`ADDIN ZOTERO_ITEM CSL_CITATION` instruction — so splicing the field in
place of a placeholder adds one balanced begin/end marker pair. -/
theorem c9_synthesized_field_structure (citation_json_str display_text : Str) :
    fldCharTypesOfList (create_zotero_field_xml citation_json_str display_text)
      = ["begin".toList, "separate".toList, "end".toList] ∧
    (instrTextsOfList (create_zotero_field_xml citation_json_str display_text)).flatten
      = zoteroItemInstr citation_json_str ∧
    (create_zotero_field_xml citation_json_str display_text).head?
      = some (mkFldCharRun "begin".toList) ∧
    (create_zotero_field_xml citation_json_str display_text).getLast?
      = some (mkFldCharRun "end".toList) := by
  refine ⟨?_, ?_, ?_, ?_⟩
  · rw [create_zotero_field_xml, fldCharTypesOfList_append, fldCharTypesOfList_cons,
      fldCharTypesOfList_instrRuns]
    rfl
  · rw [create_zotero_field_xml, instrTextsOfList_append, instrTextsOfList_cons,
      instrTextsOfList_instrRuns]
    have h1 : instrTextsOfList [mkFldCharRun "separate".toList,
        mkDisplayRun display_text, mkFldCharRun "end".toList] = [] := rfl
    rw [h1]
    have h2 : ((mkFldCharRun "begin".toList).iterAll.filterMap (fun e =>
        if e.tag == "instrText".toList then e.txt else none)) = [] := rfl
    rw [h2, List.nil_append, List.append_nil]
    exact chunkList_flatten 250 (by norm_num) _
  · rw [create_zotero_field_xml]
    rfl
  · rw [create_zotero_field_xml]
    have h : (mkFldCharRun "begin".toList
          :: (chunkList 250 (zoteroItemInstr citation_json_str)).map mkInstrRun)
          ++ [mkFldCharRun "separate".toList, mkDisplayRun display_text,
                mkFldCharRun "end".toList]
        = ((mkFldCharRun "begin".toList
            :: (chunkList 250 (zoteroItemInstr citation_json_str)).map mkInstrRun)
              ++ [mkFldCharRun "separate".toList, mkDisplayRun display_text])
          ++ [mkFldCharRun "end".toList] := by
      simp
    rw [h, List.getLast?_concat]

/-! ### C5: fuzzy matching is first-maximal above the threshold -/

/-- The fuzzy-scan invariant is maintained by folding further entries. -/
theorem fuzzy_fold_maintains_inv (info : CitationInfo) :
    ∀ (rest p : List ZotItem) (st : Option ZotItem × ℚ),
      FuzzyInv info p st →
      FuzzyInv info (p ++ rest) (rest.foldl (fuzzyStep info) st) := by
  intro rest
  induction rest with
  | nil =>
    intro p st h
    simpa using h
  | cons y ys ih =>
    intro p st h
    have step1 : FuzzyInv info (p ++ [y]) (fuzzyStep info st y) := by
      rw [fuzzyStep]
      by_cases hc : st.2 < scoreItem info y ∧ 3 ≤ scoreItem info y
      · rw [if_pos hc]
        right
        refine ⟨y, p, [], rfl, by simp, hc.2, ?_, by simp⟩
        intro x hx
        rcases h with ⟨hst, hall⟩ | ⟨r, pre, post, hst, hp, h3, hpre, hpost⟩
        · exact lt_of_lt_of_le (hall x hx) hc.2
        · have hlt : scoreItem info r < scoreItem info y := by
            have h1 := hc.1
            rw [hst] at h1
            simpa using h1
          rw [hp] at hx
          rcases List.mem_append.mp hx with hx1 | hx2
          · exact lt_trans (hpre x hx1) hlt
          · rcases List.mem_cons.mp hx2 with rfl | hx3
            · exact hlt
            · exact lt_of_le_of_lt (hpost x hx3) hlt
      · rw [if_neg hc]
        rcases h with ⟨hst, hall⟩ | ⟨r, pre, post, hst, hp, h3, hpre, hpost⟩
        · left
          refine ⟨hst, ?_⟩
          intro x hx
          rcases List.mem_append.mp hx with hx1 | hx2
          · exact hall x hx1
          · have hxy : x = y := by simpa using hx2
            subst hxy
            by_contra hge
            push_neg at hge
            refine hc ⟨?_, hge⟩
            rw [hst]
            exact lt_of_lt_of_le (by norm_num) hge
        · right
          refine ⟨r, pre, post ++ [y], hst, by rw [hp]; simp, h3, hpre, ?_⟩
          intro x hx
          rcases List.mem_append.mp hx with hx1 | hx2
          · exact hpost x hx1
          · have hxy : x = y := by simpa using hx2
            subst hxy
            by_contra hgt
            push_neg at hgt
            refine hc ⟨?_, le_trans h3 (le_of_lt hgt)⟩
            rw [hst]
            exact hgt
    have h2 := ih (p ++ [y]) _ step1
    simpa [List.append_assoc] using h2

/-- C5: when neither the exact-DOI nor the exact-ISBN stage finds an
entry, `find_match` returns an entry only if its score is at least 3 and
maximal over all index entries, and among entries attaining the maximum
the first in index order is returned (entries before it score strictly
less, entries after it at most as much); if no entry scores at least 3,
no match is returned. On a fresh cache the memoized entry point computes
exactly this. -/
theorem c5_fuzzy_match_first_maximal (items : List ZotItem) (info : CitationInfo)
    (hdoi : doiStage items info = none) (hisbn : isbnStage items info = none) :
    (∀ r, find_match_pure items info = some r →
      ∃ pre post, items = pre ++ r :: post ∧ 3 ≤ scoreItem info r ∧
        (∀ x ∈ pre, scoreItem info x < scoreItem info r) ∧
        (∀ x ∈ post, scoreItem info x ≤ scoreItem info r)) ∧
    ((∀ x ∈ items, scoreItem info x < 3) → find_match_pure items info = none) ∧
    (find_match items [] info).1 = find_match_pure items info := by
  have hfm : find_match_pure items info = fuzzyStage items info := by
    rw [find_match_pure, hdoi, hisbn]
  have hinv : FuzzyInv info items (items.foldl (fuzzyStep info) (none, 0)) := by
    have h0 := fuzzy_fold_maintains_inv info items [] (none, 0)
      (Or.inl ⟨rfl, by simp⟩)
    simpa using h0
  refine ⟨?_, ?_, rfl⟩
  · intro r hr
    rw [hfm, fuzzyStage] at hr
    rcases hinv with ⟨hst, _⟩ | ⟨r2, pre, post, hst, hp, h3, hpre, hpost⟩
    · rw [hst] at hr
      exact absurd hr (by simp)
    · rw [hst] at hr
      simp only [Option.some.injEq] at hr
      subst hr
      exact ⟨pre, post, hp, h3, hpre, hpost⟩
  · intro hall
    rw [hfm, fuzzyStage]
    rcases hinv with ⟨hst, _⟩ | ⟨r2, pre, post, hst, hp, h3, _, _⟩
    · rw [hst]
    · exfalso
      have hmem : r2 ∈ items := by
        rw [hp]
        simp
      exact absurd (hall r2 hmem) (by linarith)

/-- C5 witness: a one-entry index and an author+year record with no DOI
and no ISBN. -/
theorem c5_fuzzy_match_first_maximal_witness :
    (∀ r, find_match_pure [sampleItem]
        (mkAuthorYearInfo "smith".toList "2019".toList) = some r →
      ∃ pre post, [sampleItem] = pre ++ r :: post ∧
        3 ≤ scoreItem (mkAuthorYearInfo "smith".toList "2019".toList) r ∧
        (∀ x ∈ pre, scoreItem (mkAuthorYearInfo "smith".toList "2019".toList) x
          < scoreItem (mkAuthorYearInfo "smith".toList "2019".toList) r) ∧
        (∀ x ∈ post, scoreItem (mkAuthorYearInfo "smith".toList "2019".toList) x
          ≤ scoreItem (mkAuthorYearInfo "smith".toList "2019".toList) r)) ∧
    ((∀ x ∈ [sampleItem],
        scoreItem (mkAuthorYearInfo "smith".toList "2019".toList) x < 3) →
      find_match_pure [sampleItem]
        (mkAuthorYearInfo "smith".toList "2019".toList) = none) ∧
    (find_match [sampleItem] []
        (mkAuthorYearInfo "smith".toList "2019".toList)).1
      = find_match_pure [sampleItem]
          (mkAuthorYearInfo "smith".toList "2019".toList) :=
  c5_fuzzy_match_first_maximal [sampleItem]
    (mkAuthorYearInfo "smith".toList "2019".toList) rfl rfl

/-! ### C6: display-text group parsing on the reference example -/

/-- C6: the display text
`"(Smith & Jones, 2019; World Health Organization 2020)"` splits into
exactly the two groups `"Smith & Jones, 2019"` and
`"World Health Organization 2020"`, with years `2019` and `2020`; the
primary-author candidate used to attempt matching is `"Smith"` for
group 1 and the whole string `"World Health Organization"` for group 2
(no connector token present, so no connector split occurs). -/
theorem c6_display_text_reference_example :
    ((pyStripSet "()[] ".toList
        "(Smith & Jones, 2019; World Health Organization 2020)".toList).splitOn
        ';').map pyStrip
      = ["Smith & Jones, 2019".toList,
         "World Health Organization 2020".toList] ∧
    displayPartYear "Smith & Jones, 2019".toList = some "2019".toList ∧
    displayPartYear "World Health Organization 2020".toList
      = some "2020".toList ∧
    displayPartPrimaryAuthor "Smith & Jones, 2019".toList
      = some "Smith".toList ∧
    displayPartPrimaryAuthor "World Health Organization 2020".toList
      = some "World Health Organization".toList := by
  refine ⟨by decide, by decide, by decide, by decide, by decide⟩

/-! ### C4: payload decoder — supporting lemmas -/

theorem takeWhile_append_of_all {α : Type} (p : α → Bool) (A B : List α)
    (h : ∀ a ∈ A, p a = true) :
    (A ++ B).takeWhile p = A ++ B.takeWhile p := by
  induction A with
  | nil => rfl
  | cons a A ih =>
    rw [List.cons_append, List.takeWhile_cons, if_pos (h a (by simp)),
      ih (fun x hx => h x (by simp [hx])), List.cons_append]

theorem dropWhile_append_of_all {α : Type} (p : α → Bool) (A B : List α)
    (h : ∀ a ∈ A, p a = true) :
    (A ++ B).dropWhile p = B.dropWhile p := by
  induction A with
  | nil => rfl
  | cons a A ih =>
    rw [List.cons_append, List.dropWhile_cons, if_pos (h a (by simp)),
      ih (fun x hx => h x (by simp [hx]))]

theorem dropWhile_eq_self_of_all {α : Type} (p : α → Bool) (l : List α)
    (h : ∀ a ∈ l, p a = false) : l.dropWhile p = l := by
  cases l with
  | nil => rfl
  | cons a l => rw [List.dropWhile_cons, if_neg (by simp [h a (by simp)])]

theorem pyStrip_eq_self (s : Str) (h : ∀ c ∈ s, pyIsSpace c = false) :
    pyStrip s = s := by
  rw [pyStrip, stripWhile, dropWhile_eq_self_of_all _ _ h,
    dropWhile_eq_self_of_all _ _ (fun c hc => h c (List.mem_reverse.mp hc)),
    List.reverse_reverse]

theorem toNat_ofNat_lt {n : Nat} (h : n < 55296) : (Char.ofNat n).toNat = n := by
  rw [Char.ofNat, dif_pos (Or.inl h : n.isValidChar)]
  rfl

theorem natToStrAux_digits :
    ∀ fuel n c, c ∈ natToStrAux fuel n → 48 ≤ c.toNat ∧ c.toNat ≤ 57 := by
  intro fuel
  induction fuel with
  | zero =>
    intro n c hc
    simp [natToStrAux] at hc
  | succ fuel ih =>
    intro n c hc
    rw [natToStrAux] at hc
    by_cases h10 : n < 10
    · rw [if_pos h10] at hc
      have : c = Char.ofNat (48 + n) := by simpa using hc
      subst this
      rw [toNat_ofNat_lt (by omega)]
      omega
    · rw [if_neg h10] at hc
      rcases List.mem_append.mp hc with h1 | h2
      · exact ih _ _ h1
      · have : c = Char.ofNat (48 + n % 10) := by simpa using h2
        subst this
        have : n % 10 < 10 := Nat.mod_lt _ (by norm_num)
        rw [toNat_ofNat_lt (by omega)]
        omega

theorem natToStrAux_ne_nil (fuel n : Nat) : natToStrAux (fuel + 1) n ≠ [] := by
  rw [natToStrAux]
  by_cases h10 : n < 10
  · rw [if_pos h10]
    simp
  · rw [if_neg h10]
    simp

theorem natToStrAux_foldl :
    ∀ fuel n acc, n ≤ fuel →
      (natToStrAux (fuel + 1) n).foldl (fun acc c => acc * 10 + (c.toNat - 48)) acc
        = acc * 10 ^ (natToStrAux (fuel + 1) n).length + n := by
  intro fuel
  induction fuel with
  | zero =>
    intro n acc hn
    have : n = 0 := Nat.le_zero.mp hn
    subst this
    rw [natToStrAux, if_pos (by norm_num)]
    simp [toNat_ofNat_lt]
  | succ fuel ih =>
    intro n acc hn
    rw [natToStrAux]
    by_cases h10 : n < 10
    · rw [if_pos h10]
      simp [List.foldl, toNat_ofNat_lt (show 48 + n < 55296 by omega)]
    · rw [if_neg h10]
      have hdiv : n / 10 ≤ fuel := by
        have := Nat.div_lt_self (show 0 < n by omega) (show 1 < 10 by norm_num)
        omega
      rw [List.foldl_append, ih (n / 10) acc hdiv]
      have hm : (Char.ofNat (48 + n % 10)).toNat = 48 + n % 10 :=
        toNat_ofNat_lt (by have := Nat.mod_lt n (show 0 < 10 by norm_num); omega)
      simp [List.foldl, hm, List.length_append]
      rw [pow_succ]
      have := Nat.div_add_mod n 10
      ring_nf
      omega

theorem natToStr_foldl (n : Nat) :
    (natToStr n).foldl (fun acc c => acc * 10 + (c.toNat - 48)) 0 = n := by
  rw [natToStr, natToStrAux_foldl n n 0 le_rfl]
  simp

theorem natToStr_digits (n : Nat) :
    ∀ c ∈ natToStr n, 48 ≤ c.toNat ∧ c.toNat ≤ 57 :=
  fun c hc => natToStrAux_digits (n + 1) n c hc

theorem natToStr_ne_nil (n : Nat) : natToStr n ≠ [] := natToStrAux_ne_nil n n

/-- The character facts needed to dispatch the parser on a digit. -/
theorem digit_not_special {c : Char} (h48 : 48 ≤ c.toNat) (h57 : c.toNat ≤ 57) :
    jsonWsChar c = false ∧ c ≠ '[' ∧ c ≠ '\x7b' ∧ c ≠ '"' ∧ c ≠ 't' ∧
    c ≠ 'f' ∧ c ≠ 'n' ∧ c ≠ '-' ∧ Char.isDigit c = true := by
  have hne : ∀ d : Char, ¬ (48 ≤ d.toNat ∧ d.toNat ≤ 57) → c ≠ d := by
    intro d hd he
    subst he
    exact hd ⟨h48, h57⟩
  refine ⟨?_, hne _ (by decide), hne _ (by decide), hne _ (by decide),
    hne _ (by decide), hne _ (by decide), hne _ (by decide), hne _ (by decide), ?_⟩
  · simp [jsonWsChar, hne ' ' (by decide), hne '\t' (by decide),
      hne '\n' (by decide), hne '\r' (by decide)]
  · rw [Char.isDigit]
    have h1 : c.val ≥ 48 := by
      rw [ge_iff_le, UInt32.le_def, BitVec.le_def]
      simpa [Char.toNat, UInt32.toNat] using h48
    have h2 : c.val ≤ 57 := by
      rw [UInt32.le_def, BitVec.le_def]
      simpa [Char.toNat, UInt32.toNat] using h57
    simp [h1, h2]

theorem parseNumAfterSign_natToStr (neg : Bool) (m : Nat) (rest : Str)
    (hrest : headDelim rest = true) :
    parseNumAfterSign neg (natToStr m ++ rest)
      = some (.num (if neg then -(m : Int) else (m : Int)), rest) := by
  have hdig : ∀ a ∈ natToStr m, Char.isDigit a = true := fun a ha =>
    (digit_not_special (natToStr_digits m a ha).1
      (natToStr_digits m a ha).2).2.2.2.2.2.2.2.2
  have hrest_head : ∀ p : Char → Bool, p ',' = false → p ']' = false →
      p '\x7d' = false → rest.takeWhile p = [] ∧ rest.dropWhile p = rest := by
    intro p h1 h2 h3
    cases rest with
    | nil => exact ⟨rfl, rfl⟩
    | cons rc rt =>
      have : rc = ',' ∨ rc = ']' ∨ rc = '\x7d' := by
        simp [headDelim] at hrest
        tauto
      have hp : p rc = false := by
        rcases this with h | h | h <;> rw [h] <;> assumption
      rw [List.takeWhile_cons, List.dropWhile_cons, if_neg (by simp [hp]),
        if_neg (by simp [hp])]
      exact ⟨rfl, rfl⟩
  have hno := hrest_head Char.isDigit (by decide) (by decide) (by decide)
  rw [parseNumAfterSign]
  simp only [takeWhile_append_of_all Char.isDigit _ _ hdig,
    dropWhile_append_of_all Char.isDigit _ _ hdig, hno.1, hno.2, List.append_nil]
  rw [if_neg (by simp [natToStr_ne_nil m]), if_neg ?_]
  · rw [natToStr_foldl]
  · intro hcon
    have hd : ∀ ch : Char, rest.head? = some ch →
        ch = ',' ∨ ch = ']' ∨ ch = '\x7d' := by
      intro ch hch
      cases rest with
      | nil => simp at hch
      | cons rc rt =>
        have h1 : rc = ch := by simpa using hch
        subst h1
        simp [headDelim] at hrest
        tauto
    rcases hcon with h | h | h <;>
      rcases hd _ h with h2 | h2 | h2 <;> simp at h2

theorem parseNumber_intToStr (n : Int) (rest : Str)
    (hrest : headDelim rest = true) :
    parseNumber (intToStr n ++ rest) = some (.num n, rest) := by
  rw [parseNumber, intToStr]
  by_cases hneg : n < 0
  · rw [if_pos hneg]
    rw [List.cons_append]
    rw [if_pos (by rfl : (('-' :: (natToStr n.natAbs ++ rest)).head? = some '-')),
      show ('-' :: (natToStr n.natAbs ++ rest)).drop 1 = natToStr n.natAbs ++ rest
        from rfl,
      parseNumAfterSign_natToStr true n.natAbs rest hrest]
    have : -(n.natAbs : Int) = n := by omega
    rw [if_pos rfl, this]
  · rw [if_neg hneg]
    have hhead : ∃ c t, natToStr n.natAbs ++ rest = c :: t ∧ 48 ≤ c.toNat
        ∧ c.toNat ≤ 57 := by
      cases h : natToStr n.natAbs with
      | nil => exact absurd h (natToStr_ne_nil _)
      | cons c t =>
        refine ⟨c, t ++ rest, by rfl, ?_⟩
        exact natToStr_digits _ c (by rw [h]; simp)
    obtain ⟨c, t, hct, h48, h57⟩ := hhead
    rw [hct, if_neg ?_, ← hct, parseNumAfterSign_natToStr false n.natAbs rest hrest]
    · have : (n.natAbs : Int) = n := by omega
      rw [if_neg (by simp), this]
    · intro hcon
      have : c = '-' := by simpa using hcon
      exact (digit_not_special h48 h57).2.2.2.2.2.2.2.1 this

theorem escapeChar_safe {c : Char} (h : safeChar c = true) : escapeChar c = [c] := by
  simp only [safeChar, Bool.and_eq_true, decide_eq_true_eq, Bool.not_eq_true',
    beq_eq_false_iff_ne] at h
  obtain ⟨⟨⟨h32, h126⟩, hq⟩, hb⟩ := h
  have hch : ∀ d : Char, ¬ (32 ≤ d.toNat ∧ d.toNat ≤ 126) → c ≠ d := by
    intro d hd he
    subst he
    exact hd ⟨h32, h126⟩
  rw [escapeChar, if_neg hq, if_neg hb, if_neg (hch '\n' (by decide)),
    if_neg (hch '\r' (by decide)), if_neg (hch '\t' (by decide)),
    if_neg (hch '\x08' (by decide)), if_neg (hch '\x0c' (by decide)),
    if_neg (by omega : ¬ c.toNat < 32), if_pos (by omega : c.toNat < 127)]

theorem flatMap_escape_id {s : Str} (h : safeStr s = true) :
    s.flatMap escapeChar = s := by
  induction s with
  | nil => rfl
  | cons c cs ih =>
    rw [safeStr, List.all_cons, Bool.and_eq_true] at h
    rw [List.flatMap_cons, escapeChar_safe h.1, ih h.2]
    rfl

theorem parseStringBody_succ_cons (fuel : Nat) (c : Char) (rest : Str) :
    parseStringBody (fuel + 1) (c :: rest)
      = if c = '"' then some ([], rest)
        else if c = '\\' then
          match parseEscape1 rest with
          | some pr => consStr pr.1 (parseStringBody fuel pr.2)
          | none => none
        else consStr c (parseStringBody fuel rest) := by
  rfl

theorem parseStringBody_safe :
    ∀ (s : Str) (rest : Str) (fuel : Nat), safeStr s = true → s.length ≤ fuel →
      parseStringBody (fuel + 1) (s ++ '"' :: rest) = some (s, rest) := by
  intro s
  induction s with
  | nil =>
    intro rest fuel _ _
    rw [List.nil_append, parseStringBody_succ_cons, if_pos rfl]
  | cons c cs ih =>
    intro rest fuel hsafe hlen
    rw [safeStr, List.all_cons, Bool.and_eq_true] at hsafe
    have hcs : safeChar c = true := hsafe.1
    simp only [safeChar, Bool.and_eq_true, decide_eq_true_eq, Bool.not_eq_true',
      beq_eq_false_iff_ne] at hcs
    cases fuel with
    | zero => simp at hlen
    | succ fuel =>
      rw [List.cons_append, parseStringBody_succ_cons, if_neg hcs.1.2, if_neg hcs.2,
        ih rest fuel hsafe.2 (by simp at hlen; omega)]
      rfl

theorem dumps_ne_nil (v : J) : dumps v ≠ [] := by
  cases v with
  | null => simp [dumps]
  | bool b => cases b <;> simp [dumps]
  | num n =>
    rw [dumps, intToStr]
    split
    · simp
    · exact natToStr_ne_nil _
  | str s => simp [dumps]
  | arr xs => simp [dumps]
  | obj kvs => simp [dumps]

/-- The first character of a serialized value is never whitespace, a
closing bracket, a comma or a colon. -/
theorem dumps_head (v : J) :
    ∃ c t, dumps v = c :: t ∧ jsonWsChar c = false ∧ c ≠ ']' ∧ c ≠ '\x7d'
      ∧ c ≠ ',' ∧ c ≠ ':' := by
  cases v with
  | null => exact ⟨'n', _, rfl, by decide, by decide, by decide, by decide, by decide⟩
  | bool b =>
    cases b with
    | true => exact ⟨'t', _, rfl, by decide, by decide, by decide, by decide, by decide⟩
    | false => exact ⟨'f', _, rfl, by decide, by decide, by decide, by decide, by decide⟩
  | num n =>
    rw [dumps, intToStr]
    by_cases hneg : n < 0
    · rw [if_pos hneg]
      exact ⟨'-', _, rfl, by decide, by decide, by decide, by decide, by decide⟩
    · rw [if_neg hneg]
      cases h : natToStr n.natAbs with
      | nil => exact absurd h (natToStr_ne_nil _)
      | cons c t =>
        have hd := natToStr_digits n.natAbs c (by rw [h]; simp)
        have hch : ∀ d : Char, ¬ (48 ≤ d.toNat ∧ d.toNat ≤ 57) → c ≠ d := by
          intro d hnd he
          subst he
          exact hnd hd
        exact ⟨c, t, rfl, (digit_not_special hd.1 hd.2).1, hch ']' (by decide),
          hch '\x7d' (by decide), hch ',' (by decide), hch ':' (by decide)⟩
  | str s => exact ⟨'"', _, rfl, by decide, by decide, by decide, by decide, by decide⟩
  | arr xs => exact ⟨'[', _, rfl, by decide, by decide, by decide, by decide, by decide⟩
  | obj kvs => exact ⟨'\x7b', _, rfl, by decide, by decide, by decide, by decide, by decide⟩

theorem skipWs_dumps (v : J) (rest : Str) :
    skipWsJson (dumps v ++ rest) = dumps v ++ rest := by
  obtain ⟨c, t, hct, hws, _⟩ := dumps_head v
  rw [hct, List.cons_append, skipWsJson, List.dropWhile_cons, if_neg (by simp [hws])]

/-! ### C4 support: base64 round-trip and ASCII facts -/

theorem mem_pair {d x y : Char} (h : d ∈ [x, y]) : d = x ∨ d = y := by
  rcases List.mem_cons.mp h with rfl | h2
  · exact Or.inl rfl
  · rcases List.mem_cons.mp h2 with rfl | h3
    · exact Or.inr rfl
    · exact absurd h3 (List.not_mem_nil d)

theorem mem_ascii_list (l : Str) (h : l.all (fun c => decide (c.toNat < 128)) = true) :
    ∀ c ∈ l, c.toNat < 128 := by
  intro c hc
  simpa using List.all_eq_true.mp h c hc

theorem sextet_facts : ∀ n < 64, sextetOf (charOfSextet n) = some n
    ∧ isB64Char (charOfSextet n) = true ∧ charOfSextet n ≠ '='
    ∧ pyIsSpace (charOfSextet n) = false := by decide

theorem b64encode_chars : ∀ (bs : List Nat), (∀ b ∈ bs, b < 256) →
    ∀ c ∈ b64encode bs, (isB64Char c || c == '=') = true ∧ pyIsSpace c = false
  | [], _, c, hc => by simp [b64encode] at hc
  | [a], h, c, hc => by
    have ha : a < 256 := h a (by simp)
    have h1 := sextet_facts (a / 4) (by omega)
    have h2 := sextet_facts (a % 4 * 16) (by omega)
    simp only [b64encode, List.mem_cons] at hc
    rcases hc with rfl | rfl | rfl | rfl | hc
    · exact ⟨by simp [h1.2.1], h1.2.2.2⟩
    · exact ⟨by simp [h2.2.1], h2.2.2.2⟩
    · exact ⟨by decide, by decide⟩
    · exact ⟨by decide, by decide⟩
    · simp at hc
  | [a, b], h, c, hc => by
    have ha : a < 256 := h a (by simp)
    have hb : b < 256 := h b (by simp)
    have h1 := sextet_facts (a / 4) (by omega)
    have h2 := sextet_facts (a % 4 * 16 + b / 16) (by omega)
    have h3 := sextet_facts (b % 16 * 4) (by omega)
    simp only [b64encode, List.mem_cons] at hc
    rcases hc with rfl | rfl | rfl | rfl | hc
    · exact ⟨by simp [h1.2.1], h1.2.2.2⟩
    · exact ⟨by simp [h2.2.1], h2.2.2.2⟩
    · exact ⟨by simp [h3.2.1], h3.2.2.2⟩
    · exact ⟨by decide, by decide⟩
    · simp at hc
  | a :: b :: d :: rest, h, c, hc => by
    have ha : a < 256 := h a (by simp)
    have hb : b < 256 := h b (by simp)
    have hd : d < 256 := h d (by simp)
    have h1 := sextet_facts (a / 4) (by omega)
    have h2 := sextet_facts (a % 4 * 16 + b / 16) (by omega)
    have h3 := sextet_facts (b % 16 * 4 + d / 64) (by omega)
    have h4 := sextet_facts (d % 64) (by omega)
    have hrec := b64encode_chars rest (fun x hx => h x (by simp [hx]))
    simp only [b64encode, List.mem_cons] at hc
    rcases hc with rfl | rfl | rfl | rfl | hc
    · exact ⟨by simp [h1.2.1], h1.2.2.2⟩
    · exact ⟨by simp [h2.2.1], h2.2.2.2⟩
    · exact ⟨by simp [h3.2.1], h3.2.2.2⟩
    · exact ⟨by simp [h4.2.1], h4.2.2.2⟩
    · exact hrec c hc

theorem b64kept_encode (bs : List Nat) (h : ∀ b ∈ bs, b < 256) :
    b64kept (b64encode bs) = b64encode bs := by
  rw [b64kept]
  exact List.filter_eq_self.mpr (fun c hc => (b64encode_chars bs h c hc).1)

theorem pyStrip_b64encode (bs : List Nat) (h : ∀ b ∈ bs, b < 256) :
    pyStrip (b64encode bs) = b64encode bs :=
  pyStrip_eq_self _ (fun c hc => (b64encode_chars bs h c hc).2)

theorem b64encode_ne_nil : ∀ (bs : List Nat), bs ≠ [] → b64encode bs ≠ []
  | [], h => absurd rfl h
  | [_], _ => by simp [b64encode]
  | [_, _], _ => by simp [b64encode]
  | _ :: _ :: _ :: _, _ => by simp [b64encode]

theorem b64decodeGroups_four (c1 c2 c3 c4 : Char) (rest : Str) :
    b64decodeGroups (c1 :: c2 :: c3 :: c4 :: rest)
      = match sextetOf c1, sextetOf c2 with
        | some s1, some s2 =>
          if c3 = '=' then
            if c4 = '=' ∧ rest = [] then some [s1 * 4 + s2 / 16] else none
          else
            match sextetOf c3 with
            | some s3 =>
              if c4 = '=' then
                if rest = [] then some [s1 * 4 + s2 / 16, s2 % 16 * 16 + s3 / 4]
                else none
              else
                match sextetOf c4 with
                | some s4 =>
                  match b64decodeGroups rest with
                  | some bs =>
                    some ((s1 * 4 + s2 / 16) :: (s2 % 16 * 16 + s3 / 4)
                      :: (s3 % 4 * 64 + s4) :: bs)
                  | none => none
                | none => none
            | none => none
        | _, _ => none := rfl

theorem b64decodeGroups_encode : ∀ (bs : List Nat), (∀ b ∈ bs, b < 256) →
    b64decodeGroups (b64encode bs) = some bs
  | [], _ => rfl
  | [a], h => by
    have ha : a < 256 := h a (by simp)
    have h1 := sextet_facts (a / 4) (by omega)
    have h2 := sextet_facts (a % 4 * 16) (by omega)
    show b64decodeGroups
      (charOfSextet (a / 4) :: charOfSextet (a % 4 * 16) :: '=' :: '=' :: [])
        = some [a]
    rw [b64decodeGroups_four]
    simp only [h1.1, h2.1]
    simp
    all_goals omega
  | [a, b], h => by
    have ha : a < 256 := h a (by simp)
    have hb : b < 256 := h b (by simp)
    have h1 := sextet_facts (a / 4) (by omega)
    have h2 := sextet_facts (a % 4 * 16 + b / 16) (by omega)
    have h3 := sextet_facts (b % 16 * 4) (by omega)
    show b64decodeGroups (charOfSextet (a / 4)
        :: charOfSextet (a % 4 * 16 + b / 16) :: charOfSextet (b % 16 * 4)
        :: '=' :: []) = some [a, b]
    rw [b64decodeGroups_four]
    simp only [h1.1, h2.1]
    rw [if_neg h3.2.2.1]
    simp only [h3.1]
    simp
    all_goals omega
  | a :: b :: d :: rest, h => by
    have ha : a < 256 := h a (by simp)
    have hb : b < 256 := h b (by simp)
    have hd : d < 256 := h d (by simp)
    have h1 := sextet_facts (a / 4) (by omega)
    have h2 := sextet_facts (a % 4 * 16 + b / 16) (by omega)
    have h3 := sextet_facts (b % 16 * 4 + d / 64) (by omega)
    have h4 := sextet_facts (d % 64) (by omega)
    have ih := b64decodeGroups_encode rest (fun x hx => h x (by simp [hx]))
    show b64decodeGroups (charOfSextet (a / 4)
        :: charOfSextet (a % 4 * 16 + b / 16)
        :: charOfSextet (b % 16 * 4 + d / 64) :: charOfSextet (d % 64)
        :: b64encode rest) = some (a :: b :: d :: rest)
    rw [b64decodeGroups_four]
    simp only [h1.1, h2.1]
    rw [if_neg h3.2.2.1]
    simp only [h3.1]
    rw [if_neg h4.2.2.1]
    simp only [h4.1, ih]
    simp
    all_goals omega

theorem b64decode_encode (bs : List Nat) (h : ∀ b ∈ bs, b < 256) :
    b64decode (b64encode bs) = some bs := by
  rw [b64decode, b64kept_encode bs h, b64decodeGroups_encode bs h]

theorem utf8Encode_cons (c : Char) (cs : Str) :
    utf8Encode (c :: cs)
      = (let n := c.toNat
         if n < 0x80 then [n]
         else if n < 0x800 then [0xc0 + n / 64, 0x80 + n % 64]
         else if n < 0x10000 then
           [0xe0 + n / 4096, 0x80 + n / 64 % 64, 0x80 + n % 64]
         else [0xf0 + n / 262144, 0x80 + n / 4096 % 64, 0x80 + n / 64 % 64,
           0x80 + n % 64]) ++ utf8Encode cs := rfl

theorem utf8Encode_ascii : ∀ (s : Str), (∀ c ∈ s, c.toNat < 128) →
    utf8Encode s = s.map Char.toNat
  | [], _ => rfl
  | c :: cs, h => by
    have hc : c.toNat < 128 := h c (by simp)
    have ih := utf8Encode_ascii cs (fun x hx => h x (by simp [hx]))
    simp only [utf8Encode_cons]
    rw [if_pos hc, ih, List.map_cons]
    rfl

theorem utf8DecodeAux_cons (fuel : Nat) (b : Nat) (bs : List Nat) :
    utf8DecodeAux (fuel + 1) (b :: bs)
      = (if b < 0x80 then Char.ofNat b :: utf8DecodeAux fuel bs
         else if 0xc2 ≤ b ∧ b ≤ 0xdf then
           match bs with
           | b2 :: bs2 =>
             if utf8Cont b2 then
               Char.ofNat ((b - 0xc0) * 64 + (b2 - 0x80)) :: utf8DecodeAux fuel bs2
             else '�' :: utf8DecodeAux fuel bs
           | [] => ['�']
         else if 0xe0 ≤ b ∧ b ≤ 0xef then
           match bs with
           | b2 :: b3 :: bs3 =>
             if utf8Cont b2 && utf8Cont b3 then
               Char.ofNat ((b - 0xe0) * 4096 + (b2 - 0x80) * 64 + (b3 - 0x80))
                 :: utf8DecodeAux fuel bs3
             else '�' :: utf8DecodeAux fuel bs
           | _ => '�' :: utf8DecodeAux fuel bs
         else if 0xf0 ≤ b ∧ b ≤ 0xf4 then
           match bs with
           | b2 :: b3 :: b4 :: bs4 =>
             if utf8Cont b2 && utf8Cont b3 && utf8Cont b4 then
               Char.ofNat ((b - 0xf0) * 262144 + (b2 - 0x80) * 4096
                   + (b3 - 0x80) * 64 + (b4 - 0x80))
                 :: utf8DecodeAux fuel bs4
             else '�' :: utf8DecodeAux fuel bs
           | _ => '�' :: utf8DecodeAux fuel bs
         else '�' :: utf8DecodeAux fuel bs) := rfl

theorem utf8DecodeAux_ascii : ∀ (fuel : Nat) (bs : List Nat), bs.length < fuel →
    (∀ b ∈ bs, b < 128) → utf8DecodeAux fuel bs = bs.map Char.ofNat
  | 0, _, h, _ => absurd h (by omega)
  | _ + 1, [], _, _ => rfl
  | fuel + 1, b :: bs, h, hb => by
    have hb0 : b < 128 := hb b (by simp)
    have ih := utf8DecodeAux_ascii fuel bs (by simp at h; omega)
      (fun x hx => hb x (by simp [hx]))
    rw [utf8DecodeAux_cons, if_pos hb0, ih, List.map_cons]

theorem map_ofNat_toNat : ∀ (s : Str), (s.map Char.toNat).map Char.ofNat = s
  | [] => rfl
  | c :: cs => by
    rw [List.map_cons, List.map_cons, Char.ofNat_toNat, map_ofNat_toNat cs]

theorem utf8_roundtrip_ascii (s : Str) (h : ∀ c ∈ s, c.toNat < 128) :
    utf8DecodeReplace (utf8Encode s) = s := by
  rw [utf8DecodeReplace, utf8Encode_ascii s h,
    utf8DecodeAux_ascii _ _ (by omega) ?_, map_ofNat_toNat]
  intro b hb
  rw [List.mem_map] at hb
  obtain ⟨c, hc, rfl⟩ := hb
  exact h c hc

theorem hexDigit_ascii (n : Nat) (h : n < 16) : (hexDigit n).toNat < 128 := by
  rw [hexDigit]
  by_cases h10 : n < 10
  · rw [if_pos h10, toNat_ofNat_lt (by omega)]
    omega
  · rw [if_neg h10, toNat_ofNat_lt (by omega)]
    omega

theorem escU_ascii (n : Nat) : ∀ c ∈ escU n, c.toNat < 128 := by
  intro c hc
  simp only [escU, List.mem_cons] at hc
  rcases hc with rfl | rfl | rfl | rfl | rfl | rfl | hc
  · decide
  · decide
  · exact hexDigit_ascii _ (by omega)
  · exact hexDigit_ascii _ (by omega)
  · exact hexDigit_ascii _ (by omega)
  · exact hexDigit_ascii _ (by omega)
  · simp at hc

theorem escapeChar_ascii (c : Char) : ∀ d ∈ escapeChar c, d.toNat < 128 := by
  intro d hd
  rw [escapeChar] at hd
  by_cases h1 : c = '"'
  · rw [if_pos h1] at hd
    rcases mem_pair hd with rfl | rfl <;> decide
  rw [if_neg h1] at hd
  by_cases h2 : c = '\\'
  · rw [if_pos h2] at hd
    rcases mem_pair hd with rfl | rfl <;> decide
  rw [if_neg h2] at hd
  by_cases h3 : c = '\n'
  · rw [if_pos h3] at hd
    rcases mem_pair hd with rfl | rfl <;> decide
  rw [if_neg h3] at hd
  by_cases h4 : c = '\r'
  · rw [if_pos h4] at hd
    rcases mem_pair hd with rfl | rfl <;> decide
  rw [if_neg h4] at hd
  by_cases h5 : c = '\t'
  · rw [if_pos h5] at hd
    rcases mem_pair hd with rfl | rfl <;> decide
  rw [if_neg h5] at hd
  by_cases h6 : c = '\x08'
  · rw [if_pos h6] at hd
    rcases mem_pair hd with rfl | rfl <;> decide
  rw [if_neg h6] at hd
  by_cases h7 : c = '\x0c'
  · rw [if_pos h7] at hd
    rcases mem_pair hd with rfl | rfl <;> decide
  rw [if_neg h7] at hd
  by_cases h8 : c.toNat < 0x20
  · rw [if_pos h8] at hd
    exact escU_ascii _ d hd
  rw [if_neg h8] at hd
  by_cases h9 : c.toNat < 0x7f
  · rw [if_pos h9] at hd
    rcases List.mem_cons.mp hd with rfl | habs
    · omega
    · exact absurd habs (List.not_mem_nil d)
  rw [if_neg h9] at hd
  by_cases h10 : c.toNat < 0x10000
  · rw [if_pos h10] at hd
    exact escU_ascii _ d hd
  rw [if_neg h10] at hd
  rcases List.mem_append.mp hd with h | h
  · exact escU_ascii _ d h
  · exact escU_ascii _ d h

mutual

theorem dumps_ascii : ∀ (v : J), ∀ c ∈ dumps v, c.toNat < 128
  | .null => fun c hc => mem_ascii_list "null".toList (by decide) c hc
  | .bool true => fun c hc => mem_ascii_list "true".toList (by decide) c hc
  | .bool false => fun c hc => mem_ascii_list "false".toList (by decide) c hc
  | .num n => by
    intro c hc
    have hrw : dumps (J.num n) = intToStr n := rfl
    rw [hrw, intToStr] at hc
    by_cases hneg : n < 0
    · rw [if_pos hneg] at hc
      rcases List.mem_cons.mp hc with rfl | h2
      · decide
      · have := natToStr_digits _ c h2
        omega
    · rw [if_neg hneg] at hc
      have := natToStr_digits _ c hc
      omega
  | .str s => by
    intro c hc
    have hrw : dumps (J.str s) = '"' :: s.flatMap escapeChar ++ ['"'] := rfl
    rw [hrw] at hc
    rcases List.mem_cons.mp hc with rfl | h2
    · decide
    · rcases List.mem_append.mp h2 with h3 | h3
      · rw [List.mem_flatMap] at h3
        obtain ⟨a, _, hca⟩ := h3
        exact escapeChar_ascii a c hca
      · exact mem_ascii_list ['"'] (by decide) c h3
  | .arr xs => by
    intro c hc
    have hrw : dumps (J.arr xs) = '[' :: dumpsList xs ++ [']'] := rfl
    rw [hrw] at hc
    rcases List.mem_cons.mp hc with rfl | h2
    · decide
    · rcases List.mem_append.mp h2 with h3 | h3
      · exact dumpsList_ascii xs c h3
      · exact mem_ascii_list [']'] (by decide) c h3
  | .obj kvs => by
    intro c hc
    have hrw : dumps (J.obj kvs) = '\x7b' :: dumpsObj kvs ++ ['\x7d'] := rfl
    rw [hrw] at hc
    rcases List.mem_cons.mp hc with rfl | h2
    · decide
    · rcases List.mem_append.mp h2 with h3 | h3
      · exact dumpsObj_ascii kvs c h3
      · exact mem_ascii_list ['\x7d'] (by decide) c h3

theorem dumpsList_ascii : ∀ (xs : List J), ∀ c ∈ dumpsList xs, c.toNat < 128
  | [] => by intro c hc; simp [dumpsList] at hc
  | [x] => fun c hc => dumps_ascii x c hc
  | x :: y :: ys => by
    intro c hc
    have hrw : dumpsList (x :: y :: ys)
        = dumps x ++ ", ".toList ++ dumpsList (y :: ys) := rfl
    rw [hrw] at hc
    rcases List.mem_append.mp hc with h | h
    · rcases List.mem_append.mp h with h2 | h2
      · exact dumps_ascii x c h2
      · exact mem_ascii_list ", ".toList (by decide) c h2
    · exact dumpsList_ascii (y :: ys) c h

theorem dumpsObj_ascii : ∀ (kvs : List (Str × J)), ∀ c ∈ dumpsObj kvs,
    c.toNat < 128
  | [] => by intro c hc; simp [dumpsObj] at hc
  | [kv] => by
    intro c hc
    have hrw : dumpsObj [kv]
        = ('"' :: kv.1.flatMap escapeChar ++ juxtKeyVal) ++ dumps kv.2 := rfl
    rw [hrw] at hc
    rcases List.mem_append.mp hc with h | h
    · rcases List.mem_cons.mp h with rfl | h2
      · decide
      · rcases List.mem_append.mp h2 with h3 | h3
        · rw [List.mem_flatMap] at h3
          obtain ⟨a, _, hca⟩ := h3
          exact escapeChar_ascii a c hca
        · exact mem_ascii_list juxtKeyVal (by decide) c h3
    · exact dumps_ascii kv.2 c h
  | kv :: kv2 :: rest => by
    intro c hc
    have hrw : dumpsObj (kv :: kv2 :: rest)
        = (('"' :: kv.1.flatMap escapeChar ++ juxtKeyVal) ++ dumps kv.2)
            ++ ", ".toList ++ dumpsObj (kv2 :: rest) := rfl
    rw [hrw] at hc
    rcases List.mem_append.mp hc with h | h
    · rcases List.mem_append.mp h with h2 | h2
      · rcases List.mem_append.mp h2 with h3 | h3
        · rcases List.mem_cons.mp h3 with rfl | h4
          · decide
          · rcases List.mem_append.mp h4 with h5 | h5
            · rw [List.mem_flatMap] at h5
              obtain ⟨a, _, hca⟩ := h5
              exact escapeChar_ascii a c hca
            · exact mem_ascii_list juxtKeyVal (by decide) c h5
        · exact dumps_ascii kv.2 c h3
      · exact mem_ascii_list ", ".toList (by decide) c h2
    · exact dumpsObj_ascii (kv2 :: rest) c h

end

theorem dumps_utf8_bytes_lt (v : J) : ∀ b ∈ utf8Encode (dumps v), b < 256 := by
  intro b hb
  rw [utf8Encode_ascii (dumps v) (dumps_ascii v), List.mem_map] at hb
  obtain ⟨c, hc, rfl⟩ := hb
  have := dumps_ascii v c hc
  omega

/-! ### C4 support: the parser on serialized values -/

theorem skipWs_space (l : Str) : skipWsJson (' ' :: l) = skipWsJson l := by
  show (' ' :: l).dropWhile jsonWsChar = l.dropWhile jsonWsChar
  rw [List.dropWhile_cons, if_pos (by decide)]

theorem skipWs_nonws {c : Char} (hc : jsonWsChar c = false) (l : Str) :
    skipWsJson (c :: l) = c :: l := by
  show (c :: l).dropWhile jsonWsChar = c :: l
  rw [List.dropWhile_cons, if_neg (by simp [hc])]

theorem parseVal_succ (fuel : Nat) (s0 : Str) :
    parseVal (fuel + 1) s0
      = (match skipWsJson s0 with
         | [] => none
         | c :: r =>
           if c = '[' then
             (if (skipWsJson r).head? = some ']' then
               some (.arr [], (skipWsJson r).drop 1)
             else
               match parseElems fuel (skipWsJson r) with
               | some pr => some (.arr pr.1, pr.2)
               | none => none)
           else if c = '\x7b' then
             (if (skipWsJson r).head? = some '\x7d' then
               some (.obj [], (skipWsJson r).drop 1)
             else
               match parseMembers fuel (skipWsJson r) with
               | some pr => some (.obj pr.1, pr.2)
               | none => none)
           else if c = '"' then
             match parseStringBody (r.length + 1) r with
             | some pr => some (.str pr.1, pr.2)
             | none => none
           else if c = 't' then
             (if "rue".toList.isPrefixOf r then some (.bool true, r.drop 3)
              else none)
           else if c = 'f' then
             (if "alse".toList.isPrefixOf r then some (.bool false, r.drop 4)
              else none)
           else if c = 'n' then
             (if "ull".toList.isPrefixOf r then some (.null, r.drop 3)
              else none)
           else parseNumber (c :: r)) := rfl

theorem parseVal_cons (fuel : Nat) (c : Char) (r : Str)
    (hc : jsonWsChar c = false) :
    parseVal (fuel + 1) (c :: r)
      = (if c = '[' then
           (if (skipWsJson r).head? = some ']' then
             some (.arr [], (skipWsJson r).drop 1)
           else
             match parseElems fuel (skipWsJson r) with
             | some pr => some (.arr pr.1, pr.2)
             | none => none)
         else if c = '\x7b' then
           (if (skipWsJson r).head? = some '\x7d' then
             some (.obj [], (skipWsJson r).drop 1)
           else
             match parseMembers fuel (skipWsJson r) with
             | some pr => some (.obj pr.1, pr.2)
             | none => none)
         else if c = '"' then
           match parseStringBody (r.length + 1) r with
           | some pr => some (.str pr.1, pr.2)
           | none => none
         else if c = 't' then
           (if "rue".toList.isPrefixOf r then some (.bool true, r.drop 3)
            else none)
         else if c = 'f' then
           (if "alse".toList.isPrefixOf r then some (.bool false, r.drop 4)
            else none)
         else if c = 'n' then
           (if "ull".toList.isPrefixOf r then some (.null, r.drop 3)
            else none)
         else parseNumber (c :: r)) := by
  rw [parseVal_succ, skipWs_nonws hc r]

theorem parseElems_succ (fuel : Nat) (s : Str) :
    parseElems (fuel + 1) s
      = (match parseVal fuel s with
         | none => none
         | some (v, r) =>
           if (skipWsJson r).head? = some ',' then
             match parseElems fuel (skipWsJson ((skipWsJson r).drop 1)) with
             | some pr => some (v :: pr.1, pr.2)
             | none => none
           else if (skipWsJson r).head? = some ']' then
             some ([v], (skipWsJson r).drop 1)
           else none) := rfl

theorem parseElems_step (fuel : Nat) (s : Str) (v : J) (r : Str)
    (h : parseVal fuel s = some (v, r)) :
    parseElems (fuel + 1) s
      = (if (skipWsJson r).head? = some ',' then
           match parseElems fuel (skipWsJson ((skipWsJson r).drop 1)) with
           | some pr => some (v :: pr.1, pr.2)
           | none => none
         else if (skipWsJson r).head? = some ']' then
           some ([v], (skipWsJson r).drop 1)
         else none) := by
  rw [parseElems_succ, h]

theorem parseMembers_quote (fuel : Nat) (r : Str) :
    parseMembers (fuel + 1) ('"' :: r)
      = (match parseStringBody (r.length + 1) r with
         | none => none
         | some (k, r1) =>
           if (skipWsJson r1).head? = some ':' then
             match parseVal fuel (skipWsJson ((skipWsJson r1).drop 1)) with
             | none => none
             | some (v, r3) =>
               if (skipWsJson r3).head? = some ',' then
                 match parseMembers fuel (skipWsJson ((skipWsJson r3).drop 1)) with
                 | some pr => some ((k, v) :: pr.1, pr.2)
                 | none => none
               else if (skipWsJson r3).head? = some '\x7d' then
                 some ([(k, v)], (skipWsJson r3).drop 1)
               else none
           else none) := rfl

theorem parseMembers_full (fuel : Nat) (r k tcr : Str) (v : J) (r3 : Str)
    (hk : parseStringBody (r.length + 1) r = some (k, tcr))
    (hcolon : (skipWsJson tcr).head? = some ':')
    (hv : parseVal fuel (skipWsJson ((skipWsJson tcr).drop 1)) = some (v, r3)) :
    parseMembers (fuel + 1) ('"' :: r)
      = (if (skipWsJson r3).head? = some ',' then
           match parseMembers fuel (skipWsJson ((skipWsJson r3).drop 1)) with
           | some pr => some ((k, v) :: pr.1, pr.2)
           | none => none
         else if (skipWsJson r3).head? = some '\x7d' then
           some ([(k, v)], (skipWsJson r3).drop 1)
         else none) := by
  rw [parseMembers_quote, hk]
  show (if (skipWsJson tcr).head? = some ':' then
      match parseVal fuel (skipWsJson ((skipWsJson tcr).drop 1)) with
      | none => none
      | some (v, r3) =>
        if (skipWsJson r3).head? = some ',' then
          match parseMembers fuel (skipWsJson ((skipWsJson r3).drop 1)) with
          | some pr => some ((k, v) :: pr.1, pr.2)
          | none => none
        else if (skipWsJson r3).head? = some '\x7d' then
          some ([(k, v)], (skipWsJson r3).drop 1)
        else none
    else none) = _
  rw [if_pos hcolon, hv]

theorem parseVal_null (fuel : Nat) (rest : Str) :
    parseVal (fuel + 1) (dumps J.null ++ rest) = some (J.null, rest) := by
  have hshape : dumps J.null ++ rest = 'n' :: ("ull".toList ++ rest) := rfl
  rw [hshape, parseVal_cons fuel 'n' _ (by decide), if_neg (by decide),
    if_neg (by decide), if_neg (by decide), if_neg (by decide),
    if_neg (by decide), if_pos rfl,
    if_pos (List.isPrefixOf_iff_prefix.mpr (List.prefix_append _ _))]
  rfl

theorem parseVal_true (fuel : Nat) (rest : Str) :
    parseVal (fuel + 1) (dumps (J.bool true) ++ rest)
      = some (J.bool true, rest) := by
  have hshape : dumps (J.bool true) ++ rest = 't' :: ("rue".toList ++ rest) := rfl
  rw [hshape, parseVal_cons fuel 't' _ (by decide), if_neg (by decide),
    if_neg (by decide), if_neg (by decide), if_pos rfl,
    if_pos (List.isPrefixOf_iff_prefix.mpr (List.prefix_append _ _))]
  rfl

theorem parseVal_false (fuel : Nat) (rest : Str) :
    parseVal (fuel + 1) (dumps (J.bool false) ++ rest)
      = some (J.bool false, rest) := by
  have hshape : dumps (J.bool false) ++ rest
      = 'f' :: ("alse".toList ++ rest) := rfl
  rw [hshape, parseVal_cons fuel 'f' _ (by decide), if_neg (by decide),
    if_neg (by decide), if_neg (by decide), if_neg (by decide), if_pos rfl,
    if_pos (List.isPrefixOf_iff_prefix.mpr (List.prefix_append _ _))]
  rfl

theorem parseVal_num (fuel : Nat) (n : Int) (rest : Str)
    (hrest : headDelim rest = true) :
    parseVal (fuel + 1) (dumps (J.num n) ++ rest) = some (J.num n, rest) := by
  have hpn := parseNumber_intToStr n rest hrest
  have hd0 : dumps (J.num n) = intToStr n := rfl
  rw [hd0, intToStr]
  by_cases hneg : n < 0
  · rw [if_pos hneg, List.cons_append,
      parseVal_cons fuel '-' (natToStr n.natAbs ++ rest) (by decide),
      if_neg (by decide), if_neg (by decide), if_neg (by decide),
      if_neg (by decide), if_neg (by decide), if_neg (by decide)]
    have hback : '-' :: (natToStr n.natAbs ++ rest) = intToStr n ++ rest := by
      rw [intToStr, if_pos hneg, List.cons_append]
    rw [hback, hpn]
  · rw [if_neg hneg]
    obtain ⟨c, t, hct, h48, h57⟩ :
        ∃ c t, natToStr n.natAbs = c :: t ∧ 48 ≤ c.toNat ∧ c.toNat ≤ 57 := by
      cases h : natToStr n.natAbs with
      | nil => exact absurd h (natToStr_ne_nil _)
      | cons c t =>
        exact ⟨c, t, rfl, natToStr_digits _ c (by rw [h]; simp)⟩
    have hdns := digit_not_special h48 h57
    rw [hct, List.cons_append, parseVal_cons fuel c (t ++ rest) hdns.1,
      if_neg hdns.2.1, if_neg hdns.2.2.1, if_neg hdns.2.2.2.1,
      if_neg hdns.2.2.2.2.1, if_neg hdns.2.2.2.2.2.1,
      if_neg hdns.2.2.2.2.2.2.1]
    have hback : c :: (t ++ rest) = intToStr n ++ rest := by
      rw [intToStr, if_neg hneg, hct, List.cons_append]
    rw [hback, hpn]

theorem parseVal_str (fuel : Nat) (s rest : Str) (hs : safeStr s = true) :
    parseVal (fuel + 1) (dumps (J.str s) ++ rest) = some (J.str s, rest) := by
  have hshape : dumps (J.str s) ++ rest = '"' :: (s ++ ('"' :: rest)) := by
    show (('"' :: s.flatMap escapeChar) ++ ['"']) ++ rest = _
    rw [flatMap_escape_id hs, List.append_assoc, List.cons_append]
    rfl
  rw [hshape, parseVal_cons fuel '"' (s ++ ('"' :: rest)) (by decide),
    if_neg (by decide), if_neg (by decide), if_pos rfl,
    parseStringBody_safe s rest (s ++ ('"' :: rest)).length hs
      (by rw [List.length_append]; omega)]

theorem dumpsList_cons_eq (x : J) (xs : List J) :
    ∃ t, dumpsList (x :: xs) = dumps x ++ t := by
  cases xs with
  | nil =>
    refine ⟨[], ?_⟩
    rw [List.append_nil]
    rfl
  | cons y ys =>
    refine ⟨", ".toList ++ dumpsList (y :: ys), ?_⟩
    rw [← List.append_assoc]
    rfl

theorem dumpsObj_cons_eq (kv : Str × J) (kvs : List (Str × J)) :
    ∃ t, dumpsObj (kv :: kvs)
      = '"' :: (kv.1.flatMap escapeChar ++ (juxtKeyVal ++ (dumps kv.2 ++ t))) := by
  cases kvs with
  | nil =>
    refine ⟨[], ?_⟩
    show (('"' :: kv.1.flatMap escapeChar) ++ juxtKeyVal) ++ dumps kv.2 = _
    rw [List.append_nil, List.append_assoc, List.cons_append]
  | cons kv2 rest =>
    refine ⟨", ".toList ++ dumpsObj (kv2 :: rest), ?_⟩
    show ((('"' :: kv.1.flatMap escapeChar) ++ juxtKeyVal) ++ dumps kv.2)
        ++ ", ".toList ++ dumpsObj (kv2 :: rest) = _
    simp only [List.append_assoc, List.cons_append]

mutual

theorem szJ_lt_dumps : ∀ (v : J), szJ v < (dumps v).length
  | .null => by decide
  | .bool true => by decide
  | .bool false => by decide
  | .num n => by
    have h0 : szJ (J.num n) = 0 := rfl
    have h1 : dumps (J.num n) = intToStr n := rfl
    rw [h0, h1]
    have hne : intToStr n ≠ [] := by
      rw [intToStr]
      split
      · simp
      · exact natToStr_ne_nil _
    cases hi : intToStr n with
    | nil => exact absurd hi hne
    | cons c t => simp only [List.length_cons]; omega
  | .str s => by
    have h0 : szJ (J.str s) = 0 := rfl
    have h1 : dumps (J.str s) = ('"' :: s.flatMap escapeChar) ++ ['"'] := rfl
    rw [h0, h1]
    simp only [List.length_append, List.length_cons]
    omega
  | .arr xs => by
    have h0 : szJ (J.arr xs) = szList xs + 1 := rfl
    have h1 : dumps (J.arr xs) = ('[' :: dumpsList xs) ++ [']'] := rfl
    have a1 := szList_le_dumpsList xs
    rw [h0, h1]
    simp only [List.length_append, List.length_cons]
    omega
  | .obj kvs => by
    have h0 : szJ (J.obj kvs) = szObj kvs + 1 := rfl
    have h1 : dumps (J.obj kvs) = ('\x7b' :: dumpsObj kvs) ++ ['\x7d'] := rfl
    have a1 := szObj_le_dumpsObj kvs
    rw [h0, h1]
    simp only [List.length_append, List.length_cons]
    omega

theorem szList_le_dumpsList : ∀ (xs : List J), szList xs ≤ (dumpsList xs).length
  | [] => Nat.le_refl 0
  | [x] => by
    have h0 : szList [x] = szJ x + 1 := rfl
    have h1 : dumpsList [x] = dumps x := rfl
    rw [h0, h1]
    exact szJ_lt_dumps x
  | x :: y :: ys => by
    have h0 : szList (x :: y :: ys) = szJ x + szList (y :: ys) + 1 := rfl
    have h1 : dumpsList (x :: y :: ys)
        = (dumps x ++ ", ".toList) ++ dumpsList (y :: ys) := rfl
    have a1 := szJ_lt_dumps x
    have a2 := szList_le_dumpsList (y :: ys)
    rw [h0, h1]
    simp only [List.length_append]
    omega

theorem szObj_le_dumpsObj : ∀ (kvs : List (Str × J)), szObj kvs ≤ (dumpsObj kvs).length
  | [] => Nat.le_refl 0
  | [kv] => by
    have h0 : szObj [kv] = szJ kv.2 + 1 := rfl
    have h1 : dumpsObj [kv]
        = (('"' :: kv.1.flatMap escapeChar) ++ juxtKeyVal) ++ dumps kv.2 := rfl
    have a1 := szJ_lt_dumps kv.2
    rw [h0, h1]
    simp only [List.length_append, List.length_cons]
    omega
  | kv :: kv2 :: rest => by
    have h0 : szObj (kv :: kv2 :: rest) = szJ kv.2 + szObj (kv2 :: rest) + 1 := rfl
    have h1 : dumpsObj (kv :: kv2 :: rest)
        = (((('"' :: kv.1.flatMap escapeChar) ++ juxtKeyVal) ++ dumps kv.2)
            ++ ", ".toList) ++ dumpsObj (kv2 :: rest) := rfl
    have a1 := szJ_lt_dumps kv.2
    have a2 := szObj_le_dumpsObj (kv2 :: rest)
    rw [h0, h1]
    simp only [List.length_append, List.length_cons]
    omega

end

theorem RT_all : ∀ (fuel : Nat),
    (∀ (v : J) (rest : Str), safeJ v = true → szJ v ≤ fuel →
      headDelim rest = true →
      parseVal (fuel + 1) (dumps v ++ rest) = some (v, rest))
    ∧ (∀ (x : J) (xs : List J) (rest : Str), safeList (x :: xs) = true →
      szList (x :: xs) ≤ fuel →
      parseElems (fuel + 1) (dumpsList (x :: xs) ++ (']' :: rest))
        = some (x :: xs, rest))
    ∧ (∀ (kv : Str × J) (kvs : List (Str × J)) (rest : Str),
      safeObj (kv :: kvs) = true → szObj (kv :: kvs) ≤ fuel →
      parseMembers (fuel + 1) (dumpsObj (kv :: kvs) ++ ('\x7d' :: rest))
        = some (kv :: kvs, rest)) := by
  intro fuel
  induction fuel with
  | zero =>
    refine ⟨?_, ?_, ?_⟩
    · intro v rest hs hsz hrest
      cases v with
      | null => exact parseVal_null 0 rest
      | bool b => cases b with
        | true => exact parseVal_true 0 rest
        | false => exact parseVal_false 0 rest
      | num n => exact parseVal_num 0 n rest hrest
      | str s => exact parseVal_str 0 s rest hs
      | arr xs =>
        exact absurd hsz
          (by have e : szJ (J.arr xs) = szList xs + 1 := rfl; rw [e]; omega)
      | obj kvs =>
        exact absurd hsz
          (by have e : szJ (J.obj kvs) = szObj kvs + 1 := rfl; rw [e]; omega)
    · intro x xs rest _ hsz
      exact absurd hsz
        (by have e : szList (x :: xs) = szJ x + szList xs + 1 := rfl
            rw [e]; omega)
    · intro kv kvs rest _ hsz
      exact absurd hsz
        (by have e : szObj (kv :: kvs) = szJ kv.2 + szObj kvs + 1 := rfl
            rw [e]; omega)
  | succ f ih =>
    obtain ⟨ihV, ihL, ihO⟩ := ih
    refine ⟨?_, ?_, ?_⟩
    · intro v rest hs hsz hrest
      cases v with
      | null => exact parseVal_null (f + 1) rest
      | bool b => cases b with
        | true => exact parseVal_true (f + 1) rest
        | false => exact parseVal_false (f + 1) rest
      | num n => exact parseVal_num (f + 1) n rest hrest
      | str s => exact parseVal_str (f + 1) s rest hs
      | arr xs =>
        cases xs with
        | nil =>
          have hshape : dumps (J.arr []) ++ rest = '[' :: (']' :: rest) := rfl
          rw [hshape, parseVal_cons (f + 1) '[' (']' :: rest) (by decide),
            if_pos rfl, skipWs_nonws (by decide) rest,
            if_pos (show ((']' :: rest).head? = some ']') from rfl)]
          rfl
        | cons x xs2 =>
          have hsafe : safeList (x :: xs2) = true := by
            have e : safeJ (J.arr (x :: xs2)) = safeList (x :: xs2) := rfl
            rw [← e]; exact hs
          have hsz2 : szList (x :: xs2) ≤ f := by
            have e : szJ (J.arr (x :: xs2)) = szList (x :: xs2) + 1 := rfl
            rw [e] at hsz; omega
          have hshape : dumps (J.arr (x :: xs2)) ++ rest
              = '[' :: (dumpsList (x :: xs2) ++ (']' :: rest)) := by
            show (('[' :: dumpsList (x :: xs2)) ++ [']']) ++ rest = _
            rw [List.append_assoc, List.cons_append]
            rfl
          obtain ⟨t, ht⟩ := dumpsList_cons_eq x xs2
          obtain ⟨c0, t0, hct, hws0, hnb, _, _, _⟩ := dumps_head x
          have hsk : skipWsJson (dumpsList (x :: xs2) ++ (']' :: rest))
              = dumpsList (x :: xs2) ++ (']' :: rest) := by
            rw [ht, hct, List.cons_append, List.cons_append]
            exact skipWs_nonws hws0 _
          have hhead : (dumpsList (x :: xs2) ++ (']' :: rest)).head? = some c0 := by
            rw [ht, hct]
            rfl
          have hne : ¬ ((dumpsList (x :: xs2) ++ (']' :: rest)).head?
              = some (']' : Char)) := by
            rw [hhead]
            intro hcon
            exact absurd (Option.some.inj hcon) hnb
          rw [hshape, parseVal_cons (f + 1) '['
              (dumpsList (x :: xs2) ++ (']' :: rest)) (by decide),
            if_pos rfl, hsk, if_neg hne, ihL x xs2 rest hsafe hsz2]
      | obj kvs =>
        cases kvs with
        | nil =>
          have hshape : dumps (J.obj []) ++ rest = '\x7b' :: ('\x7d' :: rest) := rfl
          rw [hshape, parseVal_cons (f + 1) '\x7b' ('\x7d' :: rest) (by decide),
            if_neg (by decide), if_pos rfl, skipWs_nonws (by decide) rest,
            if_pos (show (('\x7d' :: rest).head? = some '\x7d') from rfl)]
          rfl
        | cons kv kvs2 =>
          have hso : safeObj (kv :: kvs2) = true := by
            have e : safeJ (J.obj (kv :: kvs2))
                = (nodupKeys (kv :: kvs2) && safeObj (kv :: kvs2)) := rfl
            rw [e, Bool.and_eq_true] at hs
            exact hs.2
          have hsz2 : szObj (kv :: kvs2) ≤ f := by
            have e : szJ (J.obj (kv :: kvs2)) = szObj (kv :: kvs2) + 1 := rfl
            rw [e] at hsz; omega
          have hshape : dumps (J.obj (kv :: kvs2)) ++ rest
              = '\x7b' :: (dumpsObj (kv :: kvs2) ++ ('\x7d' :: rest)) := by
            show (('\x7b' :: dumpsObj (kv :: kvs2)) ++ ['\x7d']) ++ rest = _
            rw [List.append_assoc, List.cons_append]
            rfl
          obtain ⟨t, ht⟩ := dumpsObj_cons_eq kv kvs2
          have hsk : skipWsJson (dumpsObj (kv :: kvs2) ++ ('\x7d' :: rest))
              = dumpsObj (kv :: kvs2) ++ ('\x7d' :: rest) := by
            rw [ht, List.cons_append]
            exact skipWs_nonws (by decide) _
          have hne : ¬ ((dumpsObj (kv :: kvs2) ++ ('\x7d' :: rest)).head?
              = some ('\x7d' : Char)) := by
            rw [ht, List.cons_append]
            intro hcon
            exact absurd (Option.some.inj hcon) (by decide)
          rw [hshape, parseVal_cons (f + 1) '\x7b'
              (dumpsObj (kv :: kvs2) ++ ('\x7d' :: rest)) (by decide),
            if_neg (by decide), if_pos rfl, hsk, if_neg hne,
            ihO kv kvs2 rest hso hsz2]
    · intro x xs rest hsafe hsz
      have eS : safeList (x :: xs) = (safeJ x && safeList xs) := rfl
      rw [eS, Bool.and_eq_true] at hsafe
      have hsx : safeJ x = true := hsafe.1
      have hsxs : safeList xs = true := hsafe.2
      cases xs with
      | nil =>
        have h1 : dumpsList [x] ++ (']' :: rest) = dumps x ++ (']' :: rest) := rfl
        have hszx : szJ x ≤ f := by
          have e : szList [x] = szJ x + szList [] + 1 := rfl
          have e0 : szList ([] : List J) = 0 := rfl
          rw [e, e0] at hsz; omega
        rw [h1, parseElems_step (f + 1) (dumps x ++ (']' :: rest)) x (']' :: rest)
            (ihV x (']' :: rest) hsx hszx (by rfl)),
          skipWs_nonws (by decide) rest]
        have hne1 : ¬ ((']' :: rest).head? = some (',' : Char)) := by
          intro hcon
          exact absurd (Option.some.inj hcon) (by decide)
        rw [if_neg hne1,
          if_pos (show ((']' :: rest).head? = some ']') from rfl)]
        rfl
      | cons y ys =>
        have e1 : szList (x :: y :: ys) = szJ x + szList (y :: ys) + 1 := rfl
        have e2 : szList (y :: ys) = szJ y + szList ys + 1 := rfl
        have hszx : szJ x ≤ f := by rw [e1, e2] at hsz; omega
        have hsz3 : szList (y :: ys) ≤ f := by rw [e1] at hsz; omega
        have h1 : dumpsList (x :: y :: ys) ++ (']' :: rest)
            = dumps x ++ (',' :: ' ' :: (dumpsList (y :: ys) ++ (']' :: rest))) := by
          show ((dumps x ++ ", ".toList) ++ dumpsList (y :: ys)) ++ (']' :: rest) = _
          rw [List.append_assoc, List.append_assoc]
          rfl
        have hpv := ihV x (',' :: ' ' :: (dumpsList (y :: ys) ++ (']' :: rest)))
          hsx hszx (by rfl)
        rw [h1, parseElems_step (f + 1) _ x _ hpv,
          skipWs_nonws (by decide) _,
          if_pos (show ((',' :: ' ' :: (dumpsList (y :: ys) ++ (']' :: rest))).head?
            = some ',') from rfl)]
        have h3 : skipWsJson
            ((',' :: ' ' :: (dumpsList (y :: ys) ++ (']' :: rest))).drop 1)
            = dumpsList (y :: ys) ++ (']' :: rest) := by
          show skipWsJson (' ' :: (dumpsList (y :: ys) ++ (']' :: rest))) = _
          rw [skipWs_space]
          obtain ⟨t, ht⟩ := dumpsList_cons_eq y ys
          obtain ⟨c0, t0, hct, hws0, _, _, _, _⟩ := dumps_head y
          rw [ht, hct, List.cons_append, List.cons_append]
          exact skipWs_nonws hws0 _
        rw [h3, ihL y ys rest hsxs hsz3]
    · intro kv kvs rest hsafe hsz
      have eS : safeObj (kv :: kvs)
          = (safeStr kv.1 && safeJ kv.2 && safeObj kvs) := rfl
      rw [eS] at hsafe
      simp only [Bool.and_eq_true] at hsafe
      have hk1 : safeStr kv.1 = true := hsafe.1.1
      have hk2 : safeJ kv.2 = true := hsafe.1.2
      cases kvs with
      | nil =>
        have hszv : szJ kv.2 ≤ f := by
          have e : szObj [kv] = szJ kv.2 + szObj [] + 1 := rfl
          have e0 : szObj ([] : List (Str × J)) = 0 := rfl
          rw [e, e0] at hsz; omega
        have h1 : dumpsObj [kv] ++ ('\x7d' :: rest)
            = '"' :: (kv.1 ++ ('"' :: (':' :: ' '
                :: (dumps kv.2 ++ ('\x7d' :: rest))))) := by
          show ((('"' :: kv.1.flatMap escapeChar) ++ juxtKeyVal) ++ dumps kv.2)
              ++ ('\x7d' :: rest) = _
          rw [flatMap_escape_id hk1, List.append_assoc, List.append_assoc,
            List.cons_append]
          rfl
        have hsb := parseStringBody_safe kv.1
          (':' :: ' ' :: (dumps kv.2 ++ ('\x7d' :: rest)))
          (kv.1 ++ ('"' :: (':' :: ' ' :: (dumps kv.2 ++ ('\x7d' :: rest))))).length
          hk1 (by rw [List.length_append]; omega)
        have hcolon : (skipWsJson (':' :: ' '
            :: (dumps kv.2 ++ ('\x7d' :: rest)))).head? = some ':' := by
          rw [skipWs_nonws (by decide) _]
          rfl
        have hx : skipWsJson ((skipWsJson (':' :: ' '
            :: (dumps kv.2 ++ ('\x7d' :: rest)))).drop 1)
            = dumps kv.2 ++ ('\x7d' :: rest) := by
          rw [skipWs_nonws (by decide) _]
          show skipWsJson (' ' :: (dumps kv.2 ++ ('\x7d' :: rest))) = _
          rw [skipWs_space]
          exact skipWs_dumps kv.2 _
        have hv : parseVal (f + 1) (skipWsJson ((skipWsJson (':' :: ' '
            :: (dumps kv.2 ++ ('\x7d' :: rest)))).drop 1))
            = some (kv.2, '\x7d' :: rest) := by
          rw [hx]
          exact ihV kv.2 ('\x7d' :: rest) hk2 hszv (by rfl)
        rw [h1, parseMembers_full (f + 1) _ kv.1 _ kv.2 ('\x7d' :: rest)
            hsb hcolon hv, skipWs_nonws (by decide) rest]
        have hne1 : ¬ (('\x7d' :: rest).head? = some (',' : Char)) := by
          intro hcon
          exact absurd (Option.some.inj hcon) (by decide)
        rw [if_neg hne1,
          if_pos (show (('\x7d' :: rest).head? = some '\x7d') from rfl)]
        rfl
      | cons kv2 kvs2 =>
        have hso2 : safeObj (kv2 :: kvs2) = true := hsafe.2
        have e1 : szObj (kv :: kv2 :: kvs2)
            = szJ kv.2 + szObj (kv2 :: kvs2) + 1 := rfl
        have e2 : szObj (kv2 :: kvs2) = szJ kv2.2 + szObj kvs2 + 1 := rfl
        have hszv : szJ kv.2 ≤ f := by rw [e1, e2] at hsz; omega
        have hsz2 : szObj (kv2 :: kvs2) ≤ f := by rw [e1] at hsz; omega
        have h1 : dumpsObj (kv :: kv2 :: kvs2) ++ ('\x7d' :: rest)
            = '"' :: (kv.1 ++ ('"' :: (':' :: ' ' :: (dumps kv.2
                ++ (',' :: ' ' :: (dumpsObj (kv2 :: kvs2)
                  ++ ('\x7d' :: rest))))))) := by
          show ((((('"' :: kv.1.flatMap escapeChar) ++ juxtKeyVal) ++ dumps kv.2)
              ++ ", ".toList) ++ dumpsObj (kv2 :: kvs2)) ++ ('\x7d' :: rest) = _
          rw [flatMap_escape_id hk1]
          simp only [List.append_assoc, List.cons_append]
          rfl
        have hsb := parseStringBody_safe kv.1
          (':' :: ' ' :: (dumps kv.2 ++ (',' :: ' '
            :: (dumpsObj (kv2 :: kvs2) ++ ('\x7d' :: rest)))))
          (kv.1 ++ ('"' :: (':' :: ' ' :: (dumps kv.2 ++ (',' :: ' '
            :: (dumpsObj (kv2 :: kvs2) ++ ('\x7d' :: rest))))))).length
          hk1 (by rw [List.length_append]; omega)
        have hcolon : (skipWsJson (':' :: ' ' :: (dumps kv.2 ++ (',' :: ' '
            :: (dumpsObj (kv2 :: kvs2) ++ ('\x7d' :: rest)))))).head?
            = some ':' := by
          rw [skipWs_nonws (by decide) _]
          rfl
        have hx : skipWsJson ((skipWsJson (':' :: ' ' :: (dumps kv.2
            ++ (',' :: ' ' :: (dumpsObj (kv2 :: kvs2)
              ++ ('\x7d' :: rest)))))).drop 1)
            = dumps kv.2 ++ (',' :: ' ' :: (dumpsObj (kv2 :: kvs2)
                ++ ('\x7d' :: rest))) := by
          rw [skipWs_nonws (by decide) _]
          show skipWsJson (' ' :: (dumps kv.2 ++ (',' :: ' '
              :: (dumpsObj (kv2 :: kvs2) ++ ('\x7d' :: rest))))) = _
          rw [skipWs_space]
          exact skipWs_dumps kv.2 _
        have hv : parseVal (f + 1) (skipWsJson ((skipWsJson (':' :: ' '
            :: (dumps kv.2 ++ (',' :: ' ' :: (dumpsObj (kv2 :: kvs2)
              ++ ('\x7d' :: rest)))))).drop 1))
            = some (kv.2, ',' :: ' ' :: (dumpsObj (kv2 :: kvs2)
                ++ ('\x7d' :: rest))) := by
          rw [hx]
          exact ihV kv.2 _ hk2 hszv (by rfl)
        rw [h1, parseMembers_full (f + 1) _ kv.1 _ kv.2 _ hsb hcolon hv,
          skipWs_nonws (by decide) _,
          if_pos (show ((',' :: ' ' :: (dumpsObj (kv2 :: kvs2)
            ++ ('\x7d' :: rest))).head? = some ',') from rfl)]
        have h3 : skipWsJson ((',' :: ' ' :: (dumpsObj (kv2 :: kvs2)
            ++ ('\x7d' :: rest))).drop 1)
            = dumpsObj (kv2 :: kvs2) ++ ('\x7d' :: rest) := by
          show skipWsJson (' ' :: (dumpsObj (kv2 :: kvs2)
              ++ ('\x7d' :: rest))) = _
          rw [skipWs_space]
          obtain ⟨t2, ht2⟩ := dumpsObj_cons_eq kv2 kvs2
          rw [ht2, List.cons_append]
          exact skipWs_nonws (by decide) _
        rw [h3, ihO kv2 kvs2 rest hso2 hsz2]

theorem json_loads_dumps (v : J) (hs : safeJ v = true) :
    json_loads (dumps v) = some v := by
  have h1 := (RT_all (dumps v).length).1 v [] hs
    (Nat.le_of_lt (szJ_lt_dumps v)) rfl
  rw [List.append_nil] at h1
  rw [json_loads, h1]
  rfl

theorem tryB64Json_encode (v : J) (hs : safeJ v = true) :
    tryB64Json (b64encode (utf8Encode (dumps v))) = some v := by
  have hbytes := dumps_utf8_bytes_lt v
  have hne : b64encode (utf8Encode (dumps v)) ≠ [] := by
    apply b64encode_ne_nil
    rw [utf8Encode_ascii (dumps v) (dumps_ascii v)]
    simpa using dumps_ne_nil v
  have hemp : (b64encode (utf8Encode (dumps v))).isEmpty = false := by
    cases hb : b64encode (utf8Encode (dumps v)) with
    | nil => exact absurd hb hne
    | cons c cs => rfl
  rw [tryB64Json, pyStrip_b64encode _ hbytes]
  show (if (b64encode (utf8Encode (dumps v))).isEmpty then none
      else match b64decode (b64encode (utf8Encode (dumps v))) with
        | none => none
        | some bytes => json_loads (utf8DecodeReplace bytes)) = some v
  rw [if_neg (by rw [hemp]; exact Bool.false_ne_true),
    b64decode_encode _ hbytes]
  show json_loads (utf8DecodeReplace (utf8Encode (dumps v))) = some v
  rw [utf8_roundtrip_ascii (dumps v) (dumps_ascii v), json_loads_dumps v hs]

theorem decode_text_encode (v : J) (hs : safeJ v = true) :
    decode_citavi_payload_text (b64encode (utf8Encode (dumps v))) = some v := by
  rw [decode_citavi_payload_text, tryB64Json_encode v hs]

theorem decode_payload_mkSdt (c : Char) (cs : Str) :
    decode_citavi_payload (mkCitaviSdt (c :: cs))
      = decode_citavi_payload_text (pyStrip (c :: cs)) := by
  have h : decode_citavi_payload (mkCitaviSdt (c :: cs))
      = decode_citavi_payload_text (pyStrip (c :: cs) ++ []) := rfl
  rw [h, List.append_nil]

/-! ### C4: payload decode round-trip and failure exhaustion -/

/-- C4: (a) round-trip — for every structured value `v` (strings made of
escape-free printable ASCII, keys distinct, integers exact), a
placeholder whose instruction text is the base64 encoding of the UTF-8
serialization of `v` decodes to exactly `v`; (b) exhaustion — on any
instruction text where the three strategies (whole text as base64+JSON,
text after the leading format tag as base64+JSON, first brace-delimited
substring as JSON) all fail, the decoder returns the null payload. Every
strategy of the embedded decoder is a total function, which is the shape
of the claim that no exception escapes. -/
theorem c4_payload_roundtrip_and_exhaustion :
    (∀ v : J, safeJ v = true →
      decode_citavi_payload
          (mkCitaviSdt (b64encode (utf8Encode (dumps v)))) = some v)
    ∧ (∀ raw : Str, tryB64Json raw = none →
      tryB64Json (if raw.contains ' ' then splitNone1Last raw else raw) = none →
      (∀ sub, braceExtract raw = some sub → json_loads sub = none) →
      decode_citavi_payload_text raw = none) := by
  constructor
  · intro v hs
    have hbytes := dumps_utf8_bytes_lt v
    have hne : b64encode (utf8Encode (dumps v)) ≠ [] := by
      apply b64encode_ne_nil
      rw [utf8Encode_ascii (dumps v) (dumps_ascii v)]
      simpa using dumps_ne_nil v
    cases ht : b64encode (utf8Encode (dumps v)) with
    | nil => exact absurd ht hne
    | cons c cs =>
      rw [decode_payload_mkSdt c cs, ← ht, pyStrip_b64encode _ hbytes]
      exact decode_text_encode v hs
  · intro raw h1 h2 h3
    cases hbe : braceExtract raw with
    | none => rw [decode_citavi_payload_text, h1, h2, hbe]
    | some sub =>
      rw [decode_citavi_payload_text, h1, h2, hbe]
      show json_loads sub = none
      exact h3 sub hbe

theorem c4_payload_roundtrip_and_exhaustion_witness :
    decode_citavi_payload
        (mkCitaviSdt (b64encode (utf8Encode (dumps c4SampleJ)))) = some c4SampleJ
    ∧ decode_citavi_payload_text "garbage!!".toList = none :=
  ⟨c4_payload_roundtrip_and_exhaustion.1 c4SampleJ (by decide),
   c4_payload_roundtrip_and_exhaustion.2 "garbage!!".toList (by rfl) (by rfl)
     (fun sub h => by
       rw [show braceExtract "garbage!!".toList = none from rfl] at h
       cases h)⟩

/-! ### C3 support: the cache is pure memoization -/

theorem lookup_mem_pairs :
    ∀ (l : MatchCache) (a : CitationInfo) (b : Option ZotItem),
      l.lookup a = some b → (a, b) ∈ l
  | [], _, _, h => by simp [List.lookup] at h
  | (k, v) :: l, a, b, h => by
    simp only [List.lookup] at h
    cases hk : a == k with
    | true =>
      rw [hk] at h
      have hv : v = b := Option.some.inj h
      subst hv
      have hka : a = k := by simpa using hk
      subst hka
      exact List.mem_cons_self _ _
    | false =>
      rw [hk] at h
      exact List.mem_cons_of_mem _ (lookup_mem_pairs l a b h)


theorem find_match_spec (items : List ZotItem) (cache : MatchCache)
    (info : CitationInfo) (h : CacheSound items cache) :
    (find_match items cache info).1 = find_match_pure items info
    ∧ CacheSound items (find_match items cache info).2 := by
  rw [find_match]
  cases hl : cache.lookup info with
  | some r =>
    refine ⟨h (info, r) (lookup_mem_pairs cache info r hl), ?_⟩
    exact h
  | none =>
    refine ⟨rfl, ?_⟩
    intro p hp
    rcases List.mem_cons.mp hp with rfl | hp2
    · rfl
    · exact h p hp2
theorem tryCandidates_spec (items : List ZotItem) (year : Str) :
    ∀ (cands : List Str) (cache : MatchCache), CacheSound items cache →
      (tryCandidates items year cache cands).1 = tryCandidatesPure items year cands
      ∧ CacheSound items (tryCandidates items year cache cands).2
  | [], cache, h => ⟨rfl, h⟩
  | cand :: rest, cache, h => by
    obtain ⟨h1, h2⟩ :=
      find_match_spec items cache (mkAuthorYearInfo cand year) h
    have hstep : tryCandidates items year cache (cand :: rest)
        = (match (find_match items cache (mkAuthorYearInfo cand year)).1 with
           | some it =>
             (some it, (find_match items cache (mkAuthorYearInfo cand year)).2)
           | none => tryCandidates items year
               (find_match items cache (mkAuthorYearInfo cand year)).2 rest) := rfl
    have hstepP : tryCandidatesPure items year (cand :: rest)
        = (match find_match_pure items (mkAuthorYearInfo cand year) with
           | some it => some it
           | none => tryCandidatesPure items year rest) := rfl
    rw [hstep, hstepP, ← h1]
    cases hr : (find_match items cache (mkAuthorYearInfo cand year)).1 with
    | some it => exact ⟨rfl, h2⟩
    | none => exact tryCandidates_spec items year rest _ h2

theorem processDisplayPart_spec (items : List ZotItem) (part0 : Str)
    (cache : MatchCache) (h : CacheSound items cache) :
    (processDisplayPart items cache part0).1 = processDisplayPartPure items part0
    ∧ CacheSound items (processDisplayPart items cache part0).2 := by
  rw [processDisplayPart, processDisplayPartPure]
  cases hy : displayPartYear part0 with
  | none => exact ⟨rfl, h⟩
  | some year =>
  cases hap : displayPartAuthorPortion part0 with
  | none => exact ⟨rfl, h⟩
  | some author_portion =>
  cases hpr : displayPartPrimaryAuthor part0 with
  | none => exact ⟨rfl, h⟩
  | some primary =>
  dsimp only []
  obtain ⟨t1, t2⟩ := tryCandidates_spec items year
    (primary :: (if 1 < (pySplitWs primary).length
      then [(pySplitWs primary).getLastD []] else [])) cache h
  rw [t1]
  cases hp : tryCandidatesPure items year
      (primary :: (if 1 < (pySplitWs primary).length
        then [(pySplitWs primary).getLastD []] else [])) with
  | some it => exact ⟨rfl, t2⟩
  | none =>
    dsimp only []
    by_cases hw : 2 < (pySplitWs primary).length
    · simp only [if_pos hw]
      by_cases hfa : pyStrip (stripInitial author_portion) ≠ primary
      · simp only [if_pos hfa]
        obtain ⟨f1, f2⟩ := find_match_spec items
          (tryCandidates items year cache
            (primary :: (if 1 < (pySplitWs primary).length
              then [(pySplitWs primary).getLastD []] else []))).2
          (mkAuthorYearInfo (pyStrip (stripInitial author_portion)) year) t2
        rw [← f1]
        cases hr2 : (find_match items
            (tryCandidates items year cache
              (primary :: (if 1 < (pySplitWs primary).length
                then [(pySplitWs primary).getLastD []] else []))).2
            (mkAuthorYearInfo (pyStrip (stripInitial author_portion)) year)).1 with
        | some it => exact ⟨rfl, f2⟩
        | none =>
          dsimp only []
          obtain ⟨g1, g2⟩ := find_match_spec items _
            { title := some author_portion, authors := some [],
              year := some year, doi := none, isbn := none } f2
          exact ⟨g1, g2⟩
      · simp only [if_neg hfa]
        obtain ⟨g1, g2⟩ := find_match_spec items
          (tryCandidates items year cache
            (primary :: (if 1 < (pySplitWs primary).length
              then [(pySplitWs primary).getLastD []] else []))).2
          { title := some author_portion, authors := some [],
            year := some year, doi := none, isbn := none } t2
        exact ⟨g1, g2⟩
    · simp only [if_neg hw]
      exact ⟨by trivial, t2⟩

theorem matchLoop_spec (items : List ZotItem) :
    ∀ (cis : List CitationInfo) (cache : MatchCache), CacheSound items cache →
      (matchLoop items cache cis).1 = (matchLoopPure items cis).1
      ∧ (matchLoop items cache cis).2.2 = (matchLoopPure items cis).2
      ∧ CacheSound items (matchLoop items cache cis).2.1
  | [], cache, h => ⟨rfl, rfl, h⟩
  | ci :: cis, cache, h => by
    obtain ⟨h1, h2⟩ := find_match_spec items cache ci h
    obtain ⟨ih1, ih2, ih3⟩ :=
      matchLoop_spec items cis (find_match items cache ci).2 h2
    have hstep : matchLoop items cache (ci :: cis)
        = (let r := find_match items cache ci
           let rest := matchLoop items r.2 cis
           match r.1 with
           | some it => (it :: rest.1, rest.2.1, rest.2.2)
           | none => (rest.1, rest.2.1, unmatchedStr ci :: rest.2.2)) := rfl
    have hstepP : matchLoopPure items (ci :: cis)
        = (let rest := matchLoopPure items cis
           match find_match_pure items ci with
           | some it => (it :: rest.1, rest.2)
           | none => (rest.1, unmatchedStr ci :: rest.2)) := rfl
    rw [hstep, hstepP]
    simp only [← h1]
    cases hr : (find_match items cache ci).1 with
    | some it => exact ⟨by rw [ih1], by rw [ih2], ih3⟩
    | none => exact ⟨by rw [ih1], by rw [ih2], ih3⟩

theorem displayPartsLoop_spec (items : List ZotItem) :
    ∀ (ps : List Str) (cache : MatchCache), CacheSound items cache →
      (displayPartsLoop items cache ps).1 = displayPartsLoopPure items ps
      ∧ CacheSound items (displayPartsLoop items cache ps).2
  | [], cache, h => ⟨rfl, h⟩
  | p :: ps, cache, h => by
    obtain ⟨d1, d2⟩ := processDisplayPart_spec items p cache h
    obtain ⟨ih1, ih2⟩ :=
      displayPartsLoop_spec items ps (processDisplayPart items cache p).2 d2
    have hstep : displayPartsLoop items cache (p :: ps)
        = (match (processDisplayPart items cache p).1 with
           | some it =>
             (it :: (displayPartsLoop items
                 (processDisplayPart items cache p).2 ps).1,
               (displayPartsLoop items (processDisplayPart items cache p).2 ps).2)
           | none =>
             ((displayPartsLoop items (processDisplayPart items cache p).2 ps).1,
               (displayPartsLoop items
                 (processDisplayPart items cache p).2 ps).2)) := rfl
    have hstepP : displayPartsLoopPure items (p :: ps)
        = (match processDisplayPartPure items p with
           | some it => it :: displayPartsLoopPure items ps
           | none => displayPartsLoopPure items ps) := rfl
    rw [hstep, hstepP, ← d1]
    cases hr : (processDisplayPart items cache p).1 with
    | some it => exact ⟨by rw [ih1], ih2⟩
    | none => exact ⟨by rw [ih1], ih2⟩

theorem find_match_by_display_text_spec (items : List ZotItem)
    (display : Str) (cache : MatchCache) (h : CacheSound items cache) :
    (find_match_by_display_text items cache display).1
      = find_match_by_display_text_pure items display
    ∧ CacheSound items (find_match_by_display_text items cache display).2 := by
  rw [find_match_by_display_text, find_match_by_display_text_pure]
  by_cases he : display.isEmpty
  · rw [if_pos he, if_pos he]
    exact ⟨rfl, h⟩
  · rw [if_neg he, if_neg he]
    exact displayPartsLoop_spec items _ cache h

theorem sdtZoteroItems_spec (items : List ZotItem) (cache : MatchCache)
    (sdt : XNode) (h : CacheSound items cache) :
    (sdtZoteroItems items cache sdt).1 = (sdtResolvePure items sdt).1
    ∧ (sdtZoteroItems items cache sdt).2.2 = (sdtResolvePure items sdt).2
    ∧ CacheSound items (sdtZoteroItems items cache sdt).2.1 := by
  rw [sdtZoteroItems, sdtResolvePure]
  dsimp only []
  obtain ⟨m1, m2, m3⟩ := matchLoop_spec items
    (match decode_citavi_payload sdt with
     | some p => if pyTruthy p then extract_citation_info_from_citavi p else []
     | none => []) cache h
  rw [m1, m2]
  by_cases hc : (matchLoopPure items
      (match decode_citavi_payload sdt with
       | some p => if pyTruthy p then extract_citation_info_from_citavi p else []
       | none => [])).1.isEmpty
      && !(extract_citavi_display_text sdt).isEmpty
  · rw [if_pos hc, if_pos hc]
    obtain ⟨f1, f2⟩ := find_match_by_display_text_spec items
      (extract_citavi_display_text sdt) _ m3
    exact ⟨f1, rfl, f2⟩
  · rw [if_neg hc, if_neg hc]
    exact ⟨m1, m2, m3⟩

/-! ### C3 support: placeholder bookkeeping over forests -/

theorem fp_cons_split (c : XNode) (cs : List XNode) :
    forestPlaceholders (c :: cs)
      = (if isCitaviSdt c then [c] else []) ++ forestPlaceholders c.children
        ++ forestPlaceholders cs := by
  cases c with
  | elem t a tx cs2 =>
    rw [forestPlaceholders,
      show XNode.iterAllList (XNode.elem t a tx cs2 :: cs)
        = (XNode.elem t a tx cs2 :: XNode.iterAllList cs2)
            ++ XNode.iterAllList cs from rfl,
      List.filter_append, List.filter_cons]
    by_cases hc : isCitaviSdt (XNode.elem t a tx cs2)
    · rw [if_pos hc, if_pos hc]
      rfl
    · rw [if_neg (by simp [hc]), if_neg hc]
      rfl

theorem fp_append (xs ys : List XNode) :
    forestPlaceholders (xs ++ ys)
      = forestPlaceholders xs ++ forestPlaceholders ys := by
  rw [forestPlaceholders, forestPlaceholders, forestPlaceholders,
    iterAllList_append, List.filter_append]

theorem fp_nested_nil {c : XNode} {cs : List XNode} (hc : isCitaviSdt c = true)
    (hnn : ∀ s ∈ forestPlaceholders (c :: cs),
      (forestPlaceholders s.children).isEmpty = true) :
    forestPlaceholders (c :: cs) = c :: forestPlaceholders cs := by
  have hmem : c ∈ forestPlaceholders (c :: cs) := by
    rw [fp_cons_split, if_pos hc]
    simp
  have hempty := hnn c hmem
  rw [List.isEmpty_iff] at hempty
  rw [fp_cons_split, if_pos hc, hempty]
  rfl

theorem nn_tail {c : XNode} {cs : List XNode}
    (hnn : ∀ s ∈ forestPlaceholders (c :: cs),
      (forestPlaceholders s.children).isEmpty = true) :
    ∀ s ∈ forestPlaceholders cs,
      (forestPlaceholders s.children).isEmpty = true := by
  intro s hs
  refine hnn s ?_
  rw [fp_cons_split]
  simp [hs]

theorem nn_head {c : XNode} {cs : List XNode} (hc : isCitaviSdt c = false)
    (hnn : ∀ s ∈ forestPlaceholders (c :: cs),
      (forestPlaceholders s.children).isEmpty = true) :
    ∀ s ∈ forestPlaceholders c.children,
      (forestPlaceholders s.children).isEmpty = true := by
  intro s hs
  refine hnn s ?_
  rw [fp_cons_split, hc]
  simp [hs]


mutual

theorem processTree_run (items : List ZotItem) (toJson : List ZotItem → Str) :
    ∀ (n : XNode) (cache : MatchCache) (st : Stats), CacheSound items cache →
      (∀ s ∈ forestPlaceholders n.children,
        (forestPlaceholders s.children).isEmpty = true) →
      (processTree items toJson n cache st).1 = processTreePure items toJson n
      ∧ CacheSound items (processTree items toJson n cache st).2.1
      ∧ (processTree items toJson n cache st).2.2.converted
          = st.converted + ((forestPlaceholders n.children).filter
              (fun s => !(sdtResolvePure items s).1.isEmpty)).length
      ∧ (processTree items toJson n cache st).2.2.skipped
          = st.skipped + ((forestPlaceholders n.children).filter
              (fun s => (sdtResolvePure items s).1.isEmpty)).length
  | .elem t a tx cs, cache, st, hsound, hnn => by
    obtain ⟨h1, h2, h3, h4⟩ :=
      processList_run items toJson cs t cache st hsound hnn
    have hstep : processTree items toJson (.elem t a tx cs) cache st
        = (.elem t a tx (processList items toJson t cs cache st).1,
           (processList items toJson t cs cache st).2) := rfl
    have hstepP : processTreePure items toJson (.elem t a tx cs)
        = .elem t a tx (processListPure items toJson t cs) := rfl
    rw [hstep, hstepP]
    exact ⟨by rw [h1], h2, h3, h4⟩

theorem processList_run (items : List ZotItem) (toJson : List ZotItem → Str) :
    ∀ (cs : List XNode) (parentTag : Str) (cache : MatchCache) (st : Stats),
      CacheSound items cache →
      (∀ s ∈ forestPlaceholders cs,
        (forestPlaceholders s.children).isEmpty = true) →
      (processList items toJson parentTag cs cache st).1
          = processListPure items toJson parentTag cs
      ∧ CacheSound items (processList items toJson parentTag cs cache st).2.1
      ∧ (processList items toJson parentTag cs cache st).2.2.converted
          = st.converted + ((forestPlaceholders cs).filter
              (fun s => !(sdtResolvePure items s).1.isEmpty)).length
      ∧ (processList items toJson parentTag cs cache st).2.2.skipped
          = st.skipped + ((forestPlaceholders cs).filter
              (fun s => (sdtResolvePure items s).1.isEmpty)).length
  | [], parentTag, cache, st, hsound, _ => by
    have hfp : forestPlaceholders ([] : List XNode) = [] := rfl
    refine ⟨rfl, hsound, ?_, ?_⟩ <;> rw [hfp] <;> rfl
  | c :: cs, parentTag, cache, st, hsound, hnn => by
    obtain ⟨z1, z2, z3⟩ := sdtZoteroItems_spec items cache c hsound
    by_cases hc : isCitaviSdt c
    · have hfp := fp_nested_nil hc hnn
      have hstep : processList items toJson parentTag (c :: cs) cache st
          = (if (sdtZoteroItems items cache c).1.isEmpty then
              (c :: (processList items toJson parentTag cs
                  (sdtZoteroItems items cache c).2.1
                  { converted := st.converted, skipped := st.skipped + 1,
                    unmatched := st.unmatched
                      ++ (sdtZoteroItems items cache c).2.2 }).1,
                (processList items toJson parentTag cs
                  (sdtZoteroItems items cache c).2.1
                  { converted := st.converted, skipped := st.skipped + 1,
                    unmatched := st.unmatched
                      ++ (sdtZoteroItems items cache c).2.2 }).2)
            else
              ((if parentTag == "p".toList then
                  create_zotero_field_xml (toJson (sdtZoteroItems items cache c).1)
                    (if (extract_citavi_display_text c).isEmpty
                      then "(Citation)".toList else extract_citavi_display_text c)
                    ++ (processList items toJson parentTag cs
                      (sdtZoteroItems items cache c).2.1
                      { converted := st.converted + 1, skipped := st.skipped,
                        unmatched := st.unmatched
                          ++ (sdtZoteroItems items cache c).2.2 }).1
                else XNode.elem "p".toList [] none
                    (create_zotero_field_xml
                      (toJson (sdtZoteroItems items cache c).1)
                      (if (extract_citavi_display_text c).isEmpty
                        then "(Citation)".toList else extract_citavi_display_text c))
                  :: (processList items toJson parentTag cs
                    (sdtZoteroItems items cache c).2.1
                    { converted := st.converted + 1, skipped := st.skipped,
                      unmatched := st.unmatched
                        ++ (sdtZoteroItems items cache c).2.2 }).1),
                (processList items toJson parentTag cs
                  (sdtZoteroItems items cache c).2.1
                  { converted := st.converted + 1, skipped := st.skipped,
                    unmatched := st.unmatched
                      ++ (sdtZoteroItems items cache c).2.2 }).2)) := by
        rw [processList, if_pos hc]
      have hstepP : processListPure items toJson parentTag (c :: cs)
          = (if (sdtResolvePure items c).1.isEmpty then
              c :: processListPure items toJson parentTag cs
            else
              (if parentTag == "p".toList then
                create_zotero_field_xml (toJson (sdtResolvePure items c).1)
                  (if (extract_citavi_display_text c).isEmpty
                    then "(Citation)".toList else extract_citavi_display_text c)
                  ++ processListPure items toJson parentTag cs
              else XNode.elem "p".toList [] none
                  (create_zotero_field_xml (toJson (sdtResolvePure items c).1)
                    (if (extract_citavi_display_text c).isEmpty
                      then "(Citation)".toList else extract_citavi_display_text c))
                :: processListPure items toJson parentTag cs)) := by
        rw [processListPure, if_pos hc]
      by_cases hres : (sdtResolvePure items c).1.isEmpty
      · have hfres : (forestPlaceholders (c :: cs)).filter
            (fun s => !(sdtResolvePure items s).1.isEmpty)
            = (forestPlaceholders cs).filter
                (fun s => !(sdtResolvePure items s).1.isEmpty) := by
          rw [hfp, List.filter_cons, if_neg (by simp [hres])]
        have hfunres : (forestPlaceholders (c :: cs)).filter
            (fun s => (sdtResolvePure items s).1.isEmpty)
            = c :: (forestPlaceholders cs).filter
                (fun s => (sdtResolvePure items s).1.isEmpty) := by
          rw [hfp, List.filter_cons, if_pos (by simp [hres])]
        obtain ⟨i1, i2, i3, i4⟩ := processList_run items toJson cs parentTag
          (sdtZoteroItems items cache c).2.1
          { converted := st.converted, skipped := st.skipped + 1,
            unmatched := st.unmatched ++ (sdtZoteroItems items cache c).2.2 }
          z3 (nn_tail hnn)
        have hcv : (Stats.mk st.converted (st.skipped + 1)
            (st.unmatched ++ (sdtZoteroItems items cache c).2.2)).converted
            = st.converted := rfl
        have hsk : (Stats.mk st.converted (st.skipped + 1)
            (st.unmatched ++ (sdtZoteroItems items cache c).2.2)).skipped
            = st.skipped + 1 := rfl
        rw [hstep, hstepP, z1, if_pos hres, if_pos hres]
        refine ⟨by rw [i1], i2, ?_, ?_⟩
        · rw [i3, hcv, hfres]
        · rw [i4, hsk, hfunres, List.length_cons]
          omega
      · have hfres : (forestPlaceholders (c :: cs)).filter
            (fun s => !(sdtResolvePure items s).1.isEmpty)
            = c :: (forestPlaceholders cs).filter
                (fun s => !(sdtResolvePure items s).1.isEmpty) := by
          rw [hfp, List.filter_cons, if_pos (by simp [hres])]
        have hfunres : (forestPlaceholders (c :: cs)).filter
            (fun s => (sdtResolvePure items s).1.isEmpty)
            = (forestPlaceholders cs).filter
                (fun s => (sdtResolvePure items s).1.isEmpty) := by
          rw [hfp, List.filter_cons, if_neg (by simp [hres])]
        obtain ⟨i1, i2, i3, i4⟩ := processList_run items toJson cs parentTag
          (sdtZoteroItems items cache c).2.1
          { converted := st.converted + 1, skipped := st.skipped,
            unmatched := st.unmatched ++ (sdtZoteroItems items cache c).2.2 }
          z3 (nn_tail hnn)
        have hcv : (Stats.mk (st.converted + 1) st.skipped
            (st.unmatched ++ (sdtZoteroItems items cache c).2.2)).converted
            = st.converted + 1 := rfl
        have hsk : (Stats.mk (st.converted + 1) st.skipped
            (st.unmatched ++ (sdtZoteroItems items cache c).2.2)).skipped
            = st.skipped := rfl
        rw [hstep, hstepP, z1, if_neg hres, if_neg hres]
        refine ⟨by rw [i1], i2, ?_, ?_⟩
        · rw [i3, hcv, hfres, List.length_cons]
          omega
        · rw [i4, hsk, hfunres]
    · have hc2 : isCitaviSdt c = false := by simpa using hc
      have hstep : processList items toJson parentTag (c :: cs) cache st
          = ((processTree items toJson c cache st).1
              :: (processList items toJson parentTag cs
                (processTree items toJson c cache st).2.1
                (processTree items toJson c cache st).2.2).1,
             (processList items toJson parentTag cs
                (processTree items toJson c cache st).2.1
                (processTree items toJson c cache st).2.2).2) := by
        rw [processList, if_neg hc]
      have hstepP : processListPure items toJson parentTag (c :: cs)
          = processTreePure items toJson c
              :: processListPure items toJson parentTag cs := by
        rw [processListPure, if_neg hc]
      obtain ⟨t1, t2, t3, t4⟩ := processTree_run items toJson c cache st hsound
        (nn_head hc2 hnn)
      obtain ⟨i1, i2, i3, i4⟩ := processList_run items toJson cs parentTag
        (processTree items toJson c cache st).2.1
        (processTree items toJson c cache st).2.2 t2 (nn_tail hnn)
      have hsplit : forestPlaceholders (c :: cs)
          = forestPlaceholders c.children ++ forestPlaceholders cs := by
        rw [fp_cons_split, hc2]
        rfl
      rw [hstep, hstepP, hsplit]
      refine ⟨by rw [t1, i1], i2, ?_, ?_⟩
      · rw [i3, t3, List.filter_append, List.length_append]
        omega
      · rw [i4, t4, List.filter_append, List.length_append]
        omega

end

theorem fp_mem_cons_tail {s : XNode} (c : XNode) {cs : List XNode}
    (hs : s ∈ forestPlaceholders cs) : s ∈ forestPlaceholders (c :: cs) := by
  rw [fp_cons_split]
  simp [hs]

theorem fp_mem_cons_head {s c : XNode} {cs : List XNode}
    (hc : isCitaviSdt c = false) (hs : s ∈ forestPlaceholders c.children) :
    s ∈ forestPlaceholders (c :: cs) := by
  rw [fp_cons_split, hc]
  simp [hs]

theorem fp_mem_self {c : XNode} (hc : isCitaviSdt c = true) (cs : List XNode) :
    c ∈ forestPlaceholders (c :: cs) := by
  rw [fp_cons_split, hc]
  simp

theorem fp_cons_eq (x : XNode) (cs : List XNode) :
    forestPlaceholders (x :: cs) = forestPlaceholders [x] ++ forestPlaceholders cs := by
  rw [fp_cons_split, fp_cons_split x [],
    show forestPlaceholders ([] : List XNode) = [] from rfl, List.append_nil]

/-- Python `in` is substring occurrence. -/
theorem pyIn_occurrence (pat : Str) : ∀ s : Str,
    pyIn pat s = true ↔ ∃ u v, s = u ++ pat ++ v
  | [] => by
    rw [show pyIn pat [] = pat.isEmpty from rfl]
    constructor
    · intro h
      refine ⟨[], [], ?_⟩
      rw [List.isEmpty_iff.mp h]
      rfl
    · rintro ⟨u, v, huv⟩
      have hlen := congrArg List.length huv
      simp [List.length_append] at hlen
      rw [List.length_eq_zero.mp (show pat.length = 0 by omega)]
      rfl
  | c :: rest => by
    rw [show pyIn pat (c :: rest) = (pat.isPrefixOf (c :: rest) || pyIn pat rest) from rfl,
      Bool.or_eq_true, List.isPrefixOf_iff_prefix, pyIn_occurrence pat rest]
    constructor
    · rintro (hpre | ⟨u, v, huv⟩)
      · obtain ⟨tl, htl⟩ := hpre
        exact ⟨[], tl, by rw [← htl]; rfl⟩
      · exact ⟨c :: u, v, by rw [huv]; rfl⟩
    · rintro ⟨u, v, huv⟩
      cases u with
      | nil =>
        left
        exact ⟨v, by rw [huv]; rfl⟩
      | cons a u' =>
        right
        have h2 : a :: (u' ++ pat ++ v) = c :: rest := huv.symm
        injection h2 with ha hrest
        exact ⟨u', v, hrest.symm⟩

/-- Every chunk produced by the chunker occurs in the chunked string. -/
theorem chunkListAux_mem_occurs (n : Nat) :
    ∀ fuel (s t : Str), t ∈ chunkListAux n fuel s → ∃ u v, s = u ++ t ++ v := by
  intro fuel
  induction fuel with
  | zero =>
    intro s t ht
    simp [chunkListAux] at ht
  | succ fuel ih =>
    intro s t ht
    rw [chunkListAux_succ] at ht
    by_cases he : s.isEmpty
    · rw [if_pos he] at ht
      simp at ht
    · rw [if_neg he] at ht
      rcases List.mem_cons.mp ht with rfl | hmem
      · exact ⟨[], s.drop n, by simp⟩
      · obtain ⟨u, v, huv⟩ := ih (s.drop n) t hmem
        refine ⟨s.take n ++ u, v, ?_⟩
        conv_lhs => rw [← List.take_append_drop n s, huv]
        simp [List.append_assoc]

/-- The `ZOTERO_ITEM` marker sits inside the first chunk of the
instruction text (the fixed `ADDIN` prefix is 32 characters, well under
the 250-character chunk size). -/
theorem marker_take_field (js : Str) :
    pyIn "ZOTERO_ITEM".toList ((zoteroItemInstr js).take 250) = true := by
  rw [pyIn_occurrence]
  refine ⟨" ADDIN ".toList, " CSL_CITATION ".toList ++ (js ++ " ".toList).take 218, ?_⟩
  rw [show zoteroItemInstr js
      = " ADDIN ZOTERO_ITEM CSL_CITATION ".toList ++ (js ++ " ".toList) from rfl,
    List.take_append_eq_append_take,
    show (" ADDIN ZOTERO_ITEM CSL_CITATION ".toList : Str).take 250
      = " ADDIN ZOTERO_ITEM CSL_CITATION ".toList from rfl,
    show (" ADDIN ZOTERO_ITEM CSL_CITATION ".toList : Str).length = 32 from rfl,
    show (250 - 32 : Nat) = 218 from rfl,
    show (" ADDIN ZOTERO_ITEM CSL_CITATION ".toList : Str)
      = " ADDIN ".toList ++ "ZOTERO_ITEM".toList ++ " CSL_CITATION ".toList from rfl]
  simp [List.append_assoc]

/-- Later chunks of the instruction text never contain the marker when
the serialized JSON itself is marker-free. -/
theorem marker_drop_chunks (js : Str)
    (hjs : pyIn "ZOTERO_ITEM".toList js = false) :
    ∀ fuel (t : Str), t ∈ chunkListAux 250 fuel ((zoteroItemInstr js).drop 250) →
      pyIn "ZOTERO_ITEM".toList t = false := by
  intro fuel t ht
  obtain ⟨u, v, huv⟩ := chunkListAux_mem_occurs 250 fuel _ t ht
  cases hpt : pyIn "ZOTERO_ITEM".toList t with
  | false => rfl
  | true =>
    exfalso
    obtain ⟨a, b, hab⟩ := (pyIn_occurrence _ t).mp hpt
    have hdrop : (zoteroItemInstr js).drop 250 = (js ++ [' ']).drop 218 := by
      rw [show zoteroItemInstr js
          = " ADDIN ZOTERO_ITEM CSL_CITATION ".toList ++ (js ++ [' ']) from rfl,
        List.drop_append_eq_append_drop,
        show (" ADDIN ZOTERO_ITEM CSL_CITATION ".toList : Str).drop 250 = [] from rfl,
        show (" ADDIN ZOTERO_ITEM CSL_CITATION ".toList : Str).length = 32 from rfl,
        show (250 - 32 : Nat) = 218 from rfl, List.nil_append]
    have hw : js ++ [' ']
        = (js ++ [' ']).take 218
          ++ ((u ++ a) ++ "ZOTERO_ITEM".toList ++ (b ++ v)) := by
      conv_lhs => rw [← List.take_append_drop 218 (js ++ [' ']), ← hdrop, huv, hab]
      simp [List.append_assoc]
    rcases List.eq_nil_or_concat (b ++ v) with hbv | ⟨bv, d, hbv⟩
    · rw [hbv, List.append_nil] at hw
      have h2 : js ++ [' ']
          = ((js ++ [' ']).take 218 ++ ((u ++ a) ++ "ZOTERO_ITE".toList)) ++ ['M'] := by
        conv_lhs => rw [hw,
          show ("ZOTERO_ITEM".toList : Str) = "ZOTERO_ITE".toList ++ ['M'] from rfl]
        simp only [List.append_assoc]
      have hlast1 : (js ++ [' ']).getLast? = some ' ' := List.getLast?_concat _
      have hlast2 : (js ++ [' ']).getLast? = some 'M' := by
        rw [h2]
        exact List.getLast?_concat _
      exact absurd (hlast1.symm.trans hlast2) (by decide)
    · rw [hbv] at hw
      have hw2 : js ++ [' ']
          = ((js ++ [' ']).take 218
              ++ ((u ++ a) ++ "ZOTERO_ITEM".toList ++ bv)) ++ [d] := by
        conv_lhs => rw [hw, show bv.concat d = bv ++ [d] from List.concat_eq_append bv d]
        simp only [List.append_assoc]
      obtain ⟨hjs_eq, hd⟩ := List.append_inj' hw2 (by rfl)
      have hocc : pyIn "ZOTERO_ITEM".toList js = true := by
        rw [pyIn_occurrence]
        refine ⟨(js ++ [' ']).take 218 ++ (u ++ a), bv, ?_⟩
        conv_lhs => rw [hjs_eq]
        simp only [List.append_assoc]
      rw [hocc] at hjs
      cases hjs

/-- The `instrText` runs of a synthesized citation field are exactly the
instruction chunks. -/
theorem instrTexts_field (js disp : Str) :
    instrTextsOfList (create_zotero_field_xml js disp)
      = chunkList 250 (zoteroItemInstr js) := by
  rw [create_zotero_field_xml, instrTextsOfList_append, instrTextsOfList_cons,
    instrTextsOfList_instrRuns]
  have h1 : instrTextsOfList [mkFldCharRun "separate".toList,
      mkDisplayRun disp, mkFldCharRun "end".toList] = [] := rfl
  have h2 : ((mkFldCharRun "begin".toList).iterAll.filterMap (fun e =>
      if e.tag == "instrText".toList then e.txt else none)) = [] := rfl
  rw [h1, h2, List.nil_append, List.append_nil]

theorem instrTextsOfList_elem (t : Str) (a : List (Str × Str)) (tx : Option Str)
    (cs : List XNode) :
    instrTextsOfList [XNode.elem t a tx cs]
      = (if t == "instrText".toList then tx else none).toList
        ++ instrTextsOfList cs := by
  rw [instrTextsOfList_cons, show instrTextsOfList ([] : List XNode) = [] from rfl,
    List.append_nil,
    show (XNode.elem t a tx cs).iterAll
      = XNode.elem t a tx cs :: XNode.iterAllList cs from rfl,
    List.filterMap_cons]
  have hfx : (if (XNode.elem t a tx cs).tag == "instrText".toList
      then (XNode.elem t a tx cs).txt else none)
      = (if t == "instrText".toList then tx else none) := rfl
  rw [hfx]
  by_cases h : (t == "instrText".toList) = true
  · simp only [if_pos h]
    cases tx with
    | none => rfl
    | some s => rfl
  · simp only [if_neg h]
    rfl

theorem markerFieldCount_cons (x : XNode) (l : List XNode) :
    markerFieldCount (x :: l) = markerFieldCount [x] + markerFieldCount l := by
  unfold markerFieldCount
  rw [show (x :: l) = [x] ++ l from rfl, instrTextsOfList_append, List.filter_append,
    List.length_append]

theorem markerFieldCount_append (a b : List XNode) :
    markerFieldCount (a ++ b) = markerFieldCount a + markerFieldCount b := by
  unfold markerFieldCount
  rw [instrTextsOfList_append, List.filter_append, List.length_append]

theorem markerFieldCount_elem (t : Str) (a : List (Str × Str)) (tx : Option Str)
    (cs : List XNode) :
    markerFieldCount [XNode.elem t a tx cs]
      = (((if t == "instrText".toList then tx else none).toList).filter
          (fun s => pyIn "ZOTERO_ITEM".toList s)).length + markerFieldCount cs := by
  unfold markerFieldCount
  rw [instrTextsOfList_elem, List.filter_append, List.length_append]

/-- A synthesized citation field contributes exactly one marker-bearing
`instrText` run when the serialized JSON is marker-free. -/
theorem markerFieldCount_field (js disp : Str)
    (hjs : pyIn "ZOTERO_ITEM".toList js = false) :
    markerFieldCount (create_zotero_field_xml js disp) = 1 := by
  unfold markerFieldCount
  rw [instrTexts_field, chunkList, chunkListAux_succ,
    if_neg (show ¬(zoteroItemInstr js).isEmpty = true from by
      rw [show (zoteroItemInstr js).isEmpty = false from rfl]
      decide)]
  rw [List.filter_cons]
  simp only [marker_take_field js]
  rw [if_pos trivial]
  have htail : List.filter (fun s => pyIn "ZOTERO_ITEM".toList s)
      (chunkListAux 250 (zoteroItemInstr js).length ((zoteroItemInstr js).drop 250))
      = [] := by
    rw [List.filter_eq_nil_iff]
    intro t ht
    rw [marker_drop_chunks js hjs _ t ht]
    decide
  rw [htail]
  rfl

theorem isCitaviSdt_tag_false {t : Str} (a : List (Str × Str)) (tx : Option Str)
    (cs : List XNode) (h : (t == "sdt".toList) = false) :
    isCitaviSdt (XNode.elem t a tx cs) = false := by
  unfold isCitaviSdt
  rw [show (XNode.elem t a tx cs).tag = t from rfl, h, Bool.false_and]

theorem isCitaviBiblSdt_tag_false {t : Str} (a : List (Str × Str)) (tx : Option Str)
    (cs : List XNode) (h : (t == "sdt".toList) = false) :
    isCitaviBiblSdt (XNode.elem t a tx cs) = false := by
  unfold isCitaviBiblSdt
  rw [show (XNode.elem t a tx cs).tag = t from rfl, h, Bool.false_and]

theorem fp_elem_tag_false {t : Str} (a : List (Str × Str)) (tx : Option Str)
    (cs : List XNode) (h : (t == "sdt".toList) = false) :
    forestPlaceholders [XNode.elem t a tx cs] = forestPlaceholders cs := by
  rw [fp_cons_split, isCitaviSdt_tag_false a tx cs h, if_neg (by decide),
    show (XNode.elem t a tx cs).children = cs from rfl,
    show forestPlaceholders ([] : List XNode) = [] from rfl, List.append_nil,
    List.nil_append]

/-- A synthesized citation field contains no Citavi placeholder. -/
theorem fp_field (js disp : Str) :
    forestPlaceholders (create_zotero_field_xml js disp) = [] := by
  rw [create_zotero_field_xml]
  have h1 : forestPlaceholders [mkFldCharRun "begin".toList] = [] := rfl
  have h2 : ∀ chunks : List Str, forestPlaceholders (chunks.map mkInstrRun) = [] := by
    intro chunks
    induction chunks with
    | nil => rfl
    | cons c cs ih =>
      rw [List.map_cons, fp_cons_eq, ih, List.append_nil,
        show mkInstrRun c = XNode.elem "r".toList [] none
          [XNode.elem "instrText".toList [("xml:space".toList, "preserve".toList)]
            (some c) []] from rfl,
        fp_elem_tag_false _ _ _ (by decide), fp_cons_eq,
        fp_elem_tag_false _ _ _ (by decide)]
      rfl
  have h3 : forestPlaceholders [mkDisplayRun disp] = [] := by
    rw [show mkDisplayRun disp = XNode.elem "r".toList [] none
        [XNode.elem "rPr".toList [] none [XNode.elem "noProof".toList [] none []],
         XNode.elem "t".toList [("xml:space".toList, "preserve".toList)]
           (some disp) []] from rfl,
      fp_elem_tag_false _ _ _ (by decide), fp_cons_eq,
      show forestPlaceholders [XNode.elem "rPr".toList [] none
        [XNode.elem "noProof".toList [] none []]] = [] from rfl,
      List.nil_append, fp_elem_tag_false _ _ _ (by decide)]
    rfl
  rw [fp_append, fp_cons_eq, h1, List.nil_append, h2, List.nil_append, fp_cons_eq,
    show forestPlaceholders [mkFldCharRun "separate".toList] = [] from rfl,
    List.nil_append, fp_cons_eq, h3, List.nil_append]
  rfl

/-- Every top-level run of a synthesized citation field is a `w:r`. -/
theorem field_tags (js disp : Str) :
    ∀ m ∈ create_zotero_field_xml js disp, m.tag = "r".toList := by
  intro m hm
  rw [create_zotero_field_xml] at hm
  rcases List.mem_cons.mp hm with rfl | hm2
  · rfl
  rcases List.mem_append.mp hm2 with hmap | htail
  · obtain ⟨c, _, rfl⟩ := List.mem_map.mp hmap
    rfl
  · simp only [List.mem_cons, List.not_mem_nil, or_false] at htail
    rcases htail with rfl | rfl | rfl <;> rfl

theorem find?_append_none {p : XNode → Bool} {l1 : List XNode}
    (h : l1.find? p = none) (l2 : List XNode) :
    (l1 ++ l2).find? p = l2.find? p := by
  induction l1 with
  | nil => rfl
  | cons c cs ih =>
    cases hp : p c with
    | true =>
      rw [List.find?_cons_of_pos _ hp] at h
      cases h
    | false =>
      rw [List.find?_cons_of_neg _ (by simp [hp])] at h
      rw [List.cons_append, List.find?_cons_of_neg _ (by simp [hp])]
      exact ih h

theorem find?_cons_posX (p : XNode → Bool) (c : XNode) (l : List XNode)
    (h : p c = true) : (c :: l).find? p = some c :=
  List.find?_cons_of_pos l h

theorem find?_cons_negX (p : XNode → Bool) (c : XNode) (l : List XNode)
    (h : p c = false) : (c :: l).find? p = l.find? p :=
  List.find?_cons_of_neg l (by simp [h])

/-- Looking up a direct child by a tag other than `sdt`, `r`, `p`
commutes with the conversion transform: kept placeholders and inserted
field runs never carry such a tag, and every other child keeps its tag. -/
theorem find_processListPure (items : List ZotItem) (toJson : List ZotItem → Str)
    (tagT : Str) (hr : ("r".toList == tagT) = false)
    (hp : ("p".toList == tagT) = false)
    (hs : ("sdt".toList == tagT) = false) :
    ∀ (cs : List XNode) (parentTag : Str),
      (processListPure items toJson parentTag cs).find? (fun m => m.tag == tagT)
        = (cs.find? (fun m => m.tag == tagT)).map (processTreePure items toJson) := by
  intro cs
  induction cs with
  | nil => intro parentTag; rfl
  | cons c cs ih =>
    intro parentTag
    by_cases hc : isCitaviSdt c
    · have hcs : c.tag = "sdt".toList := by
        have hc2 := hc
        unfold isCitaviSdt at hc2
        rw [Bool.and_eq_true] at hc2
        exact eq_of_beq hc2.1
      have hskip : (c.tag == tagT) = false := by
        rw [hcs]
        exact hs
      have hstepP : processListPure items toJson parentTag (c :: cs)
          = (if (sdtResolvePure items c).1.isEmpty then
              c :: processListPure items toJson parentTag cs
            else
              (if parentTag == "p".toList then
                create_zotero_field_xml (toJson (sdtResolvePure items c).1)
                  (if (extract_citavi_display_text c).isEmpty
                    then "(Citation)".toList else extract_citavi_display_text c)
                  ++ processListPure items toJson parentTag cs
              else XNode.elem "p".toList [] none
                  (create_zotero_field_xml (toJson (sdtResolvePure items c).1)
                    (if (extract_citavi_display_text c).isEmpty
                      then "(Citation)".toList else extract_citavi_display_text c))
                :: processListPure items toJson parentTag cs)) := by
        rw [processListPure, if_pos hc]
      rw [hstepP]
      by_cases hres : (sdtResolvePure items c).1.isEmpty
      · rw [if_pos hres, find?_cons_negX (fun m => m.tag == tagT) c _ hskip, ih,
          find?_cons_negX (fun m => m.tag == tagT) c _ hskip]
      · rw [if_neg hres]
        have hrnone : (create_zotero_field_xml (toJson (sdtResolvePure items c).1)
            (if (extract_citavi_display_text c).isEmpty
              then "(Citation)".toList else extract_citavi_display_text c)).find?
              (fun m => m.tag == tagT) = none := by
          rw [List.find?_eq_none]
          intro x hx
          rw [field_tags _ _ x hx, hr]
          decide
        by_cases hpt : (parentTag == "p".toList) = true
        · rw [if_pos hpt, find?_append_none hrnone, ih,
            find?_cons_negX (fun m => m.tag == tagT) c _ hskip]
        · rw [if_neg hpt]
          have hpnode : (((XNode.elem "p".toList [] none
              (create_zotero_field_xml (toJson (sdtResolvePure items c).1)
                (if (extract_citavi_display_text c).isEmpty
                  then "(Citation)".toList
                  else extract_citavi_display_text c))).tag == tagT)) = false := by
            rw [show (XNode.elem "p".toList [] none _).tag = "p".toList from rfl]
            exact hp
          rw [find?_cons_negX (fun m => m.tag == tagT) _ _ hpnode, ih,
            find?_cons_negX (fun m => m.tag == tagT) c _ hskip]
    · cases c with
      | elem t a tx ccs =>
        rw [processListPure, if_neg hc]
        have htag : (processTreePure items toJson (XNode.elem t a tx ccs)).tag
            = t := rfl
        cases hm : (t == tagT) with
        | true =>
          have h1 : ((processTreePure items toJson
              (XNode.elem t a tx ccs)).tag == tagT) = true := by
            rw [htag]
            exact hm
          rw [find?_cons_posX (fun m => m.tag == tagT) _ _ h1,
            find?_cons_posX (fun m => m.tag == tagT) (XNode.elem t a tx ccs) _
              (show ((XNode.elem t a tx ccs).tag == tagT) = true from hm)]
          rfl
        | false =>
          have h1 : ((processTreePure items toJson
              (XNode.elem t a tx ccs)).tag == tagT) = false := by
            rw [htag]
            exact hm
          rw [find?_cons_negX (fun m => m.tag == tagT) _ _ h1, ih,
            find?_cons_negX (fun m => m.tag == tagT) (XNode.elem t a tx ccs) _
              (show ((XNode.elem t a tx ccs).tag == tagT) = false from hm)]

/-- The conversion transform never creates or destroys the Citavi
placeholder property of a surviving node. -/
theorem isCitaviSdt_processTreePure (items : List ZotItem)
    (toJson : List ZotItem → Str) :
    ∀ n : XNode, isCitaviSdt (processTreePure items toJson n) = isCitaviSdt n := by
  intro n
  cases n with
  | elem t a tx cs =>
    rw [show processTreePure items toJson (XNode.elem t a tx cs)
        = XNode.elem t a tx (processListPure items toJson t cs) from rfl]
    unfold isCitaviSdt
    rw [show (XNode.elem t a tx (processListPure items toJson t cs)).tag = t from rfl,
      show (XNode.elem t a tx cs).tag = t from rfl,
      show (XNode.elem t a tx (processListPure items toJson t cs)).findChild
          "sdtPr".toList
        = (processListPure items toJson t cs).find?
            (fun m => m.tag == "sdtPr".toList) from rfl,
      show (XNode.elem t a tx cs).findChild "sdtPr".toList
        = cs.find? (fun m => m.tag == "sdtPr".toList) from rfl,
      find_processListPure items toJson "sdtPr".toList (by decide) (by decide)
        (by decide) cs t]
    cases hf : cs.find? (fun m => m.tag == "sdtPr".toList) with
    | none => rfl
    | some pr =>
      rw [show (some pr).map (processTreePure items toJson)
          = some (processTreePure items toJson pr) from rfl]
      congr 1
      cases pr with
      | elem tp ap txp csp =>
        rw [show processTreePure items toJson (XNode.elem tp ap txp csp)
            = XNode.elem tp ap txp (processListPure items toJson tp csp) from rfl]
        show (match (XNode.elem tp ap txp
              (processListPure items toJson tp csp)).findChild "tag".toList with
          | none => false
          | some tagElem =>
            "CitaviPlaceholder#".toList.isPrefixOf (tagElem.getAttr "val".toList))
          = (match (XNode.elem tp ap txp csp).findChild "tag".toList with
          | none => false
          | some tagElem =>
            "CitaviPlaceholder#".toList.isPrefixOf (tagElem.getAttr "val".toList))
        rw [show (XNode.elem tp ap txp
              (processListPure items toJson tp csp)).findChild "tag".toList
            = (processListPure items toJson tp csp).find?
                (fun m => m.tag == "tag".toList) from rfl,
          show (XNode.elem tp ap txp csp).findChild "tag".toList
            = csp.find? (fun m => m.tag == "tag".toList) from rfl,
          find_processListPure items toJson "tag".toList (by decide) (by decide)
            (by decide) csp tp]
        cases hf2 : csp.find? (fun m => m.tag == "tag".toList) with
        | none => rfl
        | some te =>
          cases te with
          | elem tt ta ttx tcs => rfl

mutual

/-- Structure of a converted subtree: surviving placeholders are exactly
the unresolved ones, and the marker-field count grows by one per
resolved placeholder. -/
theorem fpmc_tree (items : List ZotItem) (toJson : List ZotItem → Str)
    (hfree : ∀ zs, pyIn "ZOTERO_ITEM".toList (toJson zs) = false) :
    ∀ n : XNode,
      (∀ s ∈ forestPlaceholders n.children,
        (forestPlaceholders s.children).isEmpty = true) →
      (∀ s ∈ forestPlaceholders n.children, markerFieldCount [s] = 0) →
      forestPlaceholders (processTreePure items toJson n).children
        = (forestPlaceholders n.children).filter
            (fun s => (sdtResolvePure items s).1.isEmpty)
      ∧ markerFieldCount [processTreePure items toJson n]
          = markerFieldCount [n]
            + ((forestPlaceholders n.children).filter
                (fun s => !(sdtResolvePure items s).1.isEmpty)).length
  | .elem t a tx cs, hnn, hpc => by
    obtain ⟨h1, h2⟩ := fpmc_list items toJson hfree cs t hnn hpc
    rw [show processTreePure items toJson (XNode.elem t a tx cs)
        = XNode.elem t a tx (processListPure items toJson t cs) from rfl]
    refine ⟨?_, ?_⟩
    · rw [show (XNode.elem t a tx (processListPure items toJson t cs)).children
          = processListPure items toJson t cs from rfl, h1,
        show (XNode.elem t a tx cs).children = cs from rfl]
    · rw [markerFieldCount_elem, markerFieldCount_elem, h2,
        show (XNode.elem t a tx cs).children = cs from rfl]
      omega

theorem fpmc_list (items : List ZotItem) (toJson : List ZotItem → Str)
    (hfree : ∀ zs, pyIn "ZOTERO_ITEM".toList (toJson zs) = false) :
    ∀ (cs : List XNode) (parentTag : Str),
      (∀ s ∈ forestPlaceholders cs,
        (forestPlaceholders s.children).isEmpty = true) →
      (∀ s ∈ forestPlaceholders cs, markerFieldCount [s] = 0) →
      forestPlaceholders (processListPure items toJson parentTag cs)
        = (forestPlaceholders cs).filter
            (fun s => (sdtResolvePure items s).1.isEmpty)
      ∧ markerFieldCount (processListPure items toJson parentTag cs)
          = markerFieldCount cs
            + ((forestPlaceholders cs).filter
                (fun s => !(sdtResolvePure items s).1.isEmpty)).length
  | [], parentTag, _, _ => by
    refine ⟨rfl, ?_⟩
    rfl
  | c :: cs, parentTag, hnn, hpc => by
    by_cases hc : isCitaviSdt c
    · have hfp := fp_nested_nil hc hnn
      have hmc0 : markerFieldCount [c] = 0 := hpc c (fp_mem_self hc cs)
      obtain ⟨i1, i2⟩ := fpmc_list items toJson hfree cs parentTag (nn_tail hnn)
        (fun s hs => hpc s (fp_mem_cons_tail c hs))
      have hstepP : processListPure items toJson parentTag (c :: cs)
          = (if (sdtResolvePure items c).1.isEmpty then
              c :: processListPure items toJson parentTag cs
            else
              (if parentTag == "p".toList then
                create_zotero_field_xml (toJson (sdtResolvePure items c).1)
                  (if (extract_citavi_display_text c).isEmpty
                    then "(Citation)".toList else extract_citavi_display_text c)
                  ++ processListPure items toJson parentTag cs
              else XNode.elem "p".toList [] none
                  (create_zotero_field_xml (toJson (sdtResolvePure items c).1)
                    (if (extract_citavi_display_text c).isEmpty
                      then "(Citation)".toList else extract_citavi_display_text c))
                :: processListPure items toJson parentTag cs)) := by
        rw [processListPure, if_pos hc]
      rw [hstepP]
      by_cases hres : (sdtResolvePure items c).1.isEmpty
      · rw [if_pos hres]
        have hfres : (forestPlaceholders (c :: cs)).filter
            (fun s => !(sdtResolvePure items s).1.isEmpty)
            = (forestPlaceholders cs).filter
                (fun s => !(sdtResolvePure items s).1.isEmpty) := by
          rw [hfp, List.filter_cons, if_neg (by simp [hres])]
        have hfunres : (forestPlaceholders (c :: cs)).filter
            (fun s => (sdtResolvePure items s).1.isEmpty)
            = c :: (forestPlaceholders cs).filter
                (fun s => (sdtResolvePure items s).1.isEmpty) := by
          rw [hfp, List.filter_cons, if_pos (by simp [hres])]
        refine ⟨?_, ?_⟩
        · have hfc : forestPlaceholders [c] = [c] := by
            rw [fp_cons_split, if_pos hc,
              List.isEmpty_iff.mp (hnn c (fp_mem_self hc cs)),
              show forestPlaceholders ([] : List XNode) = [] from rfl]
            rfl
          rw [fp_cons_eq, i1, hfunres, hfc]
          rfl
        · rw [markerFieldCount_cons, markerFieldCount_cons c cs, hmc0, i2, hfres]
          omega
      · rw [if_neg hres]
        have hfres : (forestPlaceholders (c :: cs)).filter
            (fun s => !(sdtResolvePure items s).1.isEmpty)
            = c :: (forestPlaceholders cs).filter
                (fun s => !(sdtResolvePure items s).1.isEmpty) := by
          rw [hfp, List.filter_cons, if_pos (by simp [hres])]
        have hfunres : (forestPlaceholders (c :: cs)).filter
            (fun s => (sdtResolvePure items s).1.isEmpty)
            = (forestPlaceholders cs).filter
                (fun s => (sdtResolvePure items s).1.isEmpty) := by
          rw [hfp, List.filter_cons, if_neg (by simp [hres])]
        have hmcf := markerFieldCount_field (toJson (sdtResolvePure items c).1)
          (if (extract_citavi_display_text c).isEmpty
            then "(Citation)".toList else extract_citavi_display_text c)
          (hfree (sdtResolvePure items c).1)
        have hfpf := fp_field (toJson (sdtResolvePure items c).1)
          (if (extract_citavi_display_text c).isEmpty
            then "(Citation)".toList else extract_citavi_display_text c)
        by_cases hpt : (parentTag == "p".toList) = true
        · rw [if_pos hpt]
          refine ⟨?_, ?_⟩
          · rw [fp_append, hfpf, List.nil_append, i1, hfunres]
          · rw [markerFieldCount_append, hmcf, i2, markerFieldCount_cons c cs, hmc0,
              hfres, List.length_cons]
            omega
        · rw [if_neg hpt]
          refine ⟨?_, ?_⟩
          · rw [fp_cons_eq, fp_elem_tag_false _ _ _ (by decide), hfpf,
              List.nil_append, i1, hfunres]
          · have hmcp : markerFieldCount [XNode.elem "p".toList [] none
                (create_zotero_field_xml (toJson (sdtResolvePure items c).1)
                  (if (extract_citavi_display_text c).isEmpty
                    then "(Citation)".toList
                    else extract_citavi_display_text c))]
                = markerFieldCount
                    (create_zotero_field_xml (toJson (sdtResolvePure items c).1)
                      (if (extract_citavi_display_text c).isEmpty
                        then "(Citation)".toList
                        else extract_citavi_display_text c)) := by
              rw [markerFieldCount_elem]
              show 0 + markerFieldCount _ = markerFieldCount _
              exact Nat.zero_add _
            rw [markerFieldCount_cons, hmcp, hmcf, i2, markerFieldCount_cons c cs,
              hmc0, hfres, List.length_cons]
            omega
    · have hc2 : isCitaviSdt c = false := by simpa using hc
      rw [processListPure, if_neg hc]
      obtain ⟨t1, t2⟩ := fpmc_tree items toJson hfree c (nn_head hc2 hnn)
        (fun s hs => hpc s (fp_mem_cons_head hc2 hs))
      obtain ⟨i1, i2⟩ := fpmc_list items toJson hfree cs parentTag (nn_tail hnn)
        (fun s hs => hpc s (fp_mem_cons_tail c hs))
      have hsplit : forestPlaceholders (c :: cs)
          = forestPlaceholders c.children ++ forestPlaceholders cs := by
        rw [fp_cons_split, hc2]
        rfl
      refine ⟨?_, ?_⟩
      · have hfpt : forestPlaceholders [processTreePure items toJson c]
            = (forestPlaceholders c.children).filter
                (fun s => (sdtResolvePure items s).1.isEmpty) := by
          rw [fp_cons_split, isCitaviSdt_processTreePure, hc2, if_neg (by decide),
            show forestPlaceholders ([] : List XNode) = [] from rfl,
            List.append_nil, List.nil_append, t1]
        rw [fp_cons_eq, i1, hsplit, List.filter_append, hfpt]
      · rw [markerFieldCount_cons, t2, i2, markerFieldCount_cons c cs, hsplit,
          List.filter_append, List.length_append]
        omega

end

theorem isCitaviBiblSdt_of_tag (m : XNode) (h : (m.tag == "sdt".toList) = false) :
    isCitaviBiblSdt m = false := by
  cases m with
  | elem t a tx cs => exact isCitaviBiblSdt_tag_false a tx cs h

theorem iterAll_instrRuns_tags :
    ∀ (chunks : List Str), ∀ m ∈ XNode.iterAllList (chunks.map mkInstrRun),
      (m.tag == "sdt".toList) = false := by
  intro chunks
  induction chunks with
  | nil =>
    intro m hm
    exact absurd hm (List.not_mem_nil m)
  | cons c cs ih =>
    intro m hm
    rw [List.map_cons,
      show XNode.iterAllList (mkInstrRun c :: List.map mkInstrRun cs)
        = (mkInstrRun c).iterAll ++ XNode.iterAllList (List.map mkInstrRun cs)
        from rfl] at hm
    rcases List.mem_append.mp hm with h1 | h2
    · rw [show (mkInstrRun c).iterAll
          = [mkInstrRun c, XNode.elem "instrText".toList
              [("xml:space".toList, "preserve".toList)] (some c) []] from rfl] at h1
      simp only [List.mem_cons, List.not_mem_nil, or_false] at h1
      rcases h1 with rfl | rfl <;> rfl
    · exact ih m h2

/-- No descendant of a synthesized citation field is an `sdt`. -/
theorem iterAll_field_not_sdt (js disp : Str) :
    ∀ m ∈ XNode.iterAllList (create_zotero_field_xml js disp),
      (m.tag == "sdt".toList) = false := by
  intro m hm
  rw [create_zotero_field_xml, iterAllList_append,
    show XNode.iterAllList (mkFldCharRun "begin".toList
        :: (chunkList 250 (zoteroItemInstr js)).map mkInstrRun)
      = (mkFldCharRun "begin".toList).iterAll
        ++ XNode.iterAllList ((chunkList 250 (zoteroItemInstr js)).map mkInstrRun)
      from rfl] at hm
  rcases List.mem_append.mp hm with h12 | h3
  · rcases List.mem_append.mp h12 with h1 | h2
    · rw [show (mkFldCharRun "begin".toList).iterAll
          = [mkFldCharRun "begin".toList,
             XNode.elem "fldChar".toList
               [("fldCharType".toList, "begin".toList)] none []] from rfl] at h1
      simp only [List.mem_cons, List.not_mem_nil, or_false] at h1
      rcases h1 with rfl | rfl <;> rfl
    · exact iterAll_instrRuns_tags _ m h2
  · rw [show XNode.iterAllList [mkFldCharRun "separate".toList, mkDisplayRun disp,
          mkFldCharRun "end".toList]
        = [mkFldCharRun "separate".toList,
           XNode.elem "fldChar".toList
             [("fldCharType".toList, "separate".toList)] none [],
           mkDisplayRun disp,
           XNode.elem "rPr".toList [] none [XNode.elem "noProof".toList [] none []],
           XNode.elem "noProof".toList [] none [],
           XNode.elem "t".toList [("xml:space".toList, "preserve".toList)]
             (some disp) [],
           mkFldCharRun "end".toList,
           XNode.elem "fldChar".toList
             [("fldCharType".toList, "end".toList)] none []] from rfl] at h3
    simp only [List.mem_cons, List.not_mem_nil, or_false] at h3
    rcases h3 with rfl | rfl | rfl | rfl | rfl | rfl | rfl | rfl <;> rfl

/-- The conversion transform preserves the (absence of the) Citavi
bibliography-SDT property of a surviving node. -/
theorem isCitaviBiblSdt_processTreePure (items : List ZotItem)
    (toJson : List ZotItem → Str) :
    ∀ n : XNode,
      isCitaviBiblSdt (processTreePure items toJson n) = isCitaviBiblSdt n := by
  intro n
  cases n with
  | elem t a tx cs =>
    rw [show processTreePure items toJson (XNode.elem t a tx cs)
        = XNode.elem t a tx (processListPure items toJson t cs) from rfl]
    unfold isCitaviBiblSdt
    rw [show (XNode.elem t a tx (processListPure items toJson t cs)).tag = t from rfl,
      show (XNode.elem t a tx cs).tag = t from rfl,
      show (XNode.elem t a tx (processListPure items toJson t cs)).findChild
          "sdtPr".toList
        = (processListPure items toJson t cs).find?
            (fun m => m.tag == "sdtPr".toList) from rfl,
      show (XNode.elem t a tx cs).findChild "sdtPr".toList
        = cs.find? (fun m => m.tag == "sdtPr".toList) from rfl,
      find_processListPure items toJson "sdtPr".toList (by decide) (by decide)
        (by decide) cs t]
    cases hf : cs.find? (fun m => m.tag == "sdtPr".toList) with
    | none => rfl
    | some pr =>
      rw [show (some pr).map (processTreePure items toJson)
          = some (processTreePure items toJson pr) from rfl]
      congr 1
      cases pr with
      | elem tp ap txp csp =>
        rw [show processTreePure items toJson (XNode.elem tp ap txp csp)
            = XNode.elem tp ap txp (processListPure items toJson tp csp) from rfl]
        show (match (XNode.elem tp ap txp
              (processListPure items toJson tp csp)).findChild "tag".toList with
          | none => false
          | some tagElem =>
            pyIn "CitaviBibliography".toList (tagElem.getAttr "val".toList)
              || pyIn "CitaviFilteredBibliography".toList
                  (tagElem.getAttr "val".toList))
          = (match (XNode.elem tp ap txp csp).findChild "tag".toList with
          | none => false
          | some tagElem =>
            pyIn "CitaviBibliography".toList (tagElem.getAttr "val".toList)
              || pyIn "CitaviFilteredBibliography".toList
                  (tagElem.getAttr "val".toList))
        rw [show (XNode.elem tp ap txp
              (processListPure items toJson tp csp)).findChild "tag".toList
            = (processListPure items toJson tp csp).find?
                (fun m => m.tag == "tag".toList) from rfl,
          show (XNode.elem tp ap txp csp).findChild "tag".toList
            = csp.find? (fun m => m.tag == "tag".toList) from rfl,
          find_processListPure items toJson "tag".toList (by decide) (by decide)
            (by decide) csp tp]
        cases hf2 : csp.find? (fun m => m.tag == "tag".toList) with
        | none => rfl
        | some te =>
          cases te with
          | elem tt ta ttx tcs => rfl

theorem iterAll_self_mem : ∀ c : XNode, c ∈ XNode.iterAll c
  | .elem t a tx cs => by
    rw [show (XNode.elem t a tx cs).iterAll
        = XNode.elem t a tx cs :: XNode.iterAllList cs from rfl]
    exact List.mem_cons_self _ _

mutual

/-- If no node of a subtree is a Citavi bibliography SDT, the same holds
after the conversion transform. -/
theorem noBibl_tree (items : List ZotItem) (toJson : List ZotItem → Str) :
    ∀ n : XNode, (∀ m ∈ XNode.iterAll n, isCitaviBiblSdt m = false) →
      ∀ m ∈ XNode.iterAll (processTreePure items toJson n),
        isCitaviBiblSdt m = false
  | .elem t a tx cs, hb => by
    intro m hm
    rw [show processTreePure items toJson (XNode.elem t a tx cs)
        = XNode.elem t a tx (processListPure items toJson t cs) from rfl,
      show (XNode.elem t a tx (processListPure items toJson t cs)).iterAll
        = XNode.elem t a tx (processListPure items toJson t cs)
            :: XNode.iterAllList (processListPure items toJson t cs) from rfl] at hm
    rcases List.mem_cons.mp hm with rfl | h2
    · rw [show XNode.elem t a tx (processListPure items toJson t cs)
          = processTreePure items toJson (XNode.elem t a tx cs) from rfl,
        isCitaviBiblSdt_processTreePure]
      exact hb _ (iterAll_self_mem _)
    · refine noBibl_list items toJson cs t (fun x hx => hb x ?_) m h2
      rw [show (XNode.elem t a tx cs).iterAll
          = XNode.elem t a tx cs :: XNode.iterAllList cs from rfl]
      exact List.mem_cons_of_mem _ hx

theorem noBibl_list (items : List ZotItem) (toJson : List ZotItem → Str) :
    ∀ (cs : List XNode) (parentTag : Str),
      (∀ m ∈ XNode.iterAllList cs, isCitaviBiblSdt m = false) →
      ∀ m ∈ XNode.iterAllList (processListPure items toJson parentTag cs),
        isCitaviBiblSdt m = false
  | [], _, _ => by
    intro m hm
    exact absurd hm (List.not_mem_nil m)
  | c :: cs, parentTag, hb => by
    intro m hm
    have hbl : ∀ x ∈ XNode.iterAll c, isCitaviBiblSdt x = false := by
      intro x hx
      refine hb x ?_
      rw [show XNode.iterAllList (c :: cs)
          = XNode.iterAll c ++ XNode.iterAllList cs from rfl]
      exact List.mem_append_left _ hx
    have hbr : ∀ x ∈ XNode.iterAllList cs, isCitaviBiblSdt x = false := by
      intro x hx
      refine hb x ?_
      rw [show XNode.iterAllList (c :: cs)
          = XNode.iterAll c ++ XNode.iterAllList cs from rfl]
      exact List.mem_append_right _ hx
    by_cases hc : isCitaviSdt c
    · have hstepP : processListPure items toJson parentTag (c :: cs)
          = (if (sdtResolvePure items c).1.isEmpty then
              c :: processListPure items toJson parentTag cs
            else
              (if parentTag == "p".toList then
                create_zotero_field_xml (toJson (sdtResolvePure items c).1)
                  (if (extract_citavi_display_text c).isEmpty
                    then "(Citation)".toList else extract_citavi_display_text c)
                  ++ processListPure items toJson parentTag cs
              else XNode.elem "p".toList [] none
                  (create_zotero_field_xml (toJson (sdtResolvePure items c).1)
                    (if (extract_citavi_display_text c).isEmpty
                      then "(Citation)".toList else extract_citavi_display_text c))
                :: processListPure items toJson parentTag cs)) := by
        rw [processListPure, if_pos hc]
      rw [hstepP] at hm
      by_cases hres : (sdtResolvePure items c).1.isEmpty
      · rw [if_pos hres,
          show XNode.iterAllList (c :: processListPure items toJson parentTag cs)
            = XNode.iterAll c
              ++ XNode.iterAllList (processListPure items toJson parentTag cs)
            from rfl] at hm
        rcases List.mem_append.mp hm with h1 | h2
        · exact hbl m h1
        · exact noBibl_list items toJson cs parentTag hbr m h2
      · rw [if_neg hres] at hm
        by_cases hpt : (parentTag == "p".toList) = true
        · rw [if_pos hpt, iterAllList_append] at hm
          rcases List.mem_append.mp hm with h1 | h2
          · exact isCitaviBiblSdt_of_tag m (iterAll_field_not_sdt _ _ m h1)
          · exact noBibl_list items toJson cs parentTag hbr m h2
        · rw [if_neg hpt,
            show XNode.iterAllList (XNode.elem "p".toList [] none
                (create_zotero_field_xml (toJson (sdtResolvePure items c).1)
                  (if (extract_citavi_display_text c).isEmpty
                    then "(Citation)".toList else extract_citavi_display_text c))
                :: processListPure items toJson parentTag cs)
              = (XNode.elem "p".toList [] none
                  (create_zotero_field_xml (toJson (sdtResolvePure items c).1)
                    (if (extract_citavi_display_text c).isEmpty
                      then "(Citation)".toList
                      else extract_citavi_display_text c))
                  :: XNode.iterAllList
                      (create_zotero_field_xml (toJson (sdtResolvePure items c).1)
                        (if (extract_citavi_display_text c).isEmpty
                          then "(Citation)".toList
                          else extract_citavi_display_text c)))
                ++ XNode.iterAllList (processListPure items toJson parentTag cs)
              from rfl] at hm
          rcases List.mem_append.mp hm with h1 | h2
          · rcases List.mem_cons.mp h1 with rfl | h1b
            · exact isCitaviBiblSdt_of_tag _ (by rfl)
            · exact isCitaviBiblSdt_of_tag m (iterAll_field_not_sdt _ _ m h1b)
          · exact noBibl_list items toJson cs parentTag hbr m h2
    · rw [processListPure, if_neg hc,
        show XNode.iterAllList (processTreePure items toJson c
            :: processListPure items toJson parentTag cs)
          = XNode.iterAll (processTreePure items toJson c)
            ++ XNode.iterAllList (processListPure items toJson parentTag cs)
          from rfl] at hm
      rcases List.mem_append.mp hm with h1 | h2
      · exact noBibl_tree items toJson c hbl m h1
      · exact noBibl_list items toJson cs parentTag hbr m h2

end

mutual

/-- With no Citavi bibliography SDT anywhere, bibliography removal is
the identity and removes nothing. -/
theorem removeBibl_tree :
    ∀ n : XNode, (∀ m ∈ XNode.iterAll n, isCitaviBiblSdt m = false) →
      remove_citavi_bibliography n = (n, 0)
  | .elem t a tx cs, hb => by
    have hl := removeBiblList_id cs (fun m hm => hb m (by
      rw [show (XNode.elem t a tx cs).iterAll
          = XNode.elem t a tx cs :: XNode.iterAllList cs from rfl]
      exact List.mem_cons_of_mem _ hm))
    rw [show remove_citavi_bibliography (XNode.elem t a tx cs)
        = (XNode.elem t a tx (removeBiblList cs).1, (removeBiblList cs).2)
        from rfl, hl]

theorem removeBiblList_id :
    ∀ cs : List XNode, (∀ m ∈ XNode.iterAllList cs, isCitaviBiblSdt m = false) →
      removeBiblList cs = (cs, 0)
  | [], _ => rfl
  | c :: cs, hb => by
    have hbc : isCitaviBiblSdt c = false := hb c (by
      rw [show XNode.iterAllList (c :: cs)
          = XNode.iterAll c ++ XNode.iterAllList cs from rfl]
      exact List.mem_append_left _ (iterAll_self_mem c))
    have htree := removeBibl_tree c (fun m hm => hb m (by
      rw [show XNode.iterAllList (c :: cs)
          = XNode.iterAll c ++ XNode.iterAllList cs from rfl]
      exact List.mem_append_left _ hm))
    have hrest := removeBiblList_id cs (fun m hm => hb m (by
      rw [show XNode.iterAllList (c :: cs)
          = XNode.iterAll c ++ XNode.iterAllList cs from rfl]
      exact List.mem_append_right _ hm))
    rw [show removeBiblList (c :: cs)
        = (if isCitaviBiblSdt c then
            ((removeBiblList cs).1, (removeBiblList cs).2 + 1)
          else ((remove_citavi_bibliography c).1 :: (removeBiblList cs).1,
            (remove_citavi_bibliography c).2 + (removeBiblList cs).2)) from rfl,
      hbc, if_neg (by decide), htree, hrest]
    rfl

end

/-- Inserting a placeholder-free, marker-free node changes neither the
placeholder list nor the marker-field count. -/
theorem insertBeforeFirst_counts (tagT : Str) (p : XNode)
    (hfp : forestPlaceholders [p] = [])
    (hmc : markerFieldCount [p] = 0) :
    ∀ l : List XNode,
      forestPlaceholders (insertBeforeFirst tagT p l) = forestPlaceholders l
      ∧ markerFieldCount (insertBeforeFirst tagT p l) = markerFieldCount l
  | [] => by
    rw [show insertBeforeFirst tagT p [] = [p] from rfl]
    exact ⟨by rw [hfp]; rfl, by rw [hmc]; rfl⟩
  | c :: cs => by
    obtain ⟨ih1, ih2⟩ := insertBeforeFirst_counts tagT p hfp hmc cs
    rw [show insertBeforeFirst tagT p (c :: cs)
        = (if c.tag == tagT then p :: c :: cs
          else c :: insertBeforeFirst tagT p cs) from rfl]
    by_cases h : (c.tag == tagT) = true
    · rw [if_pos h]
      refine ⟨?_, ?_⟩
      · rw [fp_cons_eq, hfp, List.nil_append]
      · rw [markerFieldCount_cons, hmc, Nat.zero_add]
    · rw [if_neg h]
      refine ⟨?_, ?_⟩
      · rw [fp_cons_eq, ih1, ← fp_cons_eq]
      · rw [markerFieldCount_cons, ih2, ← markerFieldCount_cons]

/-- Replacing the found `body` child by a count-equivalent node changes
neither the placeholder list nor the marker-field count. -/
theorem replaceFirstByTag_counts (tagT : Str) (newN : XNode) :
    ∀ (l : List XNode) (b : XNode),
      l.find? (fun m => m.tag == tagT) = some b →
      forestPlaceholders [newN] = forestPlaceholders [b] →
      markerFieldCount [newN] = markerFieldCount [b] →
      forestPlaceholders (replaceFirstByTag tagT newN l) = forestPlaceholders l
      ∧ markerFieldCount (replaceFirstByTag tagT newN l) = markerFieldCount l
  | [], b, hfind, _, _ => Option.noConfusion hfind
  | c :: cs, b, hfind, hfp, hmc => by
    rw [show replaceFirstByTag tagT newN (c :: cs)
        = (if c.tag == tagT then newN :: cs
          else c :: replaceFirstByTag tagT newN cs) from rfl]
    cases h : (c.tag == tagT) with
    | true =>
      rw [if_pos rfl]
      have hbc : c = b := by
        rw [find?_cons_posX (fun m => m.tag == tagT) c cs h] at hfind
        exact Option.some.inj hfind
      subst hbc
      refine ⟨?_, ?_⟩
      · rw [fp_cons_eq, hfp, ← fp_cons_eq]
      · rw [markerFieldCount_cons, hmc, ← markerFieldCount_cons]
    | false =>
      rw [if_neg (by decide)]
      have hfind2 : cs.find? (fun m => m.tag == tagT) = some b := by
        rw [find?_cons_negX (fun m => m.tag == tagT) c cs h] at hfind
        exact hfind
      obtain ⟨ih1, ih2⟩ := replaceFirstByTag_counts tagT newN cs b hfind2 hfp hmc
      refine ⟨?_, ?_⟩
      · rw [fp_cons_eq, ih1, ← fp_cons_eq]
      · rw [markerFieldCount_cons, ih2, ← markerFieldCount_cons]

theorem fp_biblField (style_uri : Str) :
    forestPlaceholders (create_zotero_bibl_field_xml style_uri) = [] := rfl

theorem mfc_biblField (style_uri : Str) :
    markerFieldCount (create_zotero_bibl_field_xml style_uri) = 0 := rfl

/-- On a non-`sdt` root, the placeholder scan is the placeholder list of
the children forest. -/
theorem find_citavi_sdts_elem (t : Str) (a : List (Str × Str)) (tx : Option Str)
    (cs : List XNode) (h : (t == "sdt".toList) = false) :
    find_citavi_sdts (XNode.elem t a tx cs) = forestPlaceholders cs := by
  unfold find_citavi_sdts forestPlaceholders
  rw [show (XNode.elem t a tx cs).iterAll
      = XNode.elem t a tx cs :: XNode.iterAllList cs from rfl, List.filter_cons,
    isCitaviSdt_tag_false a tx cs h, if_neg (by decide)]

theorem length_filter_partition (p : XNode → Bool) :
    ∀ l : List XNode,
      (l.filter p).length + (l.filter (fun x => !p x)).length = l.length := by
  intro l
  induction l with
  | nil => rfl
  | cons c cs ih =>
    rw [List.filter_cons, List.filter_cons]
    cases h : p c with
    | true =>
      rw [if_pos rfl, if_neg (by decide), List.length_cons, List.length_cons]
      omega
    | false =>
      rw [if_neg (by decide), if_pos (by decide), List.length_cons, List.length_cons]
      omega

/-- Appending the end-of-document bibliography field changes neither the
placeholder scan nor the citation-marker count (the inserted paragraph
holds a `ZOTERO_BIBL` field, not a `ZOTERO_ITEM` one, and no `sdt`). -/
theorem add_bibl_counts (style_uri : Str) (t : Str) (a : List (Str × Str))
    (tx : Option Str) (cs : List XNode) (hroot : (t == "sdt".toList) = false) :
    find_citavi_sdts (add_zotero_bibl_at_end (XNode.elem t a tx cs) style_uri).2
      = find_citavi_sdts (XNode.elem t a tx cs)
    ∧ markerFieldCount [(add_zotero_bibl_at_end (XNode.elem t a tx cs) style_uri).2]
      = markerFieldCount [XNode.elem t a tx cs] := by
  unfold add_zotero_bibl_at_end
  dsimp only []
  cases hfb : cs.find? (fun m => m.tag == "body".toList) with
  | none => exact ⟨rfl, rfl⟩
  | some body =>
    dsimp only []
    by_cases htz : treeHasZoteroBibl (XNode.elem t a tx cs) = true
    · rw [if_pos htz]
      exact ⟨rfl, rfl⟩
    · rw [if_neg htz]
      dsimp only []
      have hbodytag0 := List.find?_some hfb
      have hbodytag : (body.tag == "body".toList) = true := hbodytag0
      have hbt : (body.tag == "sdt".toList) = false := by
        rw [eq_of_beq hbodytag]
        decide
      have hfpp : forestPlaceholders [XNode.elem "p".toList [] none
          (create_zotero_bibl_field_xml style_uri)] = [] := by
        rw [fp_elem_tag_false _ _ _ (by decide), fp_biblField]
      have hmcp : markerFieldCount [XNode.elem "p".toList [] none
          (create_zotero_bibl_field_xml style_uri)] = 0 := by
        rw [markerFieldCount_elem, mfc_biblField]
        rfl
      obtain ⟨hins1, hins2⟩ := insertBeforeFirst_counts "sectPr".toList
        (XNode.elem "p".toList [] none (create_zotero_bibl_field_xml style_uri))
        hfpp hmcp body.children
      have hfp2 : forestPlaceholders [XNode.elem body.tag body.attrs body.txt
          (insertBeforeFirst "sectPr".toList
            (XNode.elem "p".toList [] none (create_zotero_bibl_field_xml style_uri))
            body.children)] = forestPlaceholders [body] := by
        rw [fp_elem_tag_false _ _ _ hbt, hins1]
        cases body with
        | elem bt ba btx bcs =>
          have hbt2 : (bt == "sdt".toList) = false := hbt
          rw [show (XNode.elem bt ba btx bcs).children = bcs from rfl,
            fp_elem_tag_false ba btx bcs hbt2]
      have hmc2 : markerFieldCount [XNode.elem body.tag body.attrs body.txt
          (insertBeforeFirst "sectPr".toList
            (XNode.elem "p".toList [] none (create_zotero_bibl_field_xml style_uri))
            body.children)] = markerFieldCount [body] := by
        rw [markerFieldCount_elem, hins2]
        cases body with
        | elem bt ba btx bcs =>
          rw [markerFieldCount_elem]
          rfl
      obtain ⟨hrep1, hrep2⟩ := replaceFirstByTag_counts "body".toList
        (XNode.elem body.tag body.attrs body.txt
          (insertBeforeFirst "sectPr".toList
            (XNode.elem "p".toList [] none (create_zotero_bibl_field_xml style_uri))
            body.children)) cs body hfb hfp2 hmc2
      refine ⟨?_, ?_⟩
      · rw [find_citavi_sdts_elem t a tx _ hroot, hrep1,
          find_citavi_sdts_elem t a tx cs hroot]
      · rw [markerFieldCount_elem, hrep2, markerFieldCount_elem]

/-- C3: on a part whose root is not itself a placeholder, whose
placeholders are non-nested and initially free of Zotero markers, whose
tree carries no Zotero citation field yet and no Citavi bibliography
SDT, and whose serializer output is marker-free, `process_xml_file`
started with fresh stats and a sound cache converts exactly the M
placeholders that resolve (payload or display-text fallback) into M
`ZOTERO_ITEM` citation fields, leaves the N−M unresolved placeholders
as the placeholder scan of the output (same nodes, same order,
untouched), and ends with stats.converted = M and
stats.skipped = N − M. -/
theorem c3_process_xml_file_counts (items : List ZotItem)
    (toJson : List ZotItem → Str) (isMainDoc : Bool) (style_uri : Str)
    (root : XNode) (cache : MatchCache)
    (hsound : CacheSound items cache)
    (hroot : (root.tag == "sdt".toList) = false)
    (hnn : ∀ s ∈ forestPlaceholders root.children,
      (forestPlaceholders s.children).isEmpty = true)
    (hpc : ∀ s ∈ forestPlaceholders root.children, markerFieldCount [s] = 0)
    (hclean : markerFieldCount [root] = 0)
    (hfree : ∀ zs, pyIn "ZOTERO_ITEM".toList (toJson zs) = false)
    (hnb : ∀ m ∈ XNode.iterAll root, isCitaviBiblSdt m = false) :
    (process_xml_file items toJson isMainDoc style_uri root cache
        ⟨0, 0, []⟩).2.2.2.converted
      = ((find_citavi_sdts root).filter
          (fun s => !(sdtResolvePure items s).1.isEmpty)).length
    ∧ (process_xml_file items toJson isMainDoc style_uri root cache
        ⟨0, 0, []⟩).2.2.2.skipped
      = (find_citavi_sdts root).length
        - ((find_citavi_sdts root).filter
            (fun s => !(sdtResolvePure items s).1.isEmpty)).length
    ∧ find_citavi_sdts (process_xml_file items toJson isMainDoc style_uri root
        cache ⟨0, 0, []⟩).2.1
      = (find_citavi_sdts root).filter
          (fun s => (sdtResolvePure items s).1.isEmpty)
    ∧ markerFieldCount [(process_xml_file items toJson isMainDoc style_uri root
        cache ⟨0, 0, []⟩).2.1]
      = ((find_citavi_sdts root).filter
          (fun s => !(sdtResolvePure items s).1.isEmpty)).length := by
  cases root with
  | elem t a tx cs =>
    have hfs : find_citavi_sdts (XNode.elem t a tx cs) = forestPlaceholders cs :=
      find_citavi_sdts_elem t a tx cs hroot
    have hch : (XNode.elem t a tx cs).children = cs := rfl
    have hpart : ((forestPlaceholders cs).filter
          (fun s => (sdtResolvePure items s).1.isEmpty)).length
        + ((forestPlaceholders cs).filter
            (fun s => !(sdtResolvePure items s).1.isEmpty)).length
        = (forestPlaceholders cs).length :=
      length_filter_partition _ _
    rw [hfs]
    unfold process_xml_file
    by_cases he : (find_citavi_sdts (XNode.elem t a tx cs)).isEmpty = true
    · rw [if_pos he]
      have hfp0 : forestPlaceholders cs = [] := by
        rw [← hfs]
        exact List.isEmpty_iff.mp he
      rw [hfp0]
      refine ⟨rfl, rfl, ?_, ?_⟩
      · rw [show (false, XNode.elem t a tx cs, cache,
            (⟨0, 0, []⟩ : Stats)).2.1 = XNode.elem t a tx cs from rfl, hfs, hfp0]
        rfl
      · rw [show (false, XNode.elem t a tx cs, cache,
            (⟨0, 0, []⟩ : Stats)).2.1 = XNode.elem t a tx cs from rfl, hclean]
        rfl
    · rw [if_neg he]
      dsimp only []
      obtain ⟨hr1, hr2, hr3, hr4⟩ := processTree_run items toJson
        (XNode.elem t a tx cs) cache ⟨0, 0, []⟩ hsound hnn
      obtain ⟨hs1, hs2⟩ := fpmc_tree items toJson hfree (XNode.elem t a tx cs)
        hnn hpc
      rw [hch] at hr3 hr4 hs2
      rw [hclean] at hs2
      have hc3 : (processTree items toJson (XNode.elem t a tx cs) cache
          ⟨0, 0, []⟩).2.2.converted
          = ((forestPlaceholders cs).filter
              (fun s => !(sdtResolvePure items s).1.isEmpty)).length := by
        rw [hr3, show ((⟨0, 0, []⟩ : Stats)).converted = 0 from rfl, Nat.zero_add]
      have hc4 : (processTree items toJson (XNode.elem t a tx cs) cache
          ⟨0, 0, []⟩).2.2.skipped
          = ((forestPlaceholders cs).filter
              (fun s => (sdtResolvePure items s).1.isEmpty)).length := by
        rw [hr4, show ((⟨0, 0, []⟩ : Stats)).skipped = 0 from rfl, Nat.zero_add]
      have hfsr : find_citavi_sdts
          (XNode.elem t a tx (processListPure items toJson t cs))
          = (forestPlaceholders cs).filter
              (fun s => (sdtResolvePure items s).1.isEmpty) := by
        rw [find_citavi_sdts_elem t a tx _ hroot,
          show forestPlaceholders (processListPure items toJson t cs)
            = forestPlaceholders ((processTreePure items toJson
                (XNode.elem t a tx cs)).children) from rfl, hs1, hch]
      have hmcr : markerFieldCount
          [XNode.elem t a tx (processListPure items toJson t cs)]
          = ((forestPlaceholders cs).filter
              (fun s => !(sdtResolvePure items s).1.isEmpty)).length := by
        rw [show XNode.elem t a tx (processListPure items toJson t cs)
            = processTreePure items toJson (XNode.elem t a tx cs) from rfl, hs2]
        exact Nat.zero_add _
      cases isMainDoc with
      | false =>
        rw [if_neg (by decide)]
        dsimp only []
        refine ⟨hc3, ?_, ?_, ?_⟩
        · rw [hc4]
          omega
        · rw [hr1, show processTreePure items toJson (XNode.elem t a tx cs)
            = XNode.elem t a tx (processListPure items toJson t cs) from rfl, hfsr]
        · rw [hr1, show processTreePure items toJson (XNode.elem t a tx cs)
            = XNode.elem t a tx (processListPure items toJson t cs) from rfl, hmcr]
      | true =>
        rw [if_pos rfl]
        have hnb2 := noBibl_tree items toJson (XNode.elem t a tx cs) hnb
        have hrem := removeBibl_tree
          (processTreePure items toJson (XNode.elem t a tx cs)) hnb2
        rw [hr1, hrem]
        dsimp only []
        rw [show processTreePure items toJson (XNode.elem t a tx cs)
            = XNode.elem t a tx (processListPure items toJson t cs) from rfl]
        split
        · obtain ⟨ha1, ha2⟩ := add_bibl_counts style_uri t a tx
            (processListPure items toJson t cs) hroot
          refine ⟨hc3, ?_, ?_, ?_⟩
          · rw [hc4]
            omega
          · rw [ha1, hfsr]
          · rw [ha2, hmcr]
        · refine ⟨hc3, ?_, ?_, ?_⟩
          · rw [hc4]
            omega
          · exact hfsr
          · exact hmcr

/-- Witness for C3: a main document with two placeholders, one
resolving via its DOI payload against the sample library entry and one
(payload-free, display-free) unmatched, run with fresh stats and an empty (trivially sound) cache. -/
theorem c3_process_xml_file_counts_witness :
    ((find_citavi_sdts c3Root).filter
        (fun s => !(sdtResolvePure [c3Item] s).1.isEmpty)).length = 1
    ∧ (find_citavi_sdts c3Root).length = 2
    ∧ ((process_xml_file [c3Item] (fun _ => "j".toList) true "s".toList
          c3Root [] ⟨0, 0, []⟩).2.2.2.converted
        = ((find_citavi_sdts c3Root).filter
            (fun s => !(sdtResolvePure [c3Item] s).1.isEmpty)).length
      ∧ (process_xml_file [c3Item] (fun _ => "j".toList) true "s".toList
          c3Root [] ⟨0, 0, []⟩).2.2.2.skipped
        = (find_citavi_sdts c3Root).length
          - ((find_citavi_sdts c3Root).filter
              (fun s => !(sdtResolvePure [c3Item] s).1.isEmpty)).length
      ∧ find_citavi_sdts (process_xml_file [c3Item] (fun _ => "j".toList)
          true "s".toList c3Root [] ⟨0, 0, []⟩).2.1
        = (find_citavi_sdts c3Root).filter
            (fun s => (sdtResolvePure [c3Item] s).1.isEmpty)
      ∧ markerFieldCount [(process_xml_file [c3Item] (fun _ => "j".toList)
          true "s".toList c3Root [] ⟨0, 0, []⟩).2.1]
        = ((find_citavi_sdts c3Root).filter
            (fun s => !(sdtResolvePure [c3Item] s).1.isEmpty)).length) :=
  ⟨by decide, by decide,
   c3_process_xml_file_counts [c3Item] (fun _ => "j".toList) true "s".toList
     c3Root []
     (fun p hp => absurd hp (List.not_mem_nil p))
     (by decide) (by decide) (by decide) (by decide) (fun zs => rfl) (by decide)⟩
